import Mathlib

/-! NoneEncoder statistics and parquet metadata type mappings.

A shallow embedding of `DataMgr/NoneEncoder.h` (the un-encoded chunk encoder: append
protocol, running min/max/null statistics, statistics serialisation) and of
`DataMgr/ForeignStorage/ParquetTypeMappings.h` (which parquet statistics may be
trusted for which column type), followed by theorems about them.

Conventions of the embedding:
* a value of the element type `T` is an `Int`; `size_t` and `int64_t` arithmetic is
  written with an explicit `% 2 ^ 64` where the source computes in that type;
* a pointer `T*` is an index function `Nat → Int` (element `i` of the pointed-to
  memory); its `int8_t*` view is the little-endian two's-complement object
  representation (`memBytes`);
* an exception leaves the fields already assigned as they are, so operations that can
  throw return the encoder state together with the outcome.
-/

/-! ## Element types -/

/-- The integer instantiations of the template parameter `T` of `NoneEncoder<T>`. -/
inductive ElemType where
  | int8
  | int16
  | int32
  | int64
  deriving DecidableEq, Repr

/-- The value of `sizeof(T)`, in bytes. -/
def ElemType.sizeof : ElemType → Nat
  | .int8 => 1
  | .int16 => 2
  | .int32 => 4
  | .int64 => 8

/-- Number of value bits of `T`. -/
def ElemType.bits (T : ElemType) : Nat := 8 * T.sizeof

/-- The constant `std::numeric_limits<T>::max()`. -/
def numeric_limits_max (T : ElemType) : Int := 2 ^ (T.bits - 1) - 1

/-- The constant `std::numeric_limits<T>::lowest()`. -/
def numeric_limits_lowest (T : ElemType) : Int := -(2 ^ (T.bits - 1))

/-- Modelled from the spec: `inline_int_null_value<T>()` (Shared/inline_null_values.h is
not part of the sources). "Null sentinel values for integral types are the type's
designated minimum representable value." -/
def inline_int_null_value (T : ElemType) : Int := numeric_limits_lowest T

/-- The function `none_encoded_null_value<T>()`; every `ElemType` is integral, so the
`std::is_integral` branch is the one taken. -/
def none_encoded_null_value (T : ElemType) : Int := inline_int_null_value T

/-- A value is representable in `T`. -/
def ElemType.InRange (T : ElemType) (v : Int) : Prop :=
  numeric_limits_lowest T ≤ v ∧ v ≤ numeric_limits_max T

instance (T : ElemType) (v : Int) : Decidable (T.InRange v) := by
  unfold ElemType.InRange; infer_instance

/-- The conversion `static_cast<T>(val)` of a wider integer: two's-complement truncation. -/
def static_cast (T : ElemType) (val : Int) : Int :=
  (val + 2 ^ (T.bits - 1)) % 2 ^ T.bits - 2 ^ (T.bits - 1)

/-- One past the largest `size_t` value (64-bit platform). -/
def SIZE_T_MOD : Nat := 2 ^ 64

/-! ## Object representation -/

/-- Byte `k` of the little-endian two's-complement object representation of `v : T`. -/
def byteAt (T : ElemType) (v : Int) (k : Nat) : Nat :=
  ((v % 2 ^ T.bits).toNat / 256 ^ k) % 256

/-- The first `num_bytes` bytes behind `reinterpret_cast<int8_t*>(p)` for `p : T*`. -/
def memBytes (T : ElemType) (p : Nat → Int) (num_bytes : Nat) : List Nat :=
  (List.range num_bytes).map (fun j => byteAt T (p (j / T.sizeof)) (j % T.sizeof))

/-- Unsigned value of a little-endian byte string. -/
def fromBytesLE : List Nat → Nat
  | [] => 0
  | b :: bs => b + 256 * fromBytesLE bs

/-- The `T` value whose object representation is the first `sizeof(T)` bytes of `bs`. -/
def decodeT (T : ElemType) (bs : List Nat) : Int :=
  let u : Int := fromBytesLE (bs.take T.sizeof)
  if u < 2 ^ (T.bits - 1) then u else u - 2 ^ T.bits

/-- The memory of an array holding the values `l` (reads past the end give 0; the
source never reads there). -/
def ptrOf (l : List Int) : Nat → Int := fun i => l.getD i 0

/-! ## SQL type descriptors (shared vocabulary) -/

/-- The enumeration `SQLTypes` of Shared/sqltypes.h. -/
inductive SQLTypes where
  | kNULLT | kBOOLEAN | kCHAR | kVARCHAR | kNUMERIC | kDECIMAL | kINT | kSMALLINT
  | kFLOAT | kDOUBLE | kTIME | kTIMESTAMP | kBIGINT | kTEXT | kDATE | kARRAY
  | kINTERVAL_DAY_TIME | kINTERVAL_YEAR_MONTH | kPOINT | kLINESTRING | kPOLYGON
  | kMULTIPOLYGON | kTINYINT | kGEOMETRY | kGEOGRAPHY | kEVAL_CONTEXT_TYPE | kVOID
  | kCURSOR
  deriving DecidableEq, Repr

/-- The fields of `SQLTypeInfo` that the embedded code reads. -/
structure SQLTypeInfo where
  type : SQLTypes
  dimension : Int
  scale : Int
  size : Int
  deriving DecidableEq, Repr

def SQLTypeInfo.get_type (ti : SQLTypeInfo) : SQLTypes := ti.type

def SQLTypeInfo.get_precision (ti : SQLTypeInfo) : Int := ti.dimension

def SQLTypeInfo.get_scale (ti : SQLTypeInfo) : Int := ti.scale

def SQLTypeInfo.get_size (ti : SQLTypeInfo) : Int := ti.size

/-- The predicate `SQLTypeInfo::is_integer()`: one of the four integer kinds. -/
def SQLTypeInfo.is_integer (ti : SQLTypeInfo) : Bool :=
  ti.type = .kINT || ti.type = .kSMALLINT || ti.type = .kBIGINT || ti.type = .kTINYINT

/-- The predicate `SQLTypeInfo::is_decimal()`. -/
def SQLTypeInfo.is_decimal (ti : SQLTypeInfo) : Bool :=
  ti.type = .kDECIMAL || ti.type = .kNUMERIC

/-! ## Backing buffer -/

/-- Modelled from the spec: the backing buffer (`AbstractBuffer` is not part of the
sources). "The encoded byte storage for one chunk, append-only in the common case but
randomly writable at a byte offset"; it exposes `append(bytes)` and
`write_at(bytes, offset)`. -/
structure AbstractBuffer where
  mem : List Nat
  sql_type : SQLTypeInfo
  deriving DecidableEq, Repr

/-- Modelled from the spec: `AbstractBuffer::append(src, num_bytes)` extends the buffer
by the given bytes. -/
def AbstractBuffer.append (b : AbstractBuffer) (src : List Nat) : AbstractBuffer :=
  { b with mem := b.mem ++ src }

/-- Modelled from the spec: `AbstractBuffer::write(src, num_bytes, offset)` modifies the
buffer in place at byte position `offset`; bytes after the written range are kept, and
a gap between the old end and `offset` (contents unspecified) is shown as zero bytes. -/
def AbstractBuffer.write (b : AbstractBuffer) (src : List Nat) (offset : Nat) :
    AbstractBuffer :=
  { b with mem := b.mem.take offset ++ List.replicate (offset - b.mem.length) 0 ++ src
                    ++ b.mem.drop (offset + src.length) }

/-- Modelled from the spec: `AbstractBuffer::size()`, the number of bytes held. -/
def AbstractBuffer.size (b : AbstractBuffer) : Nat := b.mem.length

/-- The logical content of a buffer of `T` elements: element `i` is decoded from bytes
`i * sizeof(T) ..`. -/
def AbstractBuffer.elems (T : ElemType) (b : AbstractBuffer) : List Int :=
  (List.range (b.mem.length / T.sizeof)).map
    (fun i => decodeT T (b.mem.drop (i * T.sizeof)))

/-! ## Chunk metadata -/

/-- Modelled from the spec: the record `ChunkStats` (ChunkMetadata.h is not part of the
sources), the "type-tagged representation of min/max/has_nulls"; `min` and `max` are the
datum values. -/
structure ChunkStats where
  min : Int
  max : Int
  has_nulls : Bool
  deriving DecidableEq, Repr

/-- Modelled from the spec: the record `ChunkMetadata` (ChunkMetadata.h is not part of the
sources): the logical type tag, the byte count, the element count and the statistics, in
the order in which `getMetadata(const SQLTypeInfo&)` initialises them. -/
structure ChunkMetadata where
  sqlType : SQLTypeInfo
  numBytes : Nat
  numElements : Nat
  chunkStats : ChunkStats
  deriving DecidableEq, Repr

/-- Modelled from the spec: the method `ChunkMetadata::fillChunkStats(min, max, has_nulls)`
(ChunkMetadata.h is not part of the sources) stores the three values in the record. -/
def ChunkMetadata.fillChunkStats (m : ChunkMetadata) (min max : Int) (has_nulls : Bool) :
    ChunkMetadata :=
  { m with chunkStats := { min := min, max := max, has_nulls := has_nulls } }

/-! ## The encoder -/

/-- State of a `NoneEncoder<T>`: the base-class members `num_elems_` and `buffer_`, and
the statistics members. -/
structure NoneEncoder where
  num_elems_ : Nat
  buffer_ : AbstractBuffer
  dataMin : Int
  dataMax : Int
  has_nulls : Bool
  deriving DecidableEq, Repr

/-- How a call can end abnormally: the decimal overflow validator throws, or a `CHECK`
fails. -/
inductive EncoderError where
  | DecimalOverflow
  | CheckFailed
  deriving DecidableEq, Repr

/-- The constructor `NoneEncoder(buffer)`. -/
def NoneEncoder.new (T : ElemType) (buffer : AbstractBuffer) : NoneEncoder :=
  { num_elems_ := 0
    buffer_ := buffer
    dataMin := numeric_limits_max T
    dataMax := numeric_limits_lowest T
    has_nulls := false }

/-- Modelled from the spec: `Encoder::getMetadata` of the parent class (Encoder.h is not
part of the sources) followed by `fillChunkStats`: "pure read of the current record
including a type-tagged representation of min/max/has_nulls plus element count". -/
def NoneEncoder.getMetadata (e : NoneEncoder) : ChunkMetadata :=
  let chunkMetadata : ChunkMetadata :=
    { sqlType := e.buffer_.sql_type
      numBytes := e.buffer_.size
      numElements := e.num_elems_
      chunkStats := { min := 0, max := 0, has_nulls := false } }
  chunkMetadata.fillChunkStats e.dataMin e.dataMax e.has_nulls

/-- Modelled from the spec: the call `Encoder::getMetadata(chunkMetadata)` of the parent
class (Encoder.h is not part of the sources), with its effect on the encoder made
explicit: it writes the buffer's type, the byte count and the element count into the
record and, being a "pure read of the current record ... no side effects", leaves the
encoder as it is. -/
def Encoder.getMetadata (e : NoneEncoder) (chunkMetadata : ChunkMetadata) :
    NoneEncoder × ChunkMetadata :=
  (e, { chunkMetadata with sqlType := e.buffer_.sql_type
                           numBytes := e.buffer_.size
                           numElements := e.num_elems_ })

/-- The method `getMetadata(ChunkMetadata& chunkMetadata)` as a call on the encoder: the
encoder after the call and the record left in the out-parameter. -/
def NoneEncoder.getMetadataCall (e : NoneEncoder) (chunkMetadata : ChunkMetadata) :
    NoneEncoder × ChunkMetadata :=
  let r := Encoder.getMetadata e chunkMetadata
  (r.1, r.2.fillChunkStats r.1.dataMin r.1.dataMax r.1.has_nulls)

/-- The overload `getMetadata(const SQLTypeInfo& ti)`. -/
def NoneEncoder.getMetadataFor (e : NoneEncoder) (ti : SQLTypeInfo) : ChunkMetadata :=
  let chunk_metadata : ChunkMetadata :=
    { sqlType := ti
      numBytes := 0
      numElements := 0
      chunkStats := { min := 0, max := 0, has_nulls := false } }
  chunk_metadata.fillChunkStats e.dataMin e.dataMax e.has_nulls

/-- The overload `getMetadata(const SQLTypeInfo& ti)` as a call on the encoder: the encoder
after the call (the body assigns no member) and the returned record. -/
def NoneEncoder.getMetadataForCall (e : NoneEncoder) (ti : SQLTypeInfo) :
    NoneEncoder × ChunkMetadata :=
  let chunk_metadata : ChunkMetadata :=
    { sqlType := ti
      numBytes := 0
      numElements := 0
      chunkStats := { min := 0, max := 0, has_nulls := false } }
  (e, chunk_metadata.fillChunkStats e.dataMin e.dataMax e.has_nulls)

/-- The element loop of `appendData`, from index `i` for `count` more iterations.
`validate d = true` means `decimal_overflow_validator_.validate(d)` returns; `false`
means it throws. The state is the encoder together with the vector `encoded_data`.
`Except.error` carries the state at the moment of the throw. -/
def appendLoop (T : ElemType) (validate : Int → Bool) (unencodedData : Nat → Int)
    (replicating : Bool) :
    Nat → Nat → NoneEncoder × List Int →
      Except (NoneEncoder × List Int) (NoneEncoder × List Int)
  | _, 0, s => .ok s
  | i, count + 1, (e, encoded_data) =>
    let ri := if replicating then 0 else i
    let data := unencodedData ri
    let encoded_data := if replicating then encoded_data.set i data else encoded_data
    if data = none_encoded_null_value T then
      appendLoop T validate unencodedData replicating (i + 1) count
        ({ e with has_nulls := true }, encoded_data)
    else if validate data then
      appendLoop T validate unencodedData replicating (i + 1) count
        ({ e with dataMin := min e.dataMin data, dataMax := max e.dataMax data },
          encoded_data)
    else
      .error (e, encoded_data)

/-- What a call of `appendData` leaves behind: the encoder state, the number of bytes by
which the reference parameter `src_data` was advanced, and the returned metadata or
the error. -/
structure AppendResult where
  encoder : NoneEncoder
  src_advance : Nat
  result : Except EncoderError ChunkMetadata

/-- The method `NoneEncoder<T>::appendData(src_data, num_elems_to_append, ti, replicating,
offset)`. -/
def NoneEncoder.appendData (T : ElemType) (validate : Int → Bool) (e : NoneEncoder)
    (src_data : Nat → Int) (num_elems_to_append : Nat) (replicating : Bool)
    (offset : Int) : AppendResult :=
  let encoded_data : List Int :=
    if replicating then List.replicate num_elems_to_append 0 else []
  match appendLoop T validate src_data replicating 0 num_elems_to_append
      (e, encoded_data) with
  | .error (e1, _) => { encoder := e1, src_advance := 0, result := .error .DecimalOverflow }
  | .ok (e1, encoded_data) =>
    let num_bytes := (num_elems_to_append * T.sizeof) % SIZE_T_MOD
    if offset = -1 then
      let e2 := { e1 with num_elems_ := (e1.num_elems_ + num_elems_to_append) % SIZE_T_MOD }
      let e3 := { e2 with
        buffer_ := e2.buffer_.append
          (if replicating then memBytes T (ptrOf encoded_data) num_bytes
           else memBytes T src_data num_bytes) }
      { encoder := e3
        src_advance := if replicating then 0 else num_bytes
        result := .ok e3.getMetadata }
    else
      let e2 := { e1 with
        num_elems_ := ((offset + (num_elems_to_append : Int)) % (SIZE_T_MOD : Int)).toNat }
      if replicating then
        { encoder := e2, src_advance := 0, result := .error .CheckFailed }
      else if offset < 0 then
        { encoder := e2, src_advance := 0, result := .error .CheckFailed }
      else
        let e3 := { e2 with
          buffer_ := e2.buffer_.write (memBytes T src_data num_bytes) offset.toNat }
        { encoder := e3, src_advance := 0, result := .ok e3.getMetadata }

/-- Appending the batches one after the other, each with `replicating = false` and no
offset (`offset = -1`); `none` as soon as one call fails. -/
def appendAll (T : ElemType) (validate : Int → Bool) :
    NoneEncoder → List (List Int) → Option NoneEncoder
  | e, [] => some e
  | e, b :: bs =>
    let r := e.appendData T validate (ptrOf b) b.length false (-1)
    match r.result with
    | .ok _ => appendAll T validate r.encoder bs
    | .error _ => none

/-! ## Recomputing statistics over a range -/

/-- The class `utils::blocked_range`: the half-open index range `[begin, end)`. -/
structure blocked_range where
  range_begin : Nat
  range_end : Nat
  deriving DecidableEq, Repr

/-- The loop of the block body of `updateStats(dst, numElements)`, from index `i` for
`count` more iterations, on the local triple `(min, max, nulls)`. -/
def updateStatsLoop (T : ElemType) (validate : Int → Bool) (data : Nat → Int) :
    Nat → Nat → Int × Int × Bool → Except EncoderError (Int × Int × Bool)
  | _, 0, acc => .ok acc
  | i, count + 1, (mn, mx, nulls) =>
    if data i ≠ none_encoded_null_value T then
      if validate (data i) then
        updateStatsLoop T validate data (i + 1) count (min mn (data i), max mx (data i), nulls)
      else
        .error .DecimalOverflow
    else
      updateStatsLoop T validate data (i + 1) count (mn, mx, true)

/-- The block body (first lambda) of `updateStats(dst, numElements)`: fold the elements
`range.begin() ≤ i < range.end()` into `init`. -/
def updateStatsBody (T : ElemType) (validate : Int → Bool) (data : Nat → Int)
    (range : blocked_range) (init : Int × Int × Bool) :
    Except EncoderError (Int × Int × Bool) :=
  updateStatsLoop T validate data range.range_begin (range.range_end - range.range_begin) init

/-- The merge function (second lambda) of `updateStats(dst, numElements)`. -/
def updateStatsReduce (lhs rhs : Int × Int × Bool) : Int × Int × Bool :=
  (min lhs.1 rhs.1, max lhs.2.1 rhs.2.1, lhs.2.2 || rhs.2.2)

/-- A way of running a parallel reduction: which blocks the body is run on and how the
per-block results are paired up by the merge function. -/
inductive ReducePlan where
  | block (range : blocked_range)
  | join (lhs rhs : ReducePlan)
  deriving Repr

/-- The blocks of a plan, in the order in which they occur in it. -/
def ReducePlan.blocks : ReducePlan → List blocked_range
  | .block r => [r]
  | .join lhs rhs => lhs.blocks ++ rhs.blocks

/-- Modelled from the spec: `utils::parallel_reduce(range, identity, body, reduce)`
(Utils/Threading.h is not part of the sources): it "partitions the range into contiguous
blocks, computes a local `(min, max, has_nulls)` triple per block" by running the body
on the block from the identity value, "and combines blocks pairwise" by the merge
function. The plan is the scheduler's choice; an exception of a body ends the
reduction. -/
def parallel_reduce {α ε : Type} (body : blocked_range → α → Except ε α)
    (reduce : α → α → α) (identity : α) : ReducePlan → Except ε α
  | .block r => body r identity
  | .join lhs rhs =>
    match parallel_reduce body reduce identity lhs with
    | .error err => .error err
    | .ok a =>
      match parallel_reduce body reduce identity rhs with
      | .error err => .error err
      | .ok b => .ok (reduce a b)

/-- The blocks `rs`, in this order, split `[lo, hi)` into contiguous blocks. -/
def IsBlockPartition : List blocked_range → Nat → Nat → Prop
  | [], lo, hi => lo = hi
  | r :: rs, lo, hi =>
    r.range_begin = lo ∧ r.range_begin ≤ r.range_end ∧ IsBlockPartition rs r.range_end hi

instance : (rs : List blocked_range) → (lo hi : Nat) → Decidable (IsBlockPartition rs lo hi)
  | [], lo, hi => by unfold IsBlockPartition; infer_instance
  | r :: rs, lo, hi => by
    unfold IsBlockPartition
    have := instDecidableIsBlockPartition rs r.range_end hi
    infer_instance

/-- The method `updateStats(const int8_t* dst, size_t numElements)`, run under the plan
the scheduler chose for `blocked_range(0, numElements)`. The three members are assigned
only when the reduction returns. -/
def NoneEncoder.updateStatsRange (T : ElemType) (validate : Int → Bool) (e : NoneEncoder)
    (dst : Nat → Int) (plan : ReducePlan) : NoneEncoder × Except EncoderError Unit :=
  match parallel_reduce (updateStatsBody T validate dst) updateStatsReduce
      (e.dataMin, e.dataMax, e.has_nulls) plan with
  | .ok (mn, mx, nulls) => ({ e with dataMin := mn, dataMax := mx, has_nulls := nulls }, .ok ())
  | .error err => (e, .error err)

/-- The method `updateStats(const int64_t val, const bool is_null)`. -/
def NoneEncoder.updateStats (T : ElemType) (e : NoneEncoder) (val : Int) (is_null : Bool) :
    NoneEncoder :=
  if is_null then
    { e with has_nulls := true }
  else
    let data := static_cast T val
    { e with dataMin := min e.dataMin data, dataMax := max e.dataMax data }

/-- The method `reduceStats(const Encoder& that)`. -/
def NoneEncoder.reduceStats (e that_typed : NoneEncoder) : NoneEncoder :=
  let e1 := if that_typed.has_nulls then { e with has_nulls := true } else e
  { e1 with dataMin := min e1.dataMin that_typed.dataMin
            dataMax := max e1.dataMax that_typed.dataMax }

/-- The method `copyMetadata(const Encoder* copyFromEncoder)`. -/
def NoneEncoder.copyMetadata (e castedEncoder : NoneEncoder) : NoneEncoder :=
  { e with num_elems_ := castedEncoder.num_elems_
           dataMin := castedEncoder.dataMin
           dataMax := castedEncoder.dataMax
           has_nulls := castedEncoder.has_nulls }

/-- The method `updateStats(const double val, const bool is_null)`. The conversion
`static_cast<T>(val)` of a double to the integer type `T` is the parameter `double_to_T`
(`D` stands for the type `double`). -/
def NoneEncoder.updateStatsDouble {D : Type} (double_to_T : D → Int) (e : NoneEncoder)
    (val : D) (is_null : Bool) : NoneEncoder :=
  if is_null then
    { e with has_nulls := true }
  else
    let data := double_to_T val
    { e with dataMin := min e.dataMin data, dataMax := max e.dataMax data }

/-- The method `resetChunkStats(const ChunkStats& stats)`: the encoder afterwards and the
returned flag. `DatumFetcher::getDatumVal<T>` (Shared/DatumFetchers.h, not part of the
sources) is the parameter `getDatumVal`. -/
def NoneEncoder.resetChunkStats (getDatumVal : Int → Int) (e : NoneEncoder)
    (stats : ChunkStats) : NoneEncoder × Bool :=
  let new_min := getDatumVal stats.min
  let new_max := getDatumVal stats.max
  if e.dataMin = new_min ∧ e.dataMax = new_max ∧ e.has_nulls = stats.has_nulls then
    (e, false)
  else
    ({ e with dataMin := new_min, dataMax := new_max, has_nulls := stats.has_nulls }, true)

/-! ## Statistics serialisation -/

/-- Object representation of a `size_t` (8 bytes, little endian). -/
def sizeBytes (n : Nat) : List Nat :=
  (List.range 8).map (fun k => (n / 256 ^ k) % 256)

/-- The call `fwrite(ptr, size, 1, f)`: the stream `f` (the bytes written so far) grows
by the object's bytes. -/
def fwrite (bytes : List Nat) (f : List Nat) : List Nat := f ++ bytes

/-- The call `fread(ptr, size, 1, f)` on the bytes still to be read, `obj` being the `size`
bytes of the object before the call: the object's bytes afterwards and the rest of the
stream. The bytes that are there (at most `size`) are copied over the leading bytes of
the object and its other bytes stay, so a read that finds no byte leaves the object as it
was. The callers ignore the value `fread` returns. (C leaves the value of a partially
read object indeterminate; the model shows the bytes the copy leaves.) -/
def fread (obj : List Nat) (f : List Nat) : List Nat × List Nat :=
  (f.take obj.length ++ obj.drop (f.take obj.length).length, f.drop obj.length)

/-- The method `writeMetadata(FILE* f)`. -/
def NoneEncoder.writeMetadata (T : ElemType) (e : NoneEncoder) (f : List Nat) : List Nat :=
  let f := fwrite (sizeBytes e.num_elems_) f
  let f := fwrite (memBytes T (fun _ => e.dataMin) T.sizeof) f
  let f := fwrite (memBytes T (fun _ => e.dataMax) T.sizeof) f
  fwrite [if e.has_nulls then 1 else 0] f

/-- The method `readMetadata(FILE* f)`: the encoder after the four reads and the rest of
the stream. The method checks no result of `fread` and always returns; a member whose
bytes are not there keeps its value. -/
def NoneEncoder.readMetadata (T : ElemType) (e : NoneEncoder) (f : List Nat) :
    NoneEncoder × List Nat :=
  let r0 := fread (sizeBytes e.num_elems_) f
  let r1 := fread (memBytes T (fun _ => e.dataMin) T.sizeof) r0.2
  let r2 := fread (memBytes T (fun _ => e.dataMax) T.sizeof) r1.2
  let r3 := fread [if e.has_nulls then 1 else 0] r2.2
  ({ e with num_elems_ := fromBytesLE r0.1
            dataMin := decodeT T r1.1
            dataMax := decodeT T r2.1
            has_nulls := decide (fromBytesLE r3.1 ≠ 0) }, r3.2)

/-- A state a `NoneEncoder<T>` object can be in: `num_elems_` is a `size_t` and the two
extremes are values of `T`. -/
def NoneEncoder.WF (T : ElemType) (e : NoneEncoder) : Prop :=
  e.num_elems_ < SIZE_T_MOD ∧ T.InRange e.dataMin ∧ T.InRange e.dataMax

instance (T : ElemType) (e : NoneEncoder) : Decidable (e.WF T) := by
  unfold NoneEncoder.WF; infer_instance

/-! ## Parquet metadata type mappings -/

namespace parquet

/-- The enumeration `parquet::Type::type` of physical types. -/
inductive PhysicalType where
  | BOOLEAN | INT32 | INT64 | INT96 | FLOAT | DOUBLE | BYTE_ARRAY | FIXED_LEN_BYTE_ARRAY
  | UNDEFINED
  deriving DecidableEq, Repr

/-- The class `parquet::LogicalType` with the parameters of its integer and decimal
annotations. -/
inductive LogicalType where
  | NONE
  | INT (bit_width : Int) (is_signed : Bool)
  | DECIMAL (precision : Int) (scale : Int)
  | STRING | MAP | LIST | ENUM | DATE | TIME | TIMESTAMP | INTERVAL | NIL | JSON | BSON
  | UUID | UNDEFINED
  deriving DecidableEq, Repr

def LogicalType.is_none : LogicalType → Bool
  | .NONE => true
  | _ => false

def LogicalType.is_int : LogicalType → Bool
  | .INT _ _ => true
  | _ => false

def LogicalType.is_decimal : LogicalType → Bool
  | .DECIMAL _ _ => true
  | _ => false

/-- The fields of `parquet::ColumnDescriptor` that the embedded code reads. -/
structure ColumnDescriptor where
  physical_type : PhysicalType
  logical_type : LogicalType
  deriving DecidableEq, Repr

end parquet

/-- The field of the catalog's `ColumnDescriptor` that the embedded code reads. -/
structure ColumnDescriptor where
  columnType : SQLTypeInfo
  deriving DecidableEq, Repr

/-- Modelled from the spec: `decimal_to_int_type` (Shared/sqltypes.h is not part of the
sources). "Fixed-point decimal columns are treated as the smallest integer kind capable
of holding their unscaled value": the integer kind of the column's storage width of 1, 2,
4 or 8 bytes; no integer kind has another width, and the result is then `kNULLT`. -/
def decimal_to_int_type (ti : SQLTypeInfo) : SQLTypes :=
  if ti.get_size = 1 then .kTINYINT
  else if ti.get_size = 2 then .kSMALLINT
  else if ti.get_size = 4 then .kINT
  else if ti.get_size = 8 then .kBIGINT
  else .kNULLT

namespace AllowedParquetMetadataTypeMappings

/-- The static table `physical_type_mappings`. -/
def physical_type_mappings : List (SQLTypes × parquet.PhysicalType) :=
  [ (.kBOOLEAN, .BOOLEAN),
    (.kTINYINT, .INT32),
    (.kTINYINT, .INT64),
    (.kSMALLINT, .INT32),
    (.kSMALLINT, .INT64),
    (.kINT, .INT32),
    (.kINT, .INT64),
    (.kBIGINT, .INT32),
    (.kBIGINT, .INT64),
    (.kFLOAT, .FLOAT),
    (.kFLOAT, .DOUBLE),
    (.kDOUBLE, .FLOAT),
    (.kDOUBLE, .DOUBLE) ]

/-- The function `validateIntegralMapping(column_type, logical_type)`; the division is
C++ integer division. -/
def validateIntegralMapping (column_type : SQLTypeInfo) (logical_type : parquet.LogicalType) :
    Bool :=
  match logical_type with
  | .INT bit_width is_signed =>
    if column_type.is_integer then
      let logical_byte_width := Int.tdiv bit_width 8
      let omnisci_byte_width := column_type.get_size
      if (is_signed && decide (logical_byte_width ≤ omnisci_byte_width)) ||
          (!is_signed && decide (logical_byte_width < omnisci_byte_width)) then
        true
      else
        false
    else
      false
  | _ => false

/-- The function `validateDecimalMapping(column_type, logical_type)`. -/
def validateDecimalMapping (column_type : SQLTypeInfo) (logical_type : parquet.LogicalType) :
    Bool :=
  match logical_type with
  | .DECIMAL precision scale =>
    if column_type.is_decimal then
      if column_type.get_precision = precision ∧ column_type.get_scale = scale then
        true
      else
        false
    else
      false
  | _ => false

/-- The function `isColumnMappingSupported(omnisci_desc, parquet_desc)`. The helper
`decimal_to_int_type` (Shared/sqltypes.h, not part of the sources) is a parameter. -/
def isColumnMappingSupported (decimal_to_int_type : SQLTypeInfo → SQLTypes)
    (omnisci_desc : ColumnDescriptor) (parquet_desc : parquet.ColumnDescriptor) : Bool :=
  let column_type := omnisci_desc.columnType
  let logical_type := parquet_desc.logical_type
  if logical_type.is_none then
    let type := if column_type.is_decimal then decimal_to_int_type column_type
                else column_type.get_type
    physical_type_mappings.contains (type, parquet_desc.physical_type)
  else if validateIntegralMapping column_type logical_type then
    true
  else if validateDecimalMapping column_type logical_type then
    true
  else
    false

end AllowedParquetMetadataTypeMappings

/-! ## Pure descriptions used in the statements -/

/-- Folding one element into a statistics triple `(min, max, has_nulls)`: the null
sentinel sets the flag, any other value widens the range. -/
def foldStat (T : ElemType) (s : Int × Int × Bool) (d : Int) : Int × Int × Bool :=
  if d = none_encoded_null_value T then (s.1, s.2.1, true)
  else (min s.1 d, max s.2.1 d, s.2.2)

/-- The statistics triple of an encoder. -/
def NoneEncoder.stats (e : NoneEncoder) : Int × Int × Bool :=
  (e.dataMin, e.dataMax, e.has_nulls)

/-- The encoder with its three statistics members replaced by the triple `s`. -/
def NoneEncoder.withStats (e : NoneEncoder) (s : Int × Int × Bool) : NoneEncoder :=
  { e with dataMin := s.1, dataMax := s.2.1, has_nulls := s.2.2 }

/-- The element that iteration `i` of the loop of `appendData` reads. -/
def readElem (src_data : Nat → Int) (replicating : Bool) (i : Nat) : Int :=
  src_data (if replicating then 0 else i)

/-- The elements `data[lo], .., data[lo + count - 1]`. -/
def elemsFrom (data : Nat → Int) (lo count : Nat) : List Int :=
  (List.range' lo count).map data

/-- The local `type` of `isColumnMappingSupported`: the column kind that is looked up in
the physical-type table. -/
def effective_column_kind (d2i : SQLTypeInfo → SQLTypes) (column_type : SQLTypeInfo) :
    SQLTypes :=
  if column_type.is_decimal then d2i column_type else column_type.get_type

/-- The encoder states reached from a freshly constructed `NoneEncoder<T>` by calls of
`appendData` (whatever their outcome), of the three `updateStats` overloads and of
`reduceStats` with an encoder reached in the same way. The flag records that at least
one non-null value has been folded in: by `appendData` when the loop got as far as a
non-null element, by a scalar `updateStats` with `is_null = false`, by a successful range
`updateStats` over a block holding a non-null element, or by `reduceStats` from either
operand. -/
inductive Reached (T : ElemType) (validate : Int → Bool) {D : Type} (double_to_T : D → Int) :
    NoneEncoder → Bool → Prop where
  | fresh (buffer : AbstractBuffer) : Reached T validate double_to_T (NoneEncoder.new T buffer) false
  | append (e : NoneEncoder) (f : Bool) (src : Nat → Int) (n : Nat) (repl : Bool)
      (offset : Int) :
      Reached T validate double_to_T e f →
      Reached T validate double_to_T (e.appendData T validate src n repl offset).encoder f
  | append_folded (e : NoneEncoder) (f : Bool) (src : Nat → Int) (n : Nat) (repl : Bool)
      (offset : Int) (i : Nat) :
      Reached T validate double_to_T e f →
      i < n →
      (∀ k, k ≤ i → readElem src repl k ≠ none_encoded_null_value T →
        validate (readElem src repl k) = true) →
      readElem src repl i ≠ none_encoded_null_value T →
      Reached T validate double_to_T (e.appendData T validate src n repl offset).encoder true
  | updateStats (e : NoneEncoder) (f : Bool) (val : Int) (is_null : Bool) :
      Reached T validate double_to_T e f →
      Reached T validate double_to_T (e.updateStats T val is_null) (f || !is_null)
  | updateStatsDouble (e : NoneEncoder) (f : Bool) (val : D) (is_null : Bool) :
      Reached T validate double_to_T e f →
      Reached T validate double_to_T (e.updateStatsDouble double_to_T val is_null)
        (f || !is_null)
  | updateStatsRange (e : NoneEncoder) (f : Bool) (dst : Nat → Int) (plan : ReducePlan) :
      Reached T validate double_to_T e f →
      Reached T validate double_to_T (e.updateStatsRange T validate dst plan).1 f
  | updateStatsRange_folded (e : NoneEncoder) (f : Bool) (dst : Nat → Int)
      (plan : ReducePlan) (r : blocked_range) (i : Nat) :
      Reached T validate double_to_T e f →
      (e.updateStatsRange T validate dst plan).2 = .ok () →
      r ∈ plan.blocks → r.range_begin ≤ i → i < r.range_end →
      dst i ≠ none_encoded_null_value T →
      Reached T validate double_to_T (e.updateStatsRange T validate dst plan).1 true
  | reduceStats (e : NoneEncoder) (f : Bool) (that : NoneEncoder) (g : Bool) :
      Reached T validate double_to_T e f →
      Reached T validate double_to_T that g →
      Reached T validate double_to_T (e.reduceStats that) (f || g)

/-- A sequence of `appendData` calls without an offset (`offset = -1`), each given by its
source pointer, its `num_elems_to_append` and its `replicating` flag; `none` as soon as
one call fails. -/
def appendCalls (T : ElemType) (validate : Int → Bool) :
    NoneEncoder → List ((Nat → Int) × Nat × Bool) → Option NoneEncoder
  | e, [] => some e
  | e, (src, n, repl) :: calls =>
    let r := e.appendData T validate src n repl (-1)
    match r.result with
    | .ok _ => appendCalls T validate r.encoder calls
    | .error _ => none

/-- The encoder states reached from a freshly constructed `NoneEncoder<T>` by calls of
`appendData` (whatever their arguments and outcome) and of the range overload of
`updateStats`. The flag says whether a non-null value has been folded in so far: a call
keeps the flag when every element it folds is the null sentinel (for `appendData`: every
element the loop gets to; for `updateStats`: the call fails, or every element of every
block), and sets it when it folds a non-null element. The elements of a call that folds
a non-null element are values of `T`. -/
inductive ReachedByData (T : ElemType) (validate : Int → Bool) : NoneEncoder → Bool → Prop where
  | fresh (buffer : AbstractBuffer) : ReachedByData T validate (NoneEncoder.new T buffer) false
  | append (e : NoneEncoder) (f : Bool) (src : Nat → Int) (n : Nat) (repl : Bool)
      (offset : Int) :
      ReachedByData T validate e f →
      (∀ i, i < n →
        (∀ k, k ≤ i → readElem src repl k ≠ none_encoded_null_value T →
          validate (readElem src repl k) = true) →
        readElem src repl i = none_encoded_null_value T) →
      ReachedByData T validate (e.appendData T validate src n repl offset).encoder f
  | append_folded (e : NoneEncoder) (f : Bool) (src : Nat → Int) (n : Nat) (repl : Bool)
      (offset : Int) (i : Nat) :
      ReachedByData T validate e f →
      (∀ k, k < n → T.InRange (readElem src repl k)) →
      i < n →
      (∀ k, k ≤ i → readElem src repl k ≠ none_encoded_null_value T →
        validate (readElem src repl k) = true) →
      readElem src repl i ≠ none_encoded_null_value T →
      ReachedByData T validate (e.appendData T validate src n repl offset).encoder true
  | updateStatsRange (e : NoneEncoder) (f : Bool) (dst : Nat → Int) (plan : ReducePlan) :
      ReachedByData T validate e f →
      ((e.updateStatsRange T validate dst plan).2 = .ok () →
        ∀ r ∈ plan.blocks, ∀ i, r.range_begin ≤ i → i < r.range_end →
          dst i = none_encoded_null_value T) →
      ReachedByData T validate (e.updateStatsRange T validate dst plan).1 f
  | updateStatsRange_folded (e : NoneEncoder) (f : Bool) (dst : Nat → Int)
      (plan : ReducePlan) (r : blocked_range) (i : Nat) :
      ReachedByData T validate e f →
      (∀ b ∈ plan.blocks, ∀ k, b.range_begin ≤ k → k < b.range_end → T.InRange (dst k)) →
      (e.updateStatsRange T validate dst plan).2 = .ok () →
      r ∈ plan.blocks → r.range_begin ≤ i → i < r.range_end →
      dst i ≠ none_encoded_null_value T →
      ReachedByData T validate (e.updateStatsRange T validate dst plan).1 true

/-! ## Theorems -/

/-! ### Parquet integer annotations -/

open AllowedParquetMetadataTypeMappings in
/-- C3: for an integer column of byte width `w` (any width, so also 1, 2, 4 and 8) and a
foreign integer annotation of bit width `b`, `isColumnMappingSupported` is true exactly when
`b / 8 ≤ w` for a signed annotation and exactly when `b / 8 < w` for an unsigned one. -/
theorem isColumnMappingSupported_int_iff (decimal_to_int_type : SQLTypeInfo → SQLTypes)
    (col : ColumnDescriptor) (phys : parquet.PhysicalType) (b w : Int) (is_signed : Bool)
    (hint : col.columnType.is_integer = true) (hsize : col.columnType.get_size = w) :
    isColumnMappingSupported decimal_to_int_type col ⟨phys, .INT b is_signed⟩ = true ↔
      if is_signed = true then Int.tdiv b 8 ≤ w else Int.tdiv b 8 < w := by
  subst hsize
  cases is_signed <;>
    simp [isColumnMappingSupported, validateIntegralMapping, validateDecimalMapping,
      parquet.LogicalType.is_none, hint]

open AllowedParquetMetadataTypeMappings in
/-- Witness for C3: a signed 32-bit annotation maps onto a 4-byte and an 8-byte column but
not onto a 2-byte one; an unsigned 32-bit annotation maps onto an 8-byte column but not
onto a 4-byte one. -/
theorem isColumnMappingSupported_int_iff_witness :
    (ColumnDescriptor.mk ⟨.kINT, 0, 0, 4⟩).columnType.is_integer = true ∧
    (ColumnDescriptor.mk ⟨.kINT, 0, 0, 4⟩).columnType.get_size = 4 ∧
    (isColumnMappingSupported (fun _ => .kNULLT) ⟨⟨.kINT, 0, 0, 4⟩⟩ ⟨.INT32, .INT 32 true⟩ = true ↔
      if true = true then Int.tdiv 32 8 ≤ (4 : Int) else Int.tdiv 32 8 < (4 : Int)) ∧
    isColumnMappingSupported (fun _ => .kNULLT) ⟨⟨.kINT, 0, 0, 4⟩⟩ ⟨.INT32, .INT 32 true⟩ = true ∧
    isColumnMappingSupported (fun _ => .kNULLT) ⟨⟨.kBIGINT, 0, 0, 8⟩⟩ ⟨.INT32, .INT 32 true⟩ = true ∧
    isColumnMappingSupported (fun _ => .kNULLT) ⟨⟨.kSMALLINT, 0, 0, 2⟩⟩ ⟨.INT32, .INT 32 true⟩ = false ∧
    isColumnMappingSupported (fun _ => .kNULLT) ⟨⟨.kBIGINT, 0, 0, 8⟩⟩ ⟨.INT32, .INT 32 false⟩ = true ∧
    isColumnMappingSupported (fun _ => .kNULLT) ⟨⟨.kINT, 0, 0, 4⟩⟩ ⟨.INT32, .INT 32 false⟩ = false :=
  ⟨by decide, by decide,
    isColumnMappingSupported_int_iff (fun _ => .kNULLT) ⟨⟨.kINT, 0, 0, 4⟩⟩ .INT32 32 4 true
      (by decide) (by decide),
    by decide, by decide, by decide, by decide, by decide⟩

/-! ### Object representation round trip -/

theorem fromBytesLE_digits (n u : Nat) :
    fromBytesLE ((List.range n).map (fun k => (u / 256 ^ k) % 256)) = u % 256 ^ n := by
  induction n generalizing u with
  | zero => simp [fromBytesLE, Nat.mod_one]
  | succ n ih =>
    rw [List.range_succ_eq_map, List.map_cons, List.map_map, fromBytesLE]
    have h : ((fun k => u / 256 ^ k % 256) ∘ Nat.succ) = fun k => (u / 256) / 256 ^ k % 256 := by
      funext k
      simp [Function.comp, Nat.pow_succ, Nat.div_div_eq_div_mul, Nat.mul_comm]
    rw [h, ih (u / 256), Nat.pow_succ, Nat.mul_comm (256 ^ n) 256, Nat.mod_mul]
    simp

theorem memBytes_const (T : ElemType) (v : Int) :
    memBytes T (fun _ => v) T.sizeof = (List.range T.sizeof).map (byteAt T v) := by
  unfold memBytes
  apply List.map_congr_left
  intro j hj
  rw [Nat.mod_eq_of_lt (List.mem_range.mp hj)]

theorem memBytes_length (T : ElemType) (p : Nat → Int) (n : Nat) :
    (memBytes T p n).length = n := by
  simp [memBytes]

theorem decodeT_memBytes (T : ElemType) (v : Int) (hv : T.InRange v) :
    decodeT T (memBytes T (fun _ => v) T.sizeof) = v := by
  have hlen : (memBytes T (fun _ => v) T.sizeof).length = T.sizeof := memBytes_length _ _ _
  unfold decodeT
  rw [List.take_of_length_le (by omega), memBytes_const]
  unfold byteAt
  rw [fromBytesLE_digits]
  unfold ElemType.InRange numeric_limits_lowest numeric_limits_max at hv
  cases T <;> simp only [ElemType.bits, ElemType.sizeof] at hv ⊢ <;> norm_num at hv ⊢ <;>
    split_ifs <;> omega

theorem fromBytesLE_sizeBytes (n : Nat) (hn : n < SIZE_T_MOD) :
    fromBytesLE (sizeBytes n) = n := by
  unfold sizeBytes
  rw [fromBytesLE_digits]
  unfold SIZE_T_MOD at hn
  exact Nat.mod_eq_of_lt (by norm_num at hn ⊢; omega)

theorem fread_append (obj a b : List Nat) (h : a.length = obj.length) :
    fread obj (a ++ b) = (a, b) := by
  simp [fread, ← h]

theorem fread_of_le (obj f : List Nat) (n : Nat) (hn : obj.length = n) (h : n ≤ f.length) :
    fread obj f = (f.take n, f.drop n) := by
  subst hn
  simp [fread, Nat.min_eq_left h]

theorem fread_nil (obj : List Nat) : fread obj [] = (obj, []) := by
  simp [fread]

theorem fread_snd (obj f : List Nat) (n : Nat) (hn : obj.length = n) :
    (fread obj f).2 = f.drop n := by
  subst hn
  rfl

theorem sizeBytes_length (n : Nat) : (sizeBytes n).length = 8 := by
  simp [sizeBytes]

theorem bool_byte_decode (b : Bool) :
    decide (fromBytesLE [if b = true then 1 else 0] ≠ 0) = b := by
  cases b <;> simp [fromBytesLE]

/-- C4: `readMetadata` on the bytes that `writeMetadata` produced from the state `s`
restores the element count, `dataMin`, `dataMax` and `has_nulls` of `s` exactly (and
consumes exactly those bytes). -/
theorem readMetadata_writeMetadata (T : ElemType) (s e0 : NoneEncoder) (rest : List Nat)
    (hs : s.WF T) :
    (e0.readMetadata T (s.writeMetadata T [] ++ rest)) =
      ({ e0 with num_elems_ := s.num_elems_, dataMin := s.dataMin,
                 dataMax := s.dataMax, has_nulls := s.has_nulls }, rest) := by
  obtain ⟨hn, hmin, hmax⟩ := hs
  unfold NoneEncoder.readMetadata NoneEncoder.writeMetadata fwrite
  simp only [List.nil_append, List.append_assoc]
  rw [fread_append (sizeBytes e0.num_elems_) (sizeBytes s.num_elems_) _
    (by rw [sizeBytes_length, sizeBytes_length])]
  simp only
  rw [fread_append (memBytes T (fun _ => e0.dataMin) T.sizeof)
    (memBytes T (fun _ => s.dataMin) T.sizeof) _ (by rw [memBytes_length, memBytes_length])]
  simp only
  rw [fread_append (memBytes T (fun _ => e0.dataMax) T.sizeof)
    (memBytes T (fun _ => s.dataMax) T.sizeof) _ (by rw [memBytes_length, memBytes_length])]
  simp only
  rw [fread_append [if e0.has_nulls = true then 1 else 0] [if s.has_nulls = true then 1 else 0]
    rest rfl]
  simp only [fromBytesLE_sizeBytes _ hn, decodeT_memBytes _ _ hmin, decodeT_memBytes _ _ hmax,
    bool_byte_decode]

/-- Witness for C4: an `int16_t` state with 77 elements, range `[-5, 300]` and nulls. -/
theorem readMetadata_writeMetadata_witness :
    (NoneEncoder.mk 77 ⟨[], ⟨.kSMALLINT, 0, 0, 2⟩⟩ (-5) 300 true).WF .int16 ∧
    ((NoneEncoder.new .int16 ⟨[1, 2], ⟨.kSMALLINT, 0, 0, 2⟩⟩).readMetadata .int16
      ((NoneEncoder.mk 77 ⟨[], ⟨.kSMALLINT, 0, 0, 2⟩⟩ (-5) 300 true).writeMetadata .int16 [] ++ [])) =
      ({ NoneEncoder.new .int16 ⟨[1, 2], ⟨.kSMALLINT, 0, 0, 2⟩⟩ with
                num_elems_ := 77, dataMin := -5, dataMax := 300, has_nulls := true }, []) :=
  ⟨by decide, readMetadata_writeMetadata .int16 _ _ [] (by decide)⟩

/-! ### The element loop of `appendData` -/

theorem withStats_stats (e : NoneEncoder) : e.withStats e.stats = e := by
  cases e; rfl

theorem appendLoop_spec (T : ElemType) (validate : Int → Bool) (src : Nat → Int)
    (repl : Bool) : ∀ (count i : Nat) (e : NoneEncoder) (enc : List Int),
    (∀ x, appendLoop T validate src repl i count (e, enc) = .ok x →
      (∀ j, j < count → readElem src repl (i + j) ≠ none_encoded_null_value T →
        validate (readElem src repl (i + j)) = true) ∧
      x.1 = e.withStats
        (((List.range' i count).map (readElem src repl)).foldl (foldStat T) e.stats)) ∧
    (∀ x, appendLoop T validate src repl i count (e, enc) = .error x →
      ∃ j, j < count ∧
        (∀ k, k < j → readElem src repl (i + k) ≠ none_encoded_null_value T →
          validate (readElem src repl (i + k)) = true) ∧
        readElem src repl (i + j) ≠ none_encoded_null_value T ∧
        validate (readElem src repl (i + j)) = false ∧
        x.1 = e.withStats
          (((List.range' i j).map (readElem src repl)).foldl (foldStat T) e.stats)) := by
  intro count
  induction count with
  | zero =>
    intro i e enc
    constructor
    · intro x hx
      simp only [appendLoop, Except.ok.injEq] at hx
      subst hx
      simp [withStats_stats]
    · intro x hx
      simp [appendLoop] at hx
  | succ count ih =>
    intro i e enc
    have hshift : ∀ j, i + 1 + j = i + (j + 1) := fun j => by omega
    by_cases hnull : readElem src repl i = none_encoded_null_value T
    · have hstep : appendLoop T validate src repl i (count + 1) (e, enc) =
          appendLoop T validate src repl (i + 1) count
            ({ e with has_nulls := true },
              if repl then enc.set i (readElem src repl i) else enc) := by
        simp only [appendLoop]
        exact if_pos hnull
      have hfold : foldStat T e.stats (readElem src repl i) =
          NoneEncoder.stats { e with has_nulls := true } := by
        simp [foldStat, hnull, NoneEncoder.stats]
      obtain ⟨ihok, iherr⟩ := ih (i + 1) { e with has_nulls := true }
        (if repl then enc.set i (readElem src repl i) else enc)
      rw [hstep]
      constructor
      · intro x hx
        obtain ⟨h1, h2⟩ := ihok x hx
        refine ⟨?_, ?_⟩
        · intro j hj
          cases j with
          | zero => intro h; exact absurd hnull h
          | succ j => rw [← hshift]; exact h1 j (by omega)
        · rw [h2, List.range'_succ, List.map_cons, List.foldl_cons, hfold]
          rfl
      · intro x hx
        obtain ⟨j, hj, h1, h2, h3, h4⟩ := iherr x hx
        refine ⟨j + 1, by omega, ?_, ?_, ?_, ?_⟩
        · intro k hk
          cases k with
          | zero => intro h; exact absurd hnull h
          | succ k => rw [← hshift]; exact h1 k (by omega)
        · rw [← hshift]; exact h2
        · rw [← hshift]; exact h3
        · rw [h4, List.range'_succ, List.map_cons, List.foldl_cons, hfold]
          rfl
    · by_cases hval : validate (readElem src repl i) = true
      · have hstep : appendLoop T validate src repl i (count + 1) (e, enc) =
            appendLoop T validate src repl (i + 1) count
              ({ e with dataMin := min e.dataMin (readElem src repl i),
                        dataMax := max e.dataMax (readElem src repl i) },
                if repl then enc.set i (readElem src repl i) else enc) := by
          simp only [appendLoop]
          exact (if_neg hnull).trans (if_pos hval)
        have hfold : foldStat T e.stats (readElem src repl i) =
            NoneEncoder.stats { e with dataMin := min e.dataMin (readElem src repl i),
                                       dataMax := max e.dataMax (readElem src repl i) } := by
          simp [foldStat, hnull, NoneEncoder.stats]
        obtain ⟨ihok, iherr⟩ := ih (i + 1)
          { e with dataMin := min e.dataMin (readElem src repl i),
                   dataMax := max e.dataMax (readElem src repl i) }
          (if repl then enc.set i (readElem src repl i) else enc)
        rw [hstep]
        constructor
        · intro x hx
          obtain ⟨h1, h2⟩ := ihok x hx
          refine ⟨?_, ?_⟩
          · intro j hj
            cases j with
            | zero => intro _; exact hval
            | succ j => rw [← hshift]; exact h1 j (by omega)
          · rw [h2, List.range'_succ, List.map_cons, List.foldl_cons, hfold]
            rfl
        · intro x hx
          obtain ⟨j, hj, h1, h2, h3, h4⟩ := iherr x hx
          refine ⟨j + 1, by omega, ?_, ?_, ?_, ?_⟩
          · intro k hk
            cases k with
            | zero => intro _; exact hval
            | succ k => rw [← hshift]; exact h1 k (by omega)
          · rw [← hshift]; exact h2
          · rw [← hshift]; exact h3
          · rw [h4, List.range'_succ, List.map_cons, List.foldl_cons, hfold]
            rfl
      · have hstep : appendLoop T validate src repl i (count + 1) (e, enc) =
            .error (e, if repl then enc.set i (readElem src repl i) else enc) := by
          simp only [appendLoop]
          exact (if_neg hnull).trans (if_neg hval)
        rw [hstep]
        constructor
        · intro x hx
          cases hx
        · intro x hx
          simp only [Except.error.injEq] at hx
          subst hx
          refine ⟨0, by omega, ?_, hnull, by simpa using hval, ?_⟩
          · intro k hk; omega
          · simp [withStats_stats]

theorem stats_withStats (e : NoneEncoder) (s : Int × Int × Bool) : (e.withStats s).stats = s := by
  rfl

theorem appendLoop_congr (T : ElemType) (validate validate' : Int → Bool) (src : Nat → Int)
    (repl : Bool)
    (h : ∀ d, d ≠ none_encoded_null_value T → validate' d = validate d) :
    ∀ (count i : Nat) (s : NoneEncoder × List Int),
      appendLoop T validate' src repl i count s = appendLoop T validate src repl i count s := by
  intro count
  induction count with
  | zero => intro i s; rfl
  | succ count ih =>
    intro i s
    obtain ⟨e, enc⟩ := s
    simp only [appendLoop]
    by_cases hnull : src (if repl = true then 0 else i) = none_encoded_null_value T
    · rw [if_pos hnull, if_pos hnull, ih]
    · rw [if_neg hnull, if_neg hnull, h _ hnull, ih]

theorem appendData_of_loop_error (T : ElemType) (validate : Int → Bool) (e : NoneEncoder)
    (src : Nat → Int) (n : Nat) (repl : Bool) (offset : Int) (x : NoneEncoder × List Int)
    (hx : appendLoop T validate src repl 0 n
      (e, if repl then List.replicate n 0 else []) = .error x) :
    e.appendData T validate src n repl offset =
      { encoder := x.1, src_advance := 0, result := .error .DecimalOverflow } := by
  unfold NoneEncoder.appendData
  simp only [hx]

theorem appendData_of_loop_ok (T : ElemType) (validate : Int → Bool) (e : NoneEncoder)
    (src : Nat → Int) (n : Nat) (repl : Bool) (offset : Int) (x : NoneEncoder × List Int)
    (hx : appendLoop T validate src repl 0 n
      (e, if repl then List.replicate n 0 else []) = .ok x) :
    (e.appendData T validate src n repl offset).result ≠ .error .DecimalOverflow := by
  unfold NoneEncoder.appendData
  simp only [hx]
  split_ifs <;> simp

theorem appendData_overflow_loop (T : ElemType) (validate : Int → Bool) (e : NoneEncoder)
    (src : Nat → Int) (n : Nat) (repl : Bool) (offset : Int)
    (h : (e.appendData T validate src n repl offset).result = .error .DecimalOverflow) :
    ∃ x, appendLoop T validate src repl 0 n
        (e, if repl then List.replicate n 0 else []) = .error x ∧
      (e.appendData T validate src n repl offset).encoder = x.1 := by
  cases hx : appendLoop T validate src repl 0 n (e, if repl then List.replicate n 0 else []) with
  | error x =>
    refine ⟨x, rfl, ?_⟩
    rw [appendData_of_loop_error T validate e src n repl offset x hx]
  | ok x => exact absurd h (appendData_of_loop_ok T validate e src n repl offset x hx)

/-! ### Decimal overflow -/

/-- C5: a non-replicating `appendData` call ends with the decimal-overflow error exactly
when one of its elements that is not the null sentinel is rejected by the validator; the
validator is never consulted on the null sentinel (changing its answer there changes
nothing), so a batch of null sentinels only never fails with overflow. -/
theorem appendData_overflow_iff (T : ElemType) (validate : Int → Bool) (e : NoneEncoder)
    (src : Nat → Int) (n : Nat) (offset : Int) :
    ((e.appendData T validate src n false offset).result = .error .DecimalOverflow ↔
      ∃ i, i < n ∧ src i ≠ none_encoded_null_value T ∧ validate (src i) = false) ∧
    (∀ validate' : Int → Bool,
      (∀ d, d ≠ none_encoded_null_value T → validate' d = validate d) →
      e.appendData T validate' src n false offset = e.appendData T validate src n false offset) ∧
    ((∀ i, i < n → src i = none_encoded_null_value T) →
      (e.appendData T validate src n false offset).result ≠ .error .DecimalOverflow) := by
  have hiff : (e.appendData T validate src n false offset).result = .error .DecimalOverflow ↔
      ∃ i, i < n ∧ src i ≠ none_encoded_null_value T ∧ validate (src i) = false := by
    constructor
    · intro h
      obtain ⟨x, hx, _⟩ := appendData_overflow_loop T validate e src n false offset h
      obtain ⟨j, hj, _, h2, h3, _⟩ := (appendLoop_spec T validate src false n 0 e _).2 x hx
      refine ⟨j, hj, ?_, ?_⟩
      · simpa [readElem] using h2
      · simpa [readElem] using h3
    · rintro ⟨i, hi, hnull, hrej⟩
      cases hx : appendLoop T validate src false 0 n
          (e, if false then List.replicate n 0 else []) with
      | error x => rw [appendData_of_loop_error T validate e src n false offset x hx]
      | ok x =>
        have := ((appendLoop_spec T validate src false n 0 e _).1 x hx).1 i hi
        simp only [readElem, Nat.zero_add, Bool.false_eq_true, if_false] at this
        rw [this hnull] at hrej
        cases hrej
  refine ⟨hiff, ?_, ?_⟩
  · intro validate' hv
    unfold NoneEncoder.appendData
    simp only [appendLoop_congr T validate validate' src false hv]
  · intro hall h
    obtain ⟨i, hi, hnull, _⟩ := hiff.mp h
    exact hnull (hall i hi)

/-- C6: when `appendData` ends with the decimal-overflow error, the backing buffer and the
element count are those from before the call. -/
theorem appendData_overflow_buffer_unchanged (T : ElemType) (validate : Int → Bool)
    (e : NoneEncoder) (src : Nat → Int) (n : Nat) (repl : Bool) (offset : Int)
    (h : (e.appendData T validate src n repl offset).result = .error .DecimalOverflow) :
    (e.appendData T validate src n repl offset).encoder.buffer_ = e.buffer_ ∧
    (e.appendData T validate src n repl offset).encoder.num_elems_ = e.num_elems_ := by
  obtain ⟨x, hx, henc⟩ := appendData_overflow_loop T validate e src n repl offset h
  obtain ⟨j, _, _, _, _, h4⟩ := (appendLoop_spec T validate src repl n 0 e _).2 x hx
  rw [henc, h4]
  exact ⟨rfl, rfl⟩

/-- Witness for C6: a 32-bit chunk holding `{1, 2, 3}`, validator accepting `|d| < 100`,
batch `{5, 100}`: the call fails, buffer and count are as before. -/
theorem appendData_overflow_buffer_unchanged_witness :
    ((NoneEncoder.mk 3 ⟨[1, 0, 0, 0, 2, 0, 0, 0, 3, 0, 0, 0], ⟨.kDECIMAL, 2, 0, 4⟩⟩ 1 3 false).appendData
        .int32 (fun d => decide (-100 < d ∧ d < 100)) (ptrOf [5, 100]) 2 false (-1)).result
      = .error .DecimalOverflow ∧
    ((NoneEncoder.mk 3 ⟨[1, 0, 0, 0, 2, 0, 0, 0, 3, 0, 0, 0], ⟨.kDECIMAL, 2, 0, 4⟩⟩ 1 3 false).appendData
        .int32 (fun d => decide (-100 < d ∧ d < 100)) (ptrOf [5, 100]) 2 false (-1)).encoder.buffer_
      = ⟨[1, 0, 0, 0, 2, 0, 0, 0, 3, 0, 0, 0], ⟨.kDECIMAL, 2, 0, 4⟩⟩ ∧
    ((NoneEncoder.mk 3 ⟨[1, 0, 0, 0, 2, 0, 0, 0, 3, 0, 0, 0], ⟨.kDECIMAL, 2, 0, 4⟩⟩ 1 3 false).appendData
        .int32 (fun d => decide (-100 < d ∧ d < 100)) (ptrOf [5, 100]) 2 false (-1)).encoder.num_elems_
      = 3 :=
  ⟨rfl, appendData_overflow_buffer_unchanged .int32 (fun d => decide (-100 < d ∧ d < 100))
    (NoneEncoder.mk 3 ⟨[1, 0, 0, 0, 2, 0, 0, 0, 3, 0, 0, 0], ⟨.kDECIMAL, 2, 0, 4⟩⟩ 1 3 false)
    (ptrOf [5, 100]) 2 false (-1) rfl⟩

/-- Counterexample to C7: the batch `{5, 100}` with a validator accepting `|d| < 100` fails
with overflow at its second element, after the first one was folded in: `dataMin` went
from 10 to 5. -/
theorem appendData_overflow_stats_changed :
    ((NoneEncoder.mk 1 ⟨[10, 0, 0, 0], ⟨.kDECIMAL, 2, 0, 4⟩⟩ 10 10 false).appendData
        .int32 (fun d => decide (-100 < d ∧ d < 100)) (ptrOf [5, 100]) 2 false (-1)).result
      = .error .DecimalOverflow ∧
    ((NoneEncoder.mk 1 ⟨[10, 0, 0, 0], ⟨.kDECIMAL, 2, 0, 4⟩⟩ 10 10 false).appendData
        .int32 (fun d => decide (-100 < d ∧ d < 100)) (ptrOf [5, 100]) 2 false (-1)).encoder.stats
      = (5, 10, false) ∧
    ((NoneEncoder.mk 1 ⟨[10, 0, 0, 0], ⟨.kDECIMAL, 2, 0, 4⟩⟩ 10 10 false).appendData
        .int32 (fun d => decide (-100 < d ∧ d < 100)) (ptrOf [5, 100]) 2 false (-1)).encoder.stats
      ≠ (NoneEncoder.mk 1 ⟨[10, 0, 0, 0], ⟨.kDECIMAL, 2, 0, 4⟩⟩ 10 10 false).stats :=
  ⟨rfl, by decide, by decide⟩

/-- C7 (amended): `appendData` validates each element at the moment it folds it. When a
call ends with the decimal-overflow error there is a first rejected element, at some
position `j`; the statistics record is then the record from before the call with the
elements read before position `j` folded in (so it is the old record when `j = 0`). -/
theorem appendData_overflow_stats (T : ElemType) (validate : Int → Bool) (e : NoneEncoder)
    (src : Nat → Int) (n : Nat) (repl : Bool) (offset : Int)
    (h : (e.appendData T validate src n repl offset).result = .error .DecimalOverflow) :
    ∃ j, j < n ∧
      (∀ k, k < j → readElem src repl k ≠ none_encoded_null_value T →
        validate (readElem src repl k) = true) ∧
      readElem src repl j ≠ none_encoded_null_value T ∧
      validate (readElem src repl j) = false ∧
      (e.appendData T validate src n repl offset).encoder.stats =
        (elemsFrom (readElem src repl) 0 j).foldl (foldStat T) e.stats ∧
      (j = 0 → (e.appendData T validate src n repl offset).encoder.stats = e.stats) := by
  obtain ⟨x, hx, henc⟩ := appendData_overflow_loop T validate e src n repl offset h
  obtain ⟨j, hj, h1, h2, h3, h4⟩ := (appendLoop_spec T validate src repl n 0 e _).2 x hx
  simp only [Nat.zero_add] at h1 h2 h3
  have hstats : (e.appendData T validate src n repl offset).encoder.stats =
      (elemsFrom (readElem src repl) 0 j).foldl (foldStat T) e.stats := by
    rw [henc, h4, stats_withStats]
    rfl
  refine ⟨j, hj, h1, h2, h3, hstats, ?_⟩
  intro hj0
  rw [hstats, hj0]
  rfl

/-- Witness for C7 (amended): the failing call of the counterexample. -/
theorem appendData_overflow_stats_witness :
    ((NoneEncoder.mk 1 ⟨[10, 0, 0, 0], ⟨.kDECIMAL, 2, 0, 4⟩⟩ 10 10 false).appendData
        .int32 (fun d => decide (-100 < d ∧ d < 100)) (ptrOf [5, 100]) 2 false (-1)).result
      = .error .DecimalOverflow ∧
    ∃ j, j < 2 ∧
      (∀ k, k < j → readElem (ptrOf [5, 100]) false k ≠ none_encoded_null_value .int32 →
        (fun d => decide (-100 < d ∧ d < 100)) (readElem (ptrOf [5, 100]) false k) = true) ∧
      readElem (ptrOf [5, 100]) false j ≠ none_encoded_null_value .int32 ∧
      (fun d => decide (-100 < d ∧ d < 100)) (readElem (ptrOf [5, 100]) false j) = false ∧
      ((NoneEncoder.mk 1 ⟨[10, 0, 0, 0], ⟨.kDECIMAL, 2, 0, 4⟩⟩ 10 10 false).appendData
          .int32 (fun d => decide (-100 < d ∧ d < 100)) (ptrOf [5, 100]) 2 false (-1)).encoder.stats =
        (elemsFrom (readElem (ptrOf [5, 100]) false) 0 j).foldl (foldStat .int32)
          (NoneEncoder.mk 1 ⟨[10, 0, 0, 0], ⟨.kDECIMAL, 2, 0, 4⟩⟩ 10 10 false).stats ∧
      (j = 0 →
        ((NoneEncoder.mk 1 ⟨[10, 0, 0, 0], ⟨.kDECIMAL, 2, 0, 4⟩⟩ 10 10 false).appendData
          .int32 (fun d => decide (-100 < d ∧ d < 100)) (ptrOf [5, 100]) 2 false (-1)).encoder.stats =
        (NoneEncoder.mk 1 ⟨[10, 0, 0, 0], ⟨.kDECIMAL, 2, 0, 4⟩⟩ 10 10 false).stats) :=
  ⟨rfl, appendData_overflow_stats .int32 (fun d => decide (-100 < d ∧ d < 100))
    (NoneEncoder.mk 1 ⟨[10, 0, 0, 0], ⟨.kDECIMAL, 2, 0, 4⟩⟩ 10 10 false)
    (ptrOf [5, 100]) 2 false (-1) rfl⟩

/-! ### Overwriting at an offset -/

theorem appendData_offset_num_elems (T : ElemType) (validate : Int → Bool) (e : NoneEncoder)
    (src : Nat → Int) (n : Nat) (k : Int) (hk : 0 ≤ k)
    (hok : ∃ m, (e.appendData T validate src n false k).result = .ok m) :
    (e.appendData T validate src n false k).encoder.num_elems_ =
      ((k + (n : Int)) % (SIZE_T_MOD : Int)).toNat := by
  obtain ⟨m, hm⟩ := hok
  cases hx : appendLoop T validate src false 0 n (e, if false then List.replicate n 0 else []) with
  | error x =>
    rw [appendData_of_loop_error T validate e src n false k x hx] at hm
    cases hm
  | ok x =>
    have hne : k ≠ -1 := by omega
    have hlt : ¬ k < 0 := by omega
    have hx' : appendLoop T validate src false 0 n (e, []) = .ok x := hx
    unfold NoneEncoder.appendData
    simp only [hx', if_neg hne, if_neg hlt, Bool.false_eq_true, if_false]

/-- C8: a successful `appendData` call with offset `k ≥ 0` and `replicating = false` sets the
element count to exactly `k + n`, whatever it was before (`k + n` being a `size_t`
value). -/
theorem appendData_offset_count (T : ElemType) (validate : Int → Bool) (e : NoneEncoder)
    (src : Nat → Int) (n : Nat) (k : Int) (hk : 0 ≤ k) (hsum : k + (n : Int) < 2 ^ 64)
    (hok : ∃ m, (e.appendData T validate src n false k).result = .ok m) :
    ((e.appendData T validate src n false k).encoder.num_elems_ : Int) = k + n := by
  rw [appendData_offset_num_elems T validate e src n k hk hok]
  have h0 : 0 ≤ k + (n : Int) := by omega
  have hmod : (k + (n : Int)) % (SIZE_T_MOD : Int) = k + n := by
    apply Int.emod_eq_of_lt h0
    unfold SIZE_T_MOD
    push_cast
    exact hsum
  rw [hmod]
  exact Int.toNat_of_nonneg h0

/-- Witness for C8: an encoder with 7 elements, overwrite of 2 elements at offset 3: the
count becomes 5. -/
theorem appendData_offset_count_witness :
    (0 : Int) ≤ 3 ∧ (3 : Int) + ((2 : Nat) : Int) < 2 ^ 64 ∧
    (∃ m, ((NoneEncoder.mk 7 ⟨[1, 2, 3, 4, 5, 6, 7], ⟨.kTINYINT, 0, 0, 1⟩⟩ 1 7 false).appendData
        .int8 (fun _ => true) (ptrOf [8, 9]) 2 false 3).result = .ok m) ∧
    (((NoneEncoder.mk 7 ⟨[1, 2, 3, 4, 5, 6, 7], ⟨.kTINYINT, 0, 0, 1⟩⟩ 1 7 false).appendData
        .int8 (fun _ => true) (ptrOf [8, 9]) 2 false 3).encoder.num_elems_ : Int)
      = 3 + ((2 : Nat) : Int) :=
  ⟨by decide, by decide, ⟨_, rfl⟩,
    appendData_offset_count .int8 (fun _ => true)
      (NoneEncoder.mk 7 ⟨[1, 2, 3, 4, 5, 6, 7], ⟨.kTINYINT, 0, 0, 1⟩⟩ 1 7 false)
      (ptrOf [8, 9]) 2 3 (by decide) (by decide) ⟨_, rfl⟩⟩

/-- Counterexample to C9: after appending `{1, 2, 3}` to a fresh 32-bit encoder, the
overwrite of one element at offset 1 (`1 + 1 ≤ 3`) succeeds and leaves the element count
at 2, not 3. -/
theorem appendData_overwrite_shrinks :
    ((NoneEncoder.new .int32 ⟨[], ⟨.kINT, 0, 0, 4⟩⟩).appendData .int32 (fun _ => true)
        (ptrOf [1, 2, 3]) 3 false (-1)).encoder.num_elems_ = 3 ∧
    ((1 : Int) + ((1 : Nat) : Int) ≤ 3) ∧
    (∃ m, (((NoneEncoder.new .int32 ⟨[], ⟨.kINT, 0, 0, 4⟩⟩).appendData .int32 (fun _ => true)
        (ptrOf [1, 2, 3]) 3 false (-1)).encoder.appendData .int32 (fun _ => true)
        (ptrOf [9]) 1 false 1).result = .ok m) ∧
    (((NoneEncoder.new .int32 ⟨[], ⟨.kINT, 0, 0, 4⟩⟩).appendData .int32 (fun _ => true)
        (ptrOf [1, 2, 3]) 3 false (-1)).encoder.appendData .int32 (fun _ => true)
        (ptrOf [9]) 1 false 1).encoder.num_elems_ = 2 ∧
    (((NoneEncoder.new .int32 ⟨[], ⟨.kINT, 0, 0, 4⟩⟩).appendData .int32 (fun _ => true)
        (ptrOf [1, 2, 3]) 3 false (-1)).encoder.appendData .int32 (fun _ => true)
        (ptrOf [9]) 1 false 1).encoder.num_elems_ ≠ 3 :=
  ⟨by decide, by decide, ⟨_, rfl⟩, by decide, by decide⟩

/-- C9 (amended): an overwrite sets the element count to the new end position: for an
encoder with element count `c` and a successful overwrite with offset `k ≥ 0` and count
`n` such that `k + n ≤ c`, the element count afterwards is `k + n`; it is never larger
than `c`, and it is still `c` exactly when `k + n = c`. -/
theorem appendData_overwrite_count (T : ElemType) (validate : Int → Bool) (e : NoneEncoder)
    (src : Nat → Int) (n : Nat) (k : Int) (hk : 0 ≤ k)
    (hle : k + (n : Int) ≤ e.num_elems_) (hc : e.num_elems_ < SIZE_T_MOD)
    (hok : ∃ m, (e.appendData T validate src n false k).result = .ok m) :
    ((e.appendData T validate src n false k).encoder.num_elems_ : Int) = k + n ∧
    (e.appendData T validate src n false k).encoder.num_elems_ ≤ e.num_elems_ ∧
    ((e.appendData T validate src n false k).encoder.num_elems_ = e.num_elems_ ↔
      k + (n : Int) = e.num_elems_) := by
  have h0 : 0 ≤ k + (n : Int) := by omega
  have hlt : k + (n : Int) < (SIZE_T_MOD : Int) := by omega
  have hcount : ((e.appendData T validate src n false k).encoder.num_elems_ : Int) = k + n := by
    rw [appendData_offset_num_elems T validate e src n k hk hok, Int.emod_eq_of_lt h0 hlt]
    exact Int.toNat_of_nonneg h0
  refine ⟨hcount, by omega, ?_⟩
  constructor
  · intro h; rw [← hcount, h]
  · intro h; omega

/-- Witness for C9 (amended): `{1, 2, 3}` in an 8-bit chunk, overwrite of `{9}` at offset 1. -/
theorem appendData_overwrite_count_witness :
    (0 : Int) ≤ 1 ∧
    ((1 : Int) + ((1 : Nat) : Int) ≤ (NoneEncoder.mk 3 ⟨[1, 2, 3], ⟨.kTINYINT, 0, 0, 1⟩⟩ 1 3 false).num_elems_) ∧
    (NoneEncoder.mk 3 ⟨[1, 2, 3], ⟨.kTINYINT, 0, 0, 1⟩⟩ 1 3 false).num_elems_ < SIZE_T_MOD ∧
    (∃ m, ((NoneEncoder.mk 3 ⟨[1, 2, 3], ⟨.kTINYINT, 0, 0, 1⟩⟩ 1 3 false).appendData
        .int8 (fun _ => true) (ptrOf [9]) 1 false 1).result = .ok m) ∧
    (((NoneEncoder.mk 3 ⟨[1, 2, 3], ⟨.kTINYINT, 0, 0, 1⟩⟩ 1 3 false).appendData
        .int8 (fun _ => true) (ptrOf [9]) 1 false 1).encoder.num_elems_ : Int) = 1 + ((1 : Nat) : Int) ∧
    ((NoneEncoder.mk 3 ⟨[1, 2, 3], ⟨.kTINYINT, 0, 0, 1⟩⟩ 1 3 false).appendData
        .int8 (fun _ => true) (ptrOf [9]) 1 false 1).encoder.num_elems_ ≤
      (NoneEncoder.mk 3 ⟨[1, 2, 3], ⟨.kTINYINT, 0, 0, 1⟩⟩ 1 3 false).num_elems_ ∧
    (((NoneEncoder.mk 3 ⟨[1, 2, 3], ⟨.kTINYINT, 0, 0, 1⟩⟩ 1 3 false).appendData
        .int8 (fun _ => true) (ptrOf [9]) 1 false 1).encoder.num_elems_ =
      (NoneEncoder.mk 3 ⟨[1, 2, 3], ⟨.kTINYINT, 0, 0, 1⟩⟩ 1 3 false).num_elems_ ↔
      (1 : Int) + ((1 : Nat) : Int) = (NoneEncoder.mk 3 ⟨[1, 2, 3], ⟨.kTINYINT, 0, 0, 1⟩⟩ 1 3 false).num_elems_) :=
  ⟨by decide, by decide, by decide, ⟨_, rfl⟩,
    appendData_overwrite_count .int8 (fun _ => true)
      (NoneEncoder.mk 3 ⟨[1, 2, 3], ⟨.kTINYINT, 0, 0, 1⟩⟩ 1 3 false)
      (ptrOf [9]) 1 1 (by decide) (by decide) (by decide) ⟨_, rfl⟩⟩

/-- C10 (evaluation at the failing input): a 32-bit chunk with content `{1, 2, 3}` is
overwritten at offset 1 with `{9}`. The four bytes of 9 are written at byte position 1
(not at byte position `1 * sizeof(T) = 4`), so the logical content becomes
`{2305, 0, 3}` and not `{1, 9, 3}`. -/
theorem appendData_overwrite_byte_position :
    ((NoneEncoder.new .int32 ⟨[], ⟨.kINT, 0, 0, 4⟩⟩).appendData .int32 (fun _ => true)
        (ptrOf [1, 2, 3]) 3 false (-1)).encoder.buffer_.elems .int32 = [1, 2, 3] ∧
    (((NoneEncoder.new .int32 ⟨[], ⟨.kINT, 0, 0, 4⟩⟩).appendData .int32 (fun _ => true)
        (ptrOf [1, 2, 3]) 3 false (-1)).encoder.appendData .int32 (fun _ => true)
        (ptrOf [9]) 1 false 1).encoder.buffer_.mem = [1, 9, 0, 0, 0, 0, 0, 0, 3, 0, 0, 0] ∧
    (((NoneEncoder.new .int32 ⟨[], ⟨.kINT, 0, 0, 4⟩⟩).appendData .int32 (fun _ => true)
        (ptrOf [1, 2, 3]) 3 false (-1)).encoder.appendData .int32 (fun _ => true)
        (ptrOf [9]) 1 false 1).encoder.buffer_.elems .int32 = [2305, 0, 3] ∧
    (((NoneEncoder.new .int32 ⟨[], ⟨.kINT, 0, 0, 4⟩⟩).appendData .int32 (fun _ => true)
        (ptrOf [1, 2, 3]) 3 false (-1)).encoder.appendData .int32 (fun _ => true)
        (ptrOf [9]) 1 false 1).encoder.buffer_.elems .int32 ≠ [1, 9, 3] := by
  refine ⟨by decide, by decide, by decide, by decide⟩

/-! ### Folding and merging statistics triples -/

theorem foldStat_right_comm (T : ElemType) (s : Int × Int × Bool) (a b : Int) :
    foldStat T (foldStat T s a) b = foldStat T (foldStat T s b) a := by
  unfold foldStat
  by_cases ha : a = none_encoded_null_value T <;> by_cases hb : b = none_encoded_null_value T
  · simp only [ha, hb, if_true]
  · simp only [ha, hb, if_true, if_false]
  · simp only [ha, hb, if_true, if_false]
  · simp only [ha, hb, if_false]
    refine Prod.ext ?_ (Prod.ext ?_ rfl)
    · exact min_right_comm _ _ _
    · rw [max_assoc, max_comm a b, ← max_assoc]

theorem foldStat_reduce (T : ElemType) (s t : Int × Int × Bool) (x : Int) :
    foldStat T (updateStatsReduce s t) x = updateStatsReduce s (foldStat T t x) := by
  unfold foldStat updateStatsReduce
  by_cases hx : x = none_encoded_null_value T
  · simp [hx]
  · simp only [hx, if_false]
    refine Prod.ext ?_ (Prod.ext ?_ rfl)
    · exact min_assoc _ _ _
    · exact max_assoc _ _ _

theorem foldl_foldStat_reduce (T : ElemType) (s : Int × Int × Bool) :
    ∀ (l : List Int) (t : Int × Int × Bool),
      l.foldl (foldStat T) (updateStatsReduce s t) = updateStatsReduce s (l.foldl (foldStat T) t) := by
  intro l
  induction l with
  | nil => intro t; rfl
  | cons x l ih =>
    intro t
    rw [List.foldl_cons, List.foldl_cons, foldStat_reduce, ih]

theorem updateStatsReduce_comm (s t : Int × Int × Bool) :
    updateStatsReduce s t = updateStatsReduce t s := by
  unfold updateStatsReduce
  rw [min_comm, max_comm, Bool.or_comm]

theorem updateStatsReduce_self (s : Int × Int × Bool) : updateStatsReduce s s = s := by
  unfold updateStatsReduce
  simp

theorem updateStatsReduce_foldl (T : ElemType) (init : Int × Int × Bool) (a b : List Int) :
    updateStatsReduce (a.foldl (foldStat T) init) (b.foldl (foldStat T) init) =
      (a ++ b).foldl (foldStat T) init := by
  have habsorb : updateStatsReduce (a.foldl (foldStat T) init) init = a.foldl (foldStat T) init := by
    rw [updateStatsReduce_comm, ← foldl_foldStat_reduce, updateStatsReduce_self]
  rw [← foldl_foldStat_reduce, habsorb, List.foldl_append]

theorem updateStatsLoop_ok (T : ElemType) (validate : Int → Bool) (data : Nat → Int) :
    ∀ (count i : Nat) (acc : Int × Int × Bool),
      (∀ j, j < count → data (i + j) ≠ none_encoded_null_value T → validate (data (i + j)) = true) →
      updateStatsLoop T validate data i count acc =
        .ok ((elemsFrom data i count).foldl (foldStat T) acc) := by
  intro count
  induction count with
  | zero => intro i acc _; rfl
  | succ count ih =>
    intro i acc h
    obtain ⟨mn, mx, nulls⟩ := acc
    have hrest : ∀ j, j < count → data (i + 1 + j) ≠ none_encoded_null_value T →
        validate (data (i + 1 + j)) = true := by
      intro j hj
      have := h (j + 1) (by omega)
      rwa [show i + (j + 1) = i + 1 + j by omega] at this
    have h0 := h 0 (by omega)
    simp only [Nat.add_zero] at h0
    simp only [updateStatsLoop, elemsFrom, List.range'_succ, List.map_cons, List.foldl_cons]
    by_cases hnull : data i = none_encoded_null_value T
    · rw [if_neg (by simpa using hnull), ih (i + 1) _ hrest]
      simp [foldStat, hnull, elemsFrom]
    · rw [if_pos hnull, if_pos (h0 hnull), ih (i + 1) _ hrest]
      simp [foldStat, hnull, elemsFrom]

theorem blockElems_partition (data : Nat → Int) :
    ∀ (blocks : List blocked_range) (lo hi : Nat), IsBlockPartition blocks lo hi →
      lo ≤ hi ∧
      (∀ r ∈ blocks, lo ≤ r.range_begin ∧ r.range_end ≤ hi) ∧
      blocks.flatMap (fun r => elemsFrom data r.range_begin (r.range_end - r.range_begin)) =
        elemsFrom data lo (hi - lo) := by
  intro blocks
  induction blocks with
  | nil =>
    intro lo hi h
    simp only [IsBlockPartition] at h
    subst h
    simp [elemsFrom]
  | cons r rs ih =>
    intro lo hi h
    simp only [IsBlockPartition] at h
    obtain ⟨hb, hle, hrest⟩ := h
    obtain ⟨h1, h2, h3⟩ := ih r.range_end hi hrest
    refine ⟨by omega, ?_, ?_⟩
    · intro r' hr'
      rcases List.mem_cons.mp hr' with h' | h'
      · subst h'; omega
      · have := h2 r' h'; omega
    · rw [List.flatMap_cons, h3, ← hb]
      unfold elemsFrom
      rw [← List.map_append]
      congr 1
      have hsplit := List.range'_append_1 r.range_begin (r.range_end - r.range_begin)
        (hi - r.range_end)
      rw [show r.range_begin + (r.range_end - r.range_begin) = r.range_end by omega,
        show (hi - r.range_end) + (r.range_end - r.range_begin) = hi - r.range_begin by omega]
        at hsplit
      exact hsplit

theorem parallel_reduce_ok (T : ElemType) (validate : Int → Bool) (data : Nat → Int)
    (init : Int × Int × Bool) :
    ∀ plan : ReducePlan,
      (∀ r ∈ plan.blocks, ∀ i, r.range_begin ≤ i → i < r.range_end →
        data i ≠ none_encoded_null_value T → validate (data i) = true) →
      parallel_reduce (updateStatsBody T validate data) updateStatsReduce init plan =
        .ok ((plan.blocks.flatMap
          (fun r => elemsFrom data r.range_begin (r.range_end - r.range_begin))).foldl
            (foldStat T) init) := by
  intro plan
  induction plan with
  | block r =>
    intro h
    simp only [parallel_reduce, updateStatsBody, ReducePlan.blocks, List.flatMap_cons,
      List.flatMap_nil, List.append_nil]
    apply updateStatsLoop_ok
    intro j hj
    exact h r (List.mem_singleton.mpr rfl) (r.range_begin + j) (by omega) (by omega)
  | join lhs rhs ihl ihr =>
    intro h
    have hl := ihl (fun r hr => h r (by simp [ReducePlan.blocks, hr]))
    have hr := ihr (fun r hr => h r (by simp [ReducePlan.blocks, hr]))
    simp only [parallel_reduce, hl, hr, ReducePlan.blocks, List.flatMap_append]
    rw [updateStatsReduce_foldl]

/-- C2: for every partition of `[0, n)` into contiguous blocks, running the block body of
`updateStats(dst, numElements)` on each block from the starting triple and combining the
per-block triples with its merge function, in any order and any bracketing, gives the
same triple as the one sequential fold of the whole range (no element being rejected by
the decimal overflow validator). -/
theorem parallel_reduce_eq_sequential (T : ElemType) (validate : Int → Bool)
    (data : Nat → Int) (n : Nat) (init : Int × Int × Bool) (plan : ReducePlan)
    (blocks : List blocked_range)
    (hperm : plan.blocks.Perm blocks) (hpart : IsBlockPartition blocks 0 n)
    (hok : ∀ i, i < n → data i ≠ none_encoded_null_value T → validate (data i) = true) :
    parallel_reduce (updateStatsBody T validate data) updateStatsReduce init plan =
      updateStatsBody T validate data ⟨0, n⟩ init ∧
    updateStatsBody T validate data ⟨0, n⟩ init =
      .ok ((elemsFrom data 0 n).foldl (foldStat T) init) := by
  obtain ⟨_, hin, hflat⟩ := blockElems_partition data blocks 0 n hpart
  have hseq : updateStatsBody T validate data ⟨0, n⟩ init =
      .ok ((elemsFrom data 0 n).foldl (foldStat T) init) := by
    unfold updateStatsBody
    apply updateStatsLoop_ok
    intro j hj
    simp only [Nat.sub_zero] at hj
    simpa using hok j hj
  have hplan := parallel_reduce_ok T validate data init plan (by
    intro r hr i _ hi
    have := (hin r (hperm.mem_iff.mp hr)).2
    exact hok i (by omega))
  haveI : RightCommutative (foldStat T) := ⟨foldStat_right_comm T⟩
  have hpermElems := List.Perm.flatMap_right
    (fun r : blocked_range => elemsFrom data r.range_begin (r.range_end - r.range_begin)) hperm
  refine ⟨?_, hseq⟩
  rw [hplan, hseq, hpermElems.foldl_eq init, hflat, Nat.sub_zero]

/-- Witness for C2: five 32-bit elements `{5, -3, 8, null, 2}` split into the blocks
`[0,1)`, `[1,3)`, `[3,5)`, merged as `[3,5)` with (`[0,1)` with `[1,3)`), starting from
`(4, 4, false)`. -/
theorem parallel_reduce_eq_sequential_witness :
    (ReducePlan.join (.block ⟨3, 5⟩) (.join (.block ⟨0, 1⟩) (.block ⟨1, 3⟩))).blocks.Perm
      [⟨0, 1⟩, ⟨1, 3⟩, ⟨3, 5⟩] ∧
    IsBlockPartition [⟨0, 1⟩, ⟨1, 3⟩, ⟨3, 5⟩] 0 5 ∧
    (∀ i, i < 5 → ptrOf [5, -3, 8, none_encoded_null_value .int32, 2] i ≠
        none_encoded_null_value .int32 →
      (fun _ => true) (ptrOf [5, -3, 8, none_encoded_null_value .int32, 2] i) = true) ∧
    (parallel_reduce
        (updateStatsBody .int32 (fun _ => true)
          (ptrOf [5, -3, 8, none_encoded_null_value .int32, 2]))
        updateStatsReduce (4, 4, false)
        (ReducePlan.join (.block ⟨3, 5⟩) (.join (.block ⟨0, 1⟩) (.block ⟨1, 3⟩))) =
      updateStatsBody .int32 (fun _ => true)
        (ptrOf [5, -3, 8, none_encoded_null_value .int32, 2]) ⟨0, 5⟩ (4, 4, false) ∧
    updateStatsBody .int32 (fun _ => true)
        (ptrOf [5, -3, 8, none_encoded_null_value .int32, 2]) ⟨0, 5⟩ (4, 4, false) =
      .ok ((elemsFrom (ptrOf [5, -3, 8, none_encoded_null_value .int32, 2]) 0 5).foldl
        (foldStat .int32) (4, 4, false))) ∧
    updateStatsBody .int32 (fun _ => true)
        (ptrOf [5, -3, 8, none_encoded_null_value .int32, 2]) ⟨0, 5⟩ (4, 4, false) =
      .ok (-3, 8, true) :=
  ⟨by decide, by decide, fun _ _ _ => rfl,
    parallel_reduce_eq_sequential .int32 (fun _ => true)
      (ptrOf [5, -3, 8, none_encoded_null_value .int32, 2]) 5 (4, 4, false)
      (ReducePlan.join (.block ⟨3, 5⟩) (.join (.block ⟨0, 1⟩) (.block ⟨1, 3⟩)))
      [⟨0, 1⟩, ⟨1, 3⟩, ⟨3, 5⟩] (by decide) (by decide) (fun _ _ _ => rfl),
    rfl⟩

/-! ### Statistics of appended values -/

theorem elemsFrom_ptrOf (b : List Int) : elemsFrom (ptrOf b) 0 b.length = b := by
  apply List.ext_getElem
  · simp [elemsFrom]
  · intro i h1 h2
    simp [elemsFrom, ptrOf, List.getElem?_eq_getElem h2]

theorem appendData_append_ok (T : ElemType) (validate : Int → Bool) (e : NoneEncoder)
    (src : Nat → Int) (n : Nat)
    (hok : ∀ i, i < n → src i ≠ none_encoded_null_value T → validate (src i) = true) :
    (∃ m, (e.appendData T validate src n false (-1)).result = .ok m) ∧
    (e.appendData T validate src n false (-1)).encoder.stats =
      (elemsFrom src 0 n).foldl (foldStat T) e.stats := by
  cases hx : appendLoop T validate src false 0 n (e, []) with
  | error x =>
    obtain ⟨j, hj, _, h2, h3, _⟩ := (appendLoop_spec T validate src false n 0 e _).2 x hx
    simp only [readElem, Nat.zero_add, Bool.false_eq_true, if_false] at h2 h3
    rw [hok j hj h2] at h3
    cases h3
  | ok x =>
    have h2 := ((appendLoop_spec T validate src false n 0 e _).1 x hx).2
    unfold NoneEncoder.appendData
    simp only [hx, Bool.false_eq_true, if_false, if_true]
    refine ⟨⟨_, rfl⟩, ?_⟩
    show x.1.stats = _
    rw [h2, stats_withStats]
    rfl

theorem appendAll_stats (T : ElemType) (validate : Int → Bool) :
    ∀ (batches : List (List Int)) (e : NoneEncoder),
      (∀ b ∈ batches, ∀ v ∈ b, v ≠ none_encoded_null_value T → validate v = true) →
      ∃ e', appendAll T validate e batches = some e' ∧
        e'.stats = batches.flatten.foldl (foldStat T) e.stats := by
  intro batches
  induction batches with
  | nil => intro e _; exact ⟨e, rfl, rfl⟩
  | cons b bs ih =>
    intro e h
    have hb : ∀ i, i < b.length → ptrOf b i ≠ none_encoded_null_value T →
        validate (ptrOf b i) = true := by
      intro i hi
      have hmem : ptrOf b i ∈ b := by
        simp only [ptrOf, List.getD_eq_getElem _ _ hi]
        exact List.getElem_mem hi
      exact h b (List.mem_cons_self _ _) _ hmem
    obtain ⟨⟨m, hm⟩, hstats⟩ := appendData_append_ok T validate e (ptrOf b) b.length hb
    obtain ⟨e', he', hs'⟩ := ih (e.appendData T validate (ptrOf b) b.length false (-1)).encoder
      (fun b' hb' => h b' (List.mem_cons_of_mem _ hb'))
    refine ⟨e', ?_, ?_⟩
    · simp only [appendAll, hm]
      exact he'
    · rw [hs', hstats, elemsFrom_ptrOf, List.flatten_cons, List.foldl_append]

theorem foldl_foldStat_spec (T : ElemType) :
    ∀ (l : List Int) (s : Int × Int × Bool),
      ((l.foldl (foldStat T) s).1 ≤ s.1 ∧
        (∀ v ∈ l, v ≠ none_encoded_null_value T → (l.foldl (foldStat T) s).1 ≤ v) ∧
        ((l.foldl (foldStat T) s).1 = s.1 ∨
          ((l.foldl (foldStat T) s).1 ∈ l ∧
            (l.foldl (foldStat T) s).1 ≠ none_encoded_null_value T))) ∧
      (s.2.1 ≤ (l.foldl (foldStat T) s).2.1 ∧
        (∀ v ∈ l, v ≠ none_encoded_null_value T → v ≤ (l.foldl (foldStat T) s).2.1) ∧
        ((l.foldl (foldStat T) s).2.1 = s.2.1 ∨
          ((l.foldl (foldStat T) s).2.1 ∈ l ∧
            (l.foldl (foldStat T) s).2.1 ≠ none_encoded_null_value T))) ∧
      ((l.foldl (foldStat T) s).2.2 = true ↔
        (s.2.2 = true ∨ none_encoded_null_value T ∈ l)) := by
  intro l
  induction l with
  | nil => intro s; simp
  | cons x l ih =>
    intro s
    obtain ⟨⟨a1, a2, a3⟩, ⟨b1, b2, b3⟩, c⟩ := ih (foldStat T s x)
    rw [List.foldl_cons]
    by_cases hx : x = none_encoded_null_value T
    · have hf : foldStat T s x = (s.1, s.2.1, true) := by simp [foldStat, hx]
      rw [hf] at a1 a2 a3 b1 b2 b3 c ⊢
      simp only at a1 a3 b1 b3 c
      refine ⟨⟨a1, ?_, ?_⟩, ⟨b1, ?_, ?_⟩, ?_⟩
      · intro v hv hvn
        rcases List.mem_cons.mp hv with h | h
        · exact absurd (h.trans hx) hvn
        · exact a2 v h hvn
      · rcases a3 with h | ⟨h, h'⟩
        · exact Or.inl h
        · exact Or.inr ⟨List.mem_cons_of_mem _ h, h'⟩
      · intro v hv hvn
        rcases List.mem_cons.mp hv with h | h
        · exact absurd (h.trans hx) hvn
        · exact b2 v h hvn
      · rcases b3 with h | ⟨h, h'⟩
        · exact Or.inl h
        · exact Or.inr ⟨List.mem_cons_of_mem _ h, h'⟩
      · rw [c]
        constructor
        · intro _; exact Or.inr (hx ▸ List.mem_cons_self _ _)
        · intro _; exact Or.inl trivial
    · have hf : foldStat T s x = (min s.1 x, max s.2.1 x, s.2.2) := by simp [foldStat, hx]
      rw [hf] at a1 a2 a3 b1 b2 b3 c ⊢
      simp only at a1 a3 b1 b3 c
      refine ⟨⟨le_trans a1 (min_le_left _ _), ?_, ?_⟩, ⟨le_trans (le_max_left _ _) b1, ?_, ?_⟩, ?_⟩
      · intro v hv hvn
        rcases List.mem_cons.mp hv with h | h
        · rw [h]; exact le_trans a1 (min_le_right _ _)
        · exact a2 v h hvn
      · rcases a3 with h | ⟨h, h'⟩
        · rcases min_choice s.1 x with h2 | h2
          · exact Or.inl (h.trans h2)
          · right
            rw [h, h2]
            exact ⟨List.mem_cons_self _ _, hx⟩
        · exact Or.inr ⟨List.mem_cons_of_mem _ h, h'⟩
      · intro v hv hvn
        rcases List.mem_cons.mp hv with h | h
        · rw [h]; exact le_trans (le_max_right _ _) b1
        · exact b2 v h hvn
      · rcases b3 with h | ⟨h, h'⟩
        · rcases max_choice s.2.1 x with h2 | h2
          · exact Or.inl (h.trans h2)
          · right
            rw [h, h2]
            exact ⟨List.mem_cons_self _ _, hx⟩
        · exact Or.inr ⟨List.mem_cons_of_mem _ h, h'⟩
      · rw [c]
        constructor
        · rintro (h | h)
          · exact Or.inl h
          · exact Or.inr (List.mem_cons_of_mem _ h)
        · rintro (h | h)
          · exact Or.inl h
          · rcases List.mem_cons.mp h with h' | h'
            · exact absurd h'.symm hx
            · exact Or.inr h'

/-- C1: values of a signed integer type `T` are appended to a freshly constructed
`NoneEncoder<T>` in any number of `appendData` calls (replicating off, no offset, no
value rejected by the decimal overflow validator). All calls succeed; if at least one
value is not the null sentinel, `dataMin` is the minimum and `dataMax` the maximum of the
non-sentinel values; and `has_nulls` is true exactly when some appended value is the null
sentinel. -/
theorem appendAll_min_max (T : ElemType) (validate : Int → Bool) (buffer : AbstractBuffer)
    (batches : List (List Int))
    (hrange : ∀ b ∈ batches, ∀ v ∈ b, T.InRange v)
    (hvalid : ∀ b ∈ batches, ∀ v ∈ b, v ≠ none_encoded_null_value T → validate v = true) :
    ∃ e, appendAll T validate (NoneEncoder.new T buffer) batches = some e ∧
      ((∃ v ∈ batches.flatten, v ≠ none_encoded_null_value T) →
        IsLeast {v | v ∈ batches.flatten ∧ v ≠ none_encoded_null_value T} e.dataMin ∧
        IsGreatest {v | v ∈ batches.flatten ∧ v ≠ none_encoded_null_value T} e.dataMax) ∧
      (e.has_nulls = true ↔ none_encoded_null_value T ∈ batches.flatten) := by
  obtain ⟨e, he, hs⟩ := appendAll_stats T validate batches (NoneEncoder.new T buffer) hvalid
  obtain ⟨⟨_, a2, a3⟩, ⟨_, b2, b3⟩, c⟩ :=
    foldl_foldStat_spec T batches.flatten (NoneEncoder.new T buffer).stats
  rw [← hs] at a2 a3 b2 b3 c
  have hin : ∀ v ∈ batches.flatten, T.InRange v := by
    intro v hv
    obtain ⟨b, hb, hvb⟩ := List.mem_flatten.mp hv
    exact hrange b hb v hvb
  refine ⟨e, he, ?_, ?_⟩
  · rintro ⟨v, hv, hvn⟩
    refine ⟨⟨?_, fun w hw => a2 w hw.1 hw.2⟩, ⟨?_, fun w hw => b2 w hw.1 hw.2⟩⟩
    · rcases a3 with h | h
      · have h1 : e.dataMin ≤ v := a2 v hv hvn
        have h2 : v ≤ numeric_limits_max T := (hin v hv).2
        have h3 : e.dataMin = numeric_limits_max T := h
        have h4 : e.dataMin = v := by omega
        show e.dataMin ∈ batches.flatten ∧ e.dataMin ≠ none_encoded_null_value T
        rw [h4]
        exact ⟨hv, hvn⟩
      · exact h
    · rcases b3 with h | h
      · have h1 : v ≤ e.dataMax := b2 v hv hvn
        have h2 : numeric_limits_lowest T ≤ v := (hin v hv).1
        have h3 : e.dataMax = numeric_limits_lowest T := h
        have h4 : e.dataMax = v := by omega
        show e.dataMax ∈ batches.flatten ∧ e.dataMax ≠ none_encoded_null_value T
        rw [h4]
        exact ⟨hv, hvn⟩
      · exact h
  · have hc : e.has_nulls = true ↔
        ((NoneEncoder.new T buffer).has_nulls = true ∨
          none_encoded_null_value T ∈ batches.flatten) := c
    rw [hc]
    simp [NoneEncoder.new]

/-- Witness for C1: appending `{5, -3, 8, null, 2}` to a fresh 32-bit encoder gives
`min = -3`, `max = 8`, `has_nulls = true` (and an element count of 5). -/
theorem appendAll_min_max_witness :
    (∀ b ∈ [[5, -3, 8, none_encoded_null_value .int32, 2]], ∀ v ∈ b, ElemType.int32.InRange v) ∧
    (∀ b ∈ [[5, -3, 8, none_encoded_null_value .int32, 2]], ∀ v ∈ b,
      v ≠ none_encoded_null_value .int32 → (fun _ => true) v = true) ∧
    (∃ e, appendAll .int32 (fun _ => true) (NoneEncoder.new .int32 ⟨[], ⟨.kINT, 0, 0, 4⟩⟩)
        [[5, -3, 8, none_encoded_null_value .int32, 2]] = some e ∧
      ((∃ v ∈ [[5, -3, 8, none_encoded_null_value .int32, 2]].flatten,
          v ≠ none_encoded_null_value .int32) →
        IsLeast {v | v ∈ [[5, -3, 8, none_encoded_null_value .int32, 2]].flatten ∧
          v ≠ none_encoded_null_value .int32} e.dataMin ∧
        IsGreatest {v | v ∈ [[5, -3, 8, none_encoded_null_value .int32, 2]].flatten ∧
          v ≠ none_encoded_null_value .int32} e.dataMax) ∧
      (e.has_nulls = true ↔
        none_encoded_null_value .int32 ∈ [[5, -3, 8, none_encoded_null_value .int32, 2]].flatten)) ∧
    (appendAll .int32 (fun _ => true) (NoneEncoder.new .int32 ⟨[], ⟨.kINT, 0, 0, 4⟩⟩)
        [[5, -3, 8, none_encoded_null_value .int32, 2]]).map
      (fun e => (e.dataMin, e.dataMax, e.has_nulls, e.num_elems_)) = some (-3, 8, true, 5) :=
  ⟨by decide, by decide,
    appendAll_min_max .int32 (fun _ => true) ⟨[], ⟨.kINT, 0, 0, 4⟩⟩
      [[5, -3, 8, none_encoded_null_value .int32, 2]] (by decide) (by decide),
    by decide⟩

/-! ### What a call of `appendData` does to the statistics -/

theorem appendData_stats_of_loop_ok (T : ElemType) (validate : Int → Bool) (e : NoneEncoder)
    (src : Nat → Int) (n : Nat) (repl : Bool) (offset : Int) (x : NoneEncoder × List Int)
    (hx : appendLoop T validate src repl 0 n
      (e, if repl then List.replicate n 0 else []) = .ok x) :
    (e.appendData T validate src n repl offset).encoder.stats = x.1.stats := by
  unfold NoneEncoder.appendData
  simp only [hx]
  split_ifs <;> rfl

theorem appendData_stats_prefix (T : ElemType) (validate : Int → Bool) (e : NoneEncoder)
    (src : Nat → Int) (n : Nat) (repl : Bool) (offset : Int) :
    ∃ j, j ≤ n ∧
      (e.appendData T validate src n repl offset).encoder.stats =
        (elemsFrom (readElem src repl) 0 j).foldl (foldStat T) e.stats ∧
      (∀ i, i < n →
        (∀ k, k ≤ i → readElem src repl k ≠ none_encoded_null_value T →
          validate (readElem src repl k) = true) → i < j) ∧
      ((∃ m, (e.appendData T validate src n repl offset).result = .ok m) → j = n) := by
  cases hx : appendLoop T validate src repl 0 n (e, if repl then List.replicate n 0 else []) with
  | error x =>
    obtain ⟨j, hj, _, h2, h3, h4⟩ := (appendLoop_spec T validate src repl n 0 e _).2 x hx
    simp only [Nat.zero_add] at h2 h3
    refine ⟨j, by omega, ?_, ?_, ?_⟩
    · rw [appendData_of_loop_error T validate e src n repl offset x hx]
      show x.1.stats = _
      rw [h4, stats_withStats]
      rfl
    · intro i _ hacc
      by_contra hlt
      have := hacc j (by omega) h2
      rw [this] at h3
      cases h3
    · rintro ⟨m, hm⟩
      rw [appendData_of_loop_error T validate e src n repl offset x hx] at hm
      cases hm
  | ok x =>
    have h2 := ((appendLoop_spec T validate src repl n 0 e _).1 x hx).2
    refine ⟨n, le_refl n, ?_, fun i hi _ => hi, fun _ => rfl⟩
    rw [appendData_stats_of_loop_ok T validate e src n repl offset x hx, h2, stats_withStats]
    rfl

/-- C11: a successful `appendData` call in any mode (plain append, replicating, overwrite
at an offset) leaves `dataMin` the least of the old `dataMin` and the non-null incoming
values, and `dataMax` the greatest of the old `dataMax` and the non-null incoming values,
whatever the buffer held; so `dataMin` does not increase and `dataMax` does not
decrease. -/
theorem appendData_extremes (T : ElemType) (validate : Int → Bool) (e : NoneEncoder)
    (src : Nat → Int) (n : Nat) (repl : Bool) (offset : Int)
    (hok : ∃ m, (e.appendData T validate src n repl offset).result = .ok m) :
    IsLeast (insert e.dataMin {v | v ∈ elemsFrom (readElem src repl) 0 n ∧
        v ≠ none_encoded_null_value T})
      (e.appendData T validate src n repl offset).encoder.dataMin ∧
    IsGreatest (insert e.dataMax {v | v ∈ elemsFrom (readElem src repl) 0 n ∧
        v ≠ none_encoded_null_value T})
      (e.appendData T validate src n repl offset).encoder.dataMax ∧
    (e.appendData T validate src n repl offset).encoder.dataMin ≤ e.dataMin ∧
    e.dataMax ≤ (e.appendData T validate src n repl offset).encoder.dataMax := by
  obtain ⟨j, _, hstats, _, hjn⟩ := appendData_stats_prefix T validate e src n repl offset
  rw [hjn hok] at hstats
  obtain ⟨⟨a1, a2, a3⟩, ⟨b1, b2, b3⟩, _⟩ :=
    foldl_foldStat_spec T (elemsFrom (readElem src repl) 0 n) e.stats
  rw [← hstats] at a1 a2 a3 b1 b2 b3
  refine ⟨⟨?_, ?_⟩, ⟨?_, ?_⟩, a1, b1⟩
  · rcases a3 with h | h
    · exact Or.inl h
    · exact Or.inr h
  · rintro w (hw | hw)
    · rw [hw]; exact a1
    · exact a2 w hw.1 hw.2
  · rcases b3 with h | h
    · exact Or.inl h
    · exact Or.inr h
  · rintro w (hw | hw)
    · rw [hw]; exact b1
    · exact b2 w hw.1 hw.2

/-- Witness for C11: an 8-bit chunk holding `{1, 2, 3}` with statistics `[1, 3]`; the
element holding the maximum is overwritten with 0: `dataMax` stays 3, `dataMin` becomes
0. -/
theorem appendData_extremes_witness :
    (∃ m, ((NoneEncoder.mk 3 ⟨[1, 2, 3], ⟨.kTINYINT, 0, 0, 1⟩⟩ 1 3 false).appendData
        .int8 (fun _ => true) (ptrOf [0]) 1 false 2).result = .ok m) ∧
    (IsLeast (insert (NoneEncoder.mk 3 ⟨[1, 2, 3], ⟨.kTINYINT, 0, 0, 1⟩⟩ 1 3 false).dataMin
        {v | v ∈ elemsFrom (readElem (ptrOf [0]) false) 0 1 ∧
          v ≠ none_encoded_null_value .int8})
      ((NoneEncoder.mk 3 ⟨[1, 2, 3], ⟨.kTINYINT, 0, 0, 1⟩⟩ 1 3 false).appendData
        .int8 (fun _ => true) (ptrOf [0]) 1 false 2).encoder.dataMin ∧
    IsGreatest (insert (NoneEncoder.mk 3 ⟨[1, 2, 3], ⟨.kTINYINT, 0, 0, 1⟩⟩ 1 3 false).dataMax
        {v | v ∈ elemsFrom (readElem (ptrOf [0]) false) 0 1 ∧
          v ≠ none_encoded_null_value .int8})
      ((NoneEncoder.mk 3 ⟨[1, 2, 3], ⟨.kTINYINT, 0, 0, 1⟩⟩ 1 3 false).appendData
        .int8 (fun _ => true) (ptrOf [0]) 1 false 2).encoder.dataMax ∧
    ((NoneEncoder.mk 3 ⟨[1, 2, 3], ⟨.kTINYINT, 0, 0, 1⟩⟩ 1 3 false).appendData
        .int8 (fun _ => true) (ptrOf [0]) 1 false 2).encoder.dataMin ≤
      (NoneEncoder.mk 3 ⟨[1, 2, 3], ⟨.kTINYINT, 0, 0, 1⟩⟩ 1 3 false).dataMin ∧
    (NoneEncoder.mk 3 ⟨[1, 2, 3], ⟨.kTINYINT, 0, 0, 1⟩⟩ 1 3 false).dataMax ≤
      ((NoneEncoder.mk 3 ⟨[1, 2, 3], ⟨.kTINYINT, 0, 0, 1⟩⟩ 1 3 false).appendData
        .int8 (fun _ => true) (ptrOf [0]) 1 false 2).encoder.dataMax) ∧
    ((NoneEncoder.mk 3 ⟨[1, 2, 3], ⟨.kTINYINT, 0, 0, 1⟩⟩ 1 3 false).appendData
        .int8 (fun _ => true) (ptrOf [0]) 1 false 2).encoder =
      NoneEncoder.mk 3 ⟨[1, 2, 0], ⟨.kTINYINT, 0, 0, 1⟩⟩ 0 3 false :=
  ⟨⟨_, rfl⟩,
    appendData_extremes .int8 (fun _ => true)
      (NoneEncoder.mk 3 ⟨[1, 2, 3], ⟨.kTINYINT, 0, 0, 1⟩⟩ 1 3 false) (ptrOf [0]) 1 false 2
      ⟨_, rfl⟩,
    by decide⟩

/-! ### What the range overload of `updateStats` computes -/

theorem updateStatsLoop_eq_ok (T : ElemType) (validate : Int → Bool) (data : Nat → Int) :
    ∀ (count i : Nat) (acc r : Int × Int × Bool),
      updateStatsLoop T validate data i count acc = .ok r →
      r = (elemsFrom data i count).foldl (foldStat T) acc := by
  intro count
  induction count with
  | zero =>
    intro i acc r h
    simp only [updateStatsLoop, Except.ok.injEq] at h
    rw [← h]
    rfl
  | succ count ih =>
    intro i acc r h
    obtain ⟨mn, mx, nulls⟩ := acc
    simp only [updateStatsLoop] at h
    simp only [elemsFrom, List.range'_succ, List.map_cons, List.foldl_cons]
    by_cases hnull : data i = none_encoded_null_value T
    · rw [if_neg (by simpa using hnull)] at h
      have := ih (i + 1) _ r h
      rw [this]
      simp [foldStat, hnull, elemsFrom]
    · rw [if_pos hnull] at h
      by_cases hval : validate (data i) = true
      · rw [if_pos hval] at h
        have := ih (i + 1) _ r h
        rw [this]
        simp [foldStat, hnull, elemsFrom]
      · rw [if_neg hval] at h
        cases h

theorem parallel_reduce_eq_ok (T : ElemType) (validate : Int → Bool) (data : Nat → Int)
    (init : Int × Int × Bool) :
    ∀ (plan : ReducePlan) (r : Int × Int × Bool),
      parallel_reduce (updateStatsBody T validate data) updateStatsReduce init plan = .ok r →
      r = (plan.blocks.flatMap
          (fun b => elemsFrom data b.range_begin (b.range_end - b.range_begin))).foldl
            (foldStat T) init := by
  intro plan
  induction plan with
  | block b =>
    intro r h
    simp only [parallel_reduce, updateStatsBody] at h
    simp only [ReducePlan.blocks, List.flatMap_cons, List.flatMap_nil, List.append_nil]
    exact updateStatsLoop_eq_ok T validate data _ _ _ _ h
  | join lhs rhs ihl ihr =>
    intro r h
    simp only [parallel_reduce] at h
    cases hl : parallel_reduce (updateStatsBody T validate data) updateStatsReduce init lhs with
    | error err => rw [hl] at h; cases h
    | ok a =>
      cases hr : parallel_reduce (updateStatsBody T validate data) updateStatsReduce init rhs with
      | error err => rw [hl, hr] at h; cases h
      | ok b =>
        rw [hl, hr] at h
        simp only [Except.ok.injEq] at h
        rw [← h, ihl a hl, ihr b hr, updateStatsReduce_foldl]
        simp only [ReducePlan.blocks, List.flatMap_append]

theorem updateStatsRange_cases (T : ElemType) (validate : Int → Bool) (e : NoneEncoder)
    (dst : Nat → Int) (plan : ReducePlan) :
    ((e.updateStatsRange T validate dst plan).2 = .ok () ∧
      (e.updateStatsRange T validate dst plan).1 = e.withStats
        ((plan.blocks.flatMap
          (fun b => elemsFrom dst b.range_begin (b.range_end - b.range_begin))).foldl
            (foldStat T) e.stats)) ∨
    ((∃ err, (e.updateStatsRange T validate dst plan).2 = .error err) ∧
      (e.updateStatsRange T validate dst plan).1 = e) := by
  cases h : parallel_reduce (updateStatsBody T validate dst) updateStatsReduce
      (e.dataMin, e.dataMax, e.has_nulls) plan with
  | error err =>
    right
    unfold NoneEncoder.updateStatsRange
    simp only [h]
    exact ⟨⟨err, rfl⟩, trivial⟩
  | ok r =>
    left
    have hr := parallel_reduce_eq_ok T validate dst (e.dataMin, e.dataMax, e.has_nulls) plan r h
    obtain ⟨mn, mx, nulls⟩ := r
    unfold NoneEncoder.updateStatsRange
    simp only [h]
    refine ⟨trivial, ?_⟩
    show _ = e.withStats _
    rw [show e.stats = (e.dataMin, e.dataMax, e.has_nulls) from rfl, ← hr]
    rfl

/-! ### Null presence is never reset -/

/-- C12: from a state with `has_nulls = true`, every call of `appendData` (any arguments,
any outcome), of `updateStats` (integer, floating-point or range overload) and of
`reduceStats` leaves `has_nulls = true`. -/
theorem has_nulls_stays_true (T : ElemType) (validate : Int → Bool) {D : Type}
    (double_to_T : D → Int) (e : NoneEncoder) (h : e.has_nulls = true) :
    (∀ (src : Nat → Int) (n : Nat) (repl : Bool) (offset : Int),
      (e.appendData T validate src n repl offset).encoder.has_nulls = true) ∧
    (∀ (val : Int) (is_null : Bool), (e.updateStats T val is_null).has_nulls = true) ∧
    (∀ (val : D) (is_null : Bool),
      (e.updateStatsDouble double_to_T val is_null).has_nulls = true) ∧
    (∀ (dst : Nat → Int) (plan : ReducePlan),
      (e.updateStatsRange T validate dst plan).1.has_nulls = true) ∧
    (∀ that : NoneEncoder, (e.reduceStats that).has_nulls = true) := by
  refine ⟨?_, ?_, ?_, ?_, ?_⟩
  · intro src n repl offset
    obtain ⟨j, _, hstats, _, _⟩ := appendData_stats_prefix T validate e src n repl offset
    have hc := (foldl_foldStat_spec T (elemsFrom (readElem src repl) 0 j) e.stats).2.2
    rw [← hstats] at hc
    exact hc.mpr (Or.inl h)
  · intro val is_null
    cases is_null <;> simp [NoneEncoder.updateStats, h]
  · intro val is_null
    cases is_null <;> simp [NoneEncoder.updateStatsDouble, h]
  · intro dst plan
    rcases updateStatsRange_cases T validate e dst plan with ⟨_, h1⟩ | ⟨_, h1⟩
    · rw [h1]
      exact (foldl_foldStat_spec T _ e.stats).2.2.mpr (Or.inl h)
    · rw [h1]; exact h
  · intro that
    cases hthat : that.has_nulls <;> simp [NoneEncoder.reduceStats, hthat, h]

/-- Witness for C12: a 32-bit encoder with statistics `(1, 3, true)`; a batch without
nulls is appended, and the other operations are run on it. -/
theorem has_nulls_stays_true_witness :
    (NoneEncoder.mk 3 ⟨[], ⟨.kINT, 0, 0, 4⟩⟩ 1 3 true).has_nulls = true ∧
    ((∀ (src : Nat → Int) (n : Nat) (repl : Bool) (offset : Int),
      ((NoneEncoder.mk 3 ⟨[], ⟨.kINT, 0, 0, 4⟩⟩ 1 3 true).appendData .int32 (fun _ => true)
        src n repl offset).encoder.has_nulls = true) ∧
    (∀ (val : Int) (is_null : Bool),
      ((NoneEncoder.mk 3 ⟨[], ⟨.kINT, 0, 0, 4⟩⟩ 1 3 true).updateStats .int32 val
        is_null).has_nulls = true) ∧
    (∀ (val : Int) (is_null : Bool),
      ((NoneEncoder.mk 3 ⟨[], ⟨.kINT, 0, 0, 4⟩⟩ 1 3 true).updateStatsDouble
        (static_cast .int32) val is_null).has_nulls = true) ∧
    (∀ (dst : Nat → Int) (plan : ReducePlan),
      ((NoneEncoder.mk 3 ⟨[], ⟨.kINT, 0, 0, 4⟩⟩ 1 3 true).updateStatsRange .int32
        (fun _ => true) dst plan).1.has_nulls = true) ∧
    (∀ that : NoneEncoder,
      ((NoneEncoder.mk 3 ⟨[], ⟨.kINT, 0, 0, 4⟩⟩ 1 3 true).reduceStats that).has_nulls = true)) ∧
    ((NoneEncoder.mk 3 ⟨[], ⟨.kINT, 0, 0, 4⟩⟩ 1 3 true).appendData .int32 (fun _ => true)
        (ptrOf [7, 8]) 2 false (-1)).encoder.stats = (1, 8, true) :=
  ⟨rfl,
    has_nulls_stays_true .int32 (fun _ => true) (static_cast .int32)
      (NoneEncoder.mk 3 ⟨[], ⟨.kINT, 0, 0, 4⟩⟩ 1 3 true) rfl,
    by decide⟩

/-! ### The range `[dataMin, dataMax]` is not empty once a value was folded in -/

theorem foldl_foldStat_le (T : ElemType) (l : List Int) (s : Int × Int × Bool)
    (h : s.1 ≤ s.2.1) : (l.foldl (foldStat T) s).1 ≤ (l.foldl (foldStat T) s).2.1 := by
  obtain ⟨⟨a1, _, _⟩, ⟨b1, _, _⟩, _⟩ := foldl_foldStat_spec T l s
  omega

theorem foldl_foldStat_le_of_mem (T : ElemType) (l : List Int) (s : Int × Int × Bool)
    (v : Int) (hv : v ∈ l) (hnull : v ≠ none_encoded_null_value T) :
    (l.foldl (foldStat T) s).1 ≤ (l.foldl (foldStat T) s).2.1 := by
  obtain ⟨⟨_, a2, _⟩, ⟨_, b2, _⟩, _⟩ := foldl_foldStat_spec T l s
  exact le_trans (a2 v hv hnull) (b2 v hv hnull)

theorem mem_elemsFrom (data : Nat → Int) (lo count i : Nat) (h1 : lo ≤ i) (h2 : i < lo + count) :
    data i ∈ elemsFrom data lo count := by
  unfold elemsFrom
  exact List.mem_map.mpr ⟨i, List.mem_range'_1.mpr ⟨h1, h2⟩, rfl⟩

theorem le_of_stats_eq (e : NoneEncoder) (s : Int × Int × Bool) (h : e.stats = s)
    (hs : s.1 ≤ s.2.1) : e.dataMin ≤ e.dataMax := by
  have h1 : e.dataMin = s.1 := congrArg Prod.fst h
  have h2 : e.dataMax = s.2.1 := congrArg (fun t => t.2.1) h
  rw [h1, h2]
  exact hs

theorem reached_inv (T : ElemType) (validate : Int → Bool) {D : Type}
    (double_to_T : D → Int) (e : NoneEncoder) (f : Bool)
    (h : Reached T validate double_to_T e f) : f = true → e.dataMin ≤ e.dataMax := by
  induction h with
  | fresh buffer => intro hf; cases hf
  | append e f src n repl offset _ ih =>
    intro hf
    obtain ⟨j, _, hstats, _, _⟩ := appendData_stats_prefix T validate e src n repl offset
    exact le_of_stats_eq _ _ hstats (foldl_foldStat_le T _ _ (ih hf))
  | append_folded e f src n repl offset i _ hi hacc hnn _ =>
    intro _
    obtain ⟨j, _, hstats, hfold, _⟩ := appendData_stats_prefix T validate e src n repl offset
    have hij := hfold i hi hacc
    exact le_of_stats_eq _ _ hstats
      (foldl_foldStat_le_of_mem T _ _ _
        (mem_elemsFrom (readElem src repl) 0 j i (Nat.zero_le _) (by omega)) hnn)
  | updateStats e f val is_null _ ih =>
    intro hf
    cases is_null with
    | true =>
      simp only [Bool.not_true, Bool.or_false] at hf
      simpa [NoneEncoder.updateStats] using ih hf
    | false =>
      simp only [NoneEncoder.updateStats, Bool.false_eq_true, if_false]
      exact le_trans (min_le_right _ _) (le_max_right _ _)
  | updateStatsDouble e f val is_null _ ih =>
    intro hf
    cases is_null with
    | true =>
      simp only [Bool.not_true, Bool.or_false] at hf
      simpa [NoneEncoder.updateStatsDouble] using ih hf
    | false =>
      simp only [NoneEncoder.updateStatsDouble, Bool.false_eq_true, if_false]
      exact le_trans (min_le_right _ _) (le_max_right _ _)
  | updateStatsRange e f dst plan _ ih =>
    intro hf
    rcases updateStatsRange_cases T validate e dst plan with ⟨_, h1⟩ | ⟨_, h1⟩
    · rw [h1]
      exact le_of_stats_eq _ _ (stats_withStats _ _) (foldl_foldStat_le T _ _ (ih hf))
    · rw [h1]; exact ih hf
  | updateStatsRange_folded e f dst plan r i _ hok hr hlo hhi hnn _ =>
    intro _
    rcases updateStatsRange_cases T validate e dst plan with ⟨_, h1⟩ | ⟨⟨err, herr⟩, _⟩
    · rw [h1]
      refine le_of_stats_eq _ _ (stats_withStats _ _)
        (foldl_foldStat_le_of_mem T _ _ (dst i) ?_ hnn)
      exact List.mem_flatMap.mpr
        ⟨r, hr, mem_elemsFrom dst r.range_begin _ i hlo (by omega)⟩
    · rw [herr] at hok
      cases hok
  | reduceStats e f that g _ _ ihe ihthat =>
    intro hfg
    have hmin : (e.reduceStats that).dataMin = min e.dataMin that.dataMin := by
      unfold NoneEncoder.reduceStats
      split_ifs <;> rfl
    have hmax : (e.reduceStats that).dataMax = max e.dataMax that.dataMax := by
      unfold NoneEncoder.reduceStats
      split_ifs <;> rfl
    rw [hmin, hmax]
    cases f with
    | true => exact le_trans (min_le_left _ _) (le_trans (ihe rfl) (le_max_left _ _))
    | false =>
      simp only [Bool.false_or] at hfg
      exact le_trans (min_le_right _ _) (le_trans (ihthat hfg) (le_max_right _ _))

/-- C13: in every encoder state reached from a freshly constructed `NoneEncoder<T>` by
`appendData`, `updateStats` and `reduceStats` calls (the other encoder of `reduceStats`
being reached in the same way) in which at least one non-null value has been folded in,
`dataMin ≤ dataMax`; further such calls lead to states of the same kind, so it keeps
holding. -/
theorem dataMin_le_dataMax_of_reached (T : ElemType) (validate : Int → Bool) {D : Type}
    (double_to_T : D → Int) (e : NoneEncoder)
    (h : Reached T validate double_to_T e true) : e.dataMin ≤ e.dataMax :=
  reached_inv T validate double_to_T e true h rfl

/-- Witness for C13: a fresh 32-bit encoder after appending `{null, 5}` and then merging a
fresh encoder into it. -/
theorem dataMin_le_dataMax_of_reached_witness :
    Reached .int32 (fun _ => true) (static_cast .int32)
      (((NoneEncoder.new .int32 ⟨[], ⟨.kINT, 0, 0, 4⟩⟩).appendData .int32 (fun _ => true)
        (ptrOf [none_encoded_null_value .int32, 5]) 2 false (-1)).encoder.reduceStats
        (NoneEncoder.new .int32 ⟨[], ⟨.kINT, 0, 0, 4⟩⟩)) true ∧
    (((NoneEncoder.new .int32 ⟨[], ⟨.kINT, 0, 0, 4⟩⟩).appendData .int32 (fun _ => true)
        (ptrOf [none_encoded_null_value .int32, 5]) 2 false (-1)).encoder.reduceStats
        (NoneEncoder.new .int32 ⟨[], ⟨.kINT, 0, 0, 4⟩⟩)).dataMin ≤
      (((NoneEncoder.new .int32 ⟨[], ⟨.kINT, 0, 0, 4⟩⟩).appendData .int32 (fun _ => true)
        (ptrOf [none_encoded_null_value .int32, 5]) 2 false (-1)).encoder.reduceStats
        (NoneEncoder.new .int32 ⟨[], ⟨.kINT, 0, 0, 4⟩⟩)).dataMax ∧
    (((NoneEncoder.new .int32 ⟨[], ⟨.kINT, 0, 0, 4⟩⟩).appendData .int32 (fun _ => true)
        (ptrOf [none_encoded_null_value .int32, 5]) 2 false (-1)).encoder.reduceStats
        (NoneEncoder.new .int32 ⟨[], ⟨.kINT, 0, 0, 4⟩⟩)).stats = (5, 5, true) :=
  ⟨Reached.reduceStats _ true _ false
      (Reached.append_folded _ false _ _ _ _ 1 (Reached.fresh _) (by decide)
        (fun _ _ _ => rfl) (by decide))
      (Reached.fresh _),
    dataMin_le_dataMax_of_reached .int32 (fun _ => true) (static_cast .int32) _
      (Reached.reduceStats _ true _ false
        (Reached.append_folded _ false _ _ _ _ 1 (Reached.fresh _) (by decide)
          (fun _ _ _ => rfl) (by decide))
        (Reached.fresh _)),
    by decide⟩

/-! ### Merging statistics -/

/-- C14: the merge function of the statistics reduction,
`merge(a, b) = (min(a.min, b.min), max(a.max, b.max), a.has_nulls || b.has_nulls)`, is
commutative and associative on triples over the integers. -/
theorem updateStatsReduce_comm_assoc (a b c : Int × Int × Bool) :
    updateStatsReduce a b = (min a.1 b.1, max a.2.1 b.2.1, a.2.2 || b.2.2) ∧
    updateStatsReduce a b = updateStatsReduce b a ∧
    updateStatsReduce (updateStatsReduce a b) c = updateStatsReduce a (updateStatsReduce b c) := by
  refine ⟨rfl, updateStatsReduce_comm a b, ?_⟩
  unfold updateStatsReduce
  refine Prod.ext ?_ (Prod.ext ?_ ?_)
  · exact min_assoc _ _ _
  · exact max_assoc _ _ _
  · exact Bool.or_assoc _ _ _

/-- C15: `reduceStats(that)` leaves this encoder with
`dataMin = min(this.dataMin, that.dataMin)`, `dataMax = max(this.dataMax, that.dataMax)` and
`has_nulls = this.has_nulls || that.has_nulls`; so `dataMin` does not increase, `dataMax`
does not decrease, `has_nulls` does not go from true to false, and the element count and
the buffer of this encoder are unchanged (the other encoder is only read). -/
theorem reduceStats_spec (e that : NoneEncoder) :
    (e.reduceStats that).dataMin = min e.dataMin that.dataMin ∧
    (e.reduceStats that).dataMax = max e.dataMax that.dataMax ∧
    (e.reduceStats that).has_nulls = (e.has_nulls || that.has_nulls) ∧
    (e.reduceStats that).dataMin ≤ e.dataMin ∧
    e.dataMax ≤ (e.reduceStats that).dataMax ∧
    (e.has_nulls = true → (e.reduceStats that).has_nulls = true) ∧
    (e.reduceStats that).num_elems_ = e.num_elems_ ∧
    (e.reduceStats that).buffer_ = e.buffer_ := by
  have hmin : (e.reduceStats that).dataMin = min e.dataMin that.dataMin := by
    unfold NoneEncoder.reduceStats
    split_ifs <;> rfl
  have hmax : (e.reduceStats that).dataMax = max e.dataMax that.dataMax := by
    unfold NoneEncoder.reduceStats
    split_ifs <;> rfl
  have hnulls : (e.reduceStats that).has_nulls = (e.has_nulls || that.has_nulls) := by
    unfold NoneEncoder.reduceStats
    cases hthat : that.has_nulls <;> simp
  refine ⟨hmin, hmax, hnulls, ?_, ?_, ?_, ?_, ?_⟩
  · rw [hmin]; exact min_le_left _ _
  · rw [hmax]; exact le_max_left _ _
  · intro h; rw [hnulls, h]; rfl
  · unfold NoneEncoder.reduceStats
    split_ifs <;> rfl
  · unfold NoneEncoder.reduceStats
    split_ifs <;> rfl

/-! ### Parquet decimal annotations and the physical-type table -/

open AllowedParquetMetadataTypeMappings in
/-- C16: for a decimal column with precision `p` and scale `s` and a foreign decimal
annotation with precision `p'` and scale `s'`, `isColumnMappingSupported` is true exactly
when `p = p'` and `s = s'`. -/
theorem isColumnMappingSupported_decimal_iff (d2i : SQLTypeInfo → SQLTypes)
    (col : ColumnDescriptor) (phys : parquet.PhysicalType) (p' s' : Int)
    (hdec : col.columnType.is_decimal = true) :
    isColumnMappingSupported d2i col ⟨phys, .DECIMAL p' s'⟩ = true ↔
      col.columnType.get_precision = p' ∧ col.columnType.get_scale = s' := by
  simp [isColumnMappingSupported, validateIntegralMapping, validateDecimalMapping,
    parquet.LogicalType.is_none, hdec]

open AllowedParquetMetadataTypeMappings in
/-- Witness for C16: decimal(10,2) onto a decimal(10,2) column is supported, onto a
decimal(12,2) column it is not. -/
theorem isColumnMappingSupported_decimal_iff_witness :
    (ColumnDescriptor.mk ⟨.kDECIMAL, 10, 2, 8⟩).columnType.is_decimal = true ∧
    (isColumnMappingSupported decimal_to_int_type ⟨⟨.kDECIMAL, 10, 2, 8⟩⟩
        ⟨.INT64, .DECIMAL 10 2⟩ = true ↔
      (ColumnDescriptor.mk ⟨.kDECIMAL, 10, 2, 8⟩).columnType.get_precision = 10 ∧
      (ColumnDescriptor.mk ⟨.kDECIMAL, 10, 2, 8⟩).columnType.get_scale = 2) ∧
    isColumnMappingSupported decimal_to_int_type ⟨⟨.kDECIMAL, 10, 2, 8⟩⟩
      ⟨.INT64, .DECIMAL 10 2⟩ = true ∧
    isColumnMappingSupported decimal_to_int_type ⟨⟨.kDECIMAL, 12, 2, 8⟩⟩
      ⟨.INT64, .DECIMAL 10 2⟩ = false :=
  ⟨by decide,
    isColumnMappingSupported_decimal_iff decimal_to_int_type ⟨⟨.kDECIMAL, 10, 2, 8⟩⟩ .INT64 10 2
      (by decide),
    by decide, by decide⟩

theorem physical_type_mappings_contains_iff (k : SQLTypes) (p : parquet.PhysicalType) :
    AllowedParquetMetadataTypeMappings.physical_type_mappings.contains (k, p) = true ↔
      (k = .kBOOLEAN ∧ p = .BOOLEAN) ∨
      ((k = .kTINYINT ∨ k = .kSMALLINT ∨ k = .kINT ∨ k = .kBIGINT) ∧
        (p = .INT32 ∨ p = .INT64)) ∨
      ((k = .kFLOAT ∨ k = .kDOUBLE) ∧ (p = .FLOAT ∨ p = .DOUBLE)) := by
  cases k <;> cases p <;> decide

theorem isColumnMappingSupported_of_none (d2i : SQLTypeInfo → SQLTypes)
    (col : ColumnDescriptor) (pd : parquet.ColumnDescriptor)
    (hnone : pd.logical_type = .NONE) :
    AllowedParquetMetadataTypeMappings.isColumnMappingSupported d2i col pd =
      AllowedParquetMetadataTypeMappings.physical_type_mappings.contains
        (effective_column_kind d2i col.columnType, pd.physical_type) := by
  unfold AllowedParquetMetadataTypeMappings.isColumnMappingSupported effective_column_kind
  simp only [hnone, parquet.LogicalType.is_none, if_true]

open AllowedParquetMetadataTypeMappings in
/-- C17: without a logical annotation, `isColumnMappingSupported` is true exactly when
(effective column kind, physical kind) is one of the 13 pairs (BOOLEAN, BOOLEAN), each of
TINYINT, SMALLINT, INT, BIGINT with INT32 or INT64, each of FLOAT, DOUBLE with FLOAT or
DOUBLE. The effective kind of a decimal column is the integer kind of its storage width
(1, 2, 4 or 8 bytes), so a decimal column is supported exactly for INT32 and INT64; no
column is supported with INT96, BYTE_ARRAY or FIXED_LEN_BYTE_ARRAY. -/
theorem isColumnMappingSupported_physical_iff (col : ColumnDescriptor)
    (pd : parquet.ColumnDescriptor) (hnone : pd.logical_type = .NONE) :
    (∀ d2i : SQLTypeInfo → SQLTypes,
      isColumnMappingSupported d2i col pd = true ↔
        (effective_column_kind d2i col.columnType = .kBOOLEAN ∧ pd.physical_type = .BOOLEAN) ∨
        ((effective_column_kind d2i col.columnType = .kTINYINT ∨
            effective_column_kind d2i col.columnType = .kSMALLINT ∨
            effective_column_kind d2i col.columnType = .kINT ∨
            effective_column_kind d2i col.columnType = .kBIGINT) ∧
          (pd.physical_type = .INT32 ∨ pd.physical_type = .INT64)) ∨
        ((effective_column_kind d2i col.columnType = .kFLOAT ∨
            effective_column_kind d2i col.columnType = .kDOUBLE) ∧
          (pd.physical_type = .FLOAT ∨ pd.physical_type = .DOUBLE))) ∧
    (col.columnType.is_decimal = true →
      (col.columnType.get_size = 1 ∨ col.columnType.get_size = 2 ∨
        col.columnType.get_size = 4 ∨ col.columnType.get_size = 8) →
      (isColumnMappingSupported decimal_to_int_type col pd = true ↔
        (pd.physical_type = .INT32 ∨ pd.physical_type = .INT64))) ∧
    (∀ d2i : SQLTypeInfo → SQLTypes,
      (pd.physical_type = .INT96 ∨ pd.physical_type = .BYTE_ARRAY ∨
        pd.physical_type = .FIXED_LEN_BYTE_ARRAY) →
      isColumnMappingSupported d2i col pd = false) ∧
    physical_type_mappings.length = 13 ∧ physical_type_mappings.Nodup := by
  have hiff : ∀ d2i : SQLTypeInfo → SQLTypes,
      isColumnMappingSupported d2i col pd = true ↔ _ := fun d2i =>
    (isColumnMappingSupported_of_none d2i col pd hnone) ▸
      physical_type_mappings_contains_iff (effective_column_kind d2i col.columnType)
        pd.physical_type
  refine ⟨hiff, ?_, ?_, by decide, by decide⟩
  · intro hdec hsize
    rw [hiff decimal_to_int_type]
    have hk : effective_column_kind decimal_to_int_type col.columnType =
        decimal_to_int_type col.columnType := by
      simp [effective_column_kind, hdec]
    rw [hk]
    rcases hsize with h | h | h | h <;> simp [decimal_to_int_type, h]
  · intro d2i hp
    cases hres : isColumnMappingSupported d2i col pd with
    | false => rfl
    | true =>
      have := (hiff d2i).mp hres
      rcases hp with h | h | h <;> simp [h] at this

open AllowedParquetMetadataTypeMappings in
/-- Witness for C17: a decimal(10,2) column stored in 8 bytes against an unannotated
INT64; also INT with FLOAT and BOOLEAN with INT32 are unsupported. -/
theorem isColumnMappingSupported_physical_iff_witness :
    (parquet.ColumnDescriptor.mk .INT64 .NONE).logical_type = .NONE ∧
    isColumnMappingSupported decimal_to_int_type ⟨⟨.kDECIMAL, 10, 2, 8⟩⟩ ⟨.INT64, .NONE⟩ = true ∧
    isColumnMappingSupported decimal_to_int_type ⟨⟨.kDECIMAL, 10, 2, 8⟩⟩ ⟨.DOUBLE, .NONE⟩ = false ∧
    isColumnMappingSupported decimal_to_int_type ⟨⟨.kINT, 0, 0, 4⟩⟩ ⟨.FLOAT, .NONE⟩ = false ∧
    isColumnMappingSupported decimal_to_int_type ⟨⟨.kBOOLEAN, 0, 0, 1⟩⟩ ⟨.INT32, .NONE⟩ = false ∧
    isColumnMappingSupported decimal_to_int_type ⟨⟨.kTEXT, 0, 0, 4⟩⟩ ⟨.BYTE_ARRAY, .NONE⟩ = false ∧
    (isColumnMappingSupported decimal_to_int_type ⟨⟨.kDECIMAL, 10, 2, 8⟩⟩ ⟨.INT64, .NONE⟩ = true ↔
      ((parquet.ColumnDescriptor.mk .INT64 .NONE).physical_type = .INT32 ∨
        (parquet.ColumnDescriptor.mk .INT64 .NONE).physical_type = .INT64)) :=
  ⟨rfl, by decide, by decide, by decide, by decide, by decide,
    (isColumnMappingSupported_physical_iff ⟨⟨.kDECIMAL, 10, 2, 8⟩⟩ ⟨.INT64, .NONE⟩ rfl).2.1
      (by decide) (by decide)⟩

open AllowedParquetMetadataTypeMappings in
/-- C18: `isColumnMappingSupported` yields a boolean for every pair of descriptors; when a
logical annotation is present it is true exactly for an integer annotation on an integer
column satisfying the width rule and for a decimal annotation on a decimal column with
equal precision and scale. So an integer annotation on a column that is not an integer
column, a decimal annotation on a column that is not a decimal column, and every other
annotation kind give false; and the result depends neither on the physical kind nor on
the decimal-to-integer helper: the physical-type table is not consulted. -/
theorem isColumnMappingSupported_annotated (col : ColumnDescriptor)
    (pd : parquet.ColumnDescriptor) (hlog : pd.logical_type.is_none = false) :
    (∀ d2i : SQLTypeInfo → SQLTypes,
      isColumnMappingSupported d2i col pd = true ∨ isColumnMappingSupported d2i col pd = false) ∧
    (∀ d2i : SQLTypeInfo → SQLTypes,
      isColumnMappingSupported d2i col pd = true ↔
        (∃ b sg, pd.logical_type = .INT b sg ∧ col.columnType.is_integer = true ∧
          (if sg = true then Int.tdiv b 8 ≤ col.columnType.get_size
           else Int.tdiv b 8 < col.columnType.get_size)) ∨
        (∃ p s, pd.logical_type = .DECIMAL p s ∧ col.columnType.is_decimal = true ∧
          col.columnType.get_precision = p ∧ col.columnType.get_scale = s)) ∧
    (∀ (d2i : SQLTypeInfo → SQLTypes) (b : Int) (sg : Bool),
      pd.logical_type = .INT b sg → col.columnType.is_integer = false →
      isColumnMappingSupported d2i col pd = false) ∧
    (∀ (d2i : SQLTypeInfo → SQLTypes) (p s : Int),
      pd.logical_type = .DECIMAL p s → col.columnType.is_decimal = false →
      isColumnMappingSupported d2i col pd = false) ∧
    (∀ d2i : SQLTypeInfo → SQLTypes,
      pd.logical_type.is_int = false → pd.logical_type.is_decimal = false →
      isColumnMappingSupported d2i col pd = false) ∧
    (∀ (d2i d2i' : SQLTypeInfo → SQLTypes) (phys' : parquet.PhysicalType),
      isColumnMappingSupported d2i col pd =
        isColumnMappingSupported d2i' col ⟨phys', pd.logical_type⟩) := by
  obtain ⟨phys, lt⟩ := pd
  simp only at hlog ⊢
  refine ⟨?_, ?_, ?_, ?_, ?_, ?_⟩
  · intro d2i
    cases isColumnMappingSupported d2i col ⟨phys, lt⟩
    · exact Or.inr rfl
    · exact Or.inl rfl
  · intro d2i
    cases lt with
    | NONE => simp [parquet.LogicalType.is_none] at hlog
    | INT b sg =>
      cases sg <;>
        simp [isColumnMappingSupported, validateIntegralMapping, validateDecimalMapping,
          parquet.LogicalType.is_none]
    | DECIMAL p s =>
      simp only [isColumnMappingSupported, validateIntegralMapping, validateDecimalMapping,
        parquet.LogicalType.is_none, Bool.false_eq_true, if_false, reduceCtorEq, false_and,
        exists_false, false_or, parquet.LogicalType.DECIMAL.injEq]
      constructor
      · intro h
        by_cases hdec : col.columnType.is_decimal = true
        · by_cases hps : col.columnType.get_precision = p ∧ col.columnType.get_scale = s
          · exact ⟨p, s, ⟨rfl, rfl⟩, hdec, hps.1, hps.2⟩
          · simp [hdec, hps] at h
        · simp [hdec] at h
      · rintro ⟨p1, s1, ⟨h1, h2⟩, hdec, hp, hs⟩
        subst h1 h2
        simp [hdec, hp, hs]
    | _ =>
      simp [isColumnMappingSupported, validateIntegralMapping, validateDecimalMapping,
        parquet.LogicalType.is_none]
  · intro d2i b sg hlt hcol
    subst hlt
    simp [isColumnMappingSupported, validateIntegralMapping, validateDecimalMapping,
      parquet.LogicalType.is_none, hcol]
  · intro d2i p s hlt hcol
    subst hlt
    simp [isColumnMappingSupported, validateIntegralMapping, validateDecimalMapping,
      parquet.LogicalType.is_none, hcol]
  · intro d2i hint hdec
    cases lt <;>
      simp_all [isColumnMappingSupported, validateIntegralMapping, validateDecimalMapping,
        parquet.LogicalType.is_none, parquet.LogicalType.is_int, parquet.LogicalType.is_decimal]
  · intro d2i d2i' phys'
    cases lt with
    | NONE => simp [parquet.LogicalType.is_none] at hlog
    | _ => simp [isColumnMappingSupported, parquet.LogicalType.is_none]

open AllowedParquetMetadataTypeMappings in
/-- Witness for C18: a signed 32-bit integer annotation on a decimal, a floating-point and
a boolean column, a decimal annotation on an integer column, and a string annotation. -/
theorem isColumnMappingSupported_annotated_witness :
    (parquet.ColumnDescriptor.mk .INT32 (.INT 32 true)).logical_type.is_none = false ∧
    isColumnMappingSupported decimal_to_int_type ⟨⟨.kDECIMAL, 10, 2, 8⟩⟩ ⟨.INT32, .INT 32 true⟩ = false ∧
    isColumnMappingSupported decimal_to_int_type ⟨⟨.kFLOAT, 0, 0, 4⟩⟩ ⟨.INT32, .INT 32 true⟩ = false ∧
    isColumnMappingSupported decimal_to_int_type ⟨⟨.kBOOLEAN, 0, 0, 1⟩⟩ ⟨.INT32, .INT 32 true⟩ = false ∧
    isColumnMappingSupported decimal_to_int_type ⟨⟨.kBIGINT, 0, 0, 8⟩⟩ ⟨.INT64, .DECIMAL 10 2⟩ = false ∧
    isColumnMappingSupported decimal_to_int_type ⟨⟨.kINT, 0, 0, 4⟩⟩ ⟨.INT32, .STRING⟩ = false ∧
    (∀ (d2i : SQLTypeInfo → SQLTypes) (b : Int) (sg : Bool),
      (parquet.ColumnDescriptor.mk .INT32 (.INT 32 true)).logical_type = .INT b sg →
      (ColumnDescriptor.mk ⟨.kDECIMAL, 10, 2, 8⟩).columnType.is_integer = false →
      isColumnMappingSupported d2i ⟨⟨.kDECIMAL, 10, 2, 8⟩⟩ ⟨.INT32, .INT 32 true⟩ = false) :=
  ⟨rfl, by decide, by decide, by decide, by decide, by decide,
    (isColumnMappingSupported_annotated ⟨⟨.kDECIMAL, 10, 2, 8⟩⟩ ⟨.INT32, .INT 32 true⟩ rfl).2.2.1⟩

/-! ### Replacing the statistics -/

/-- C19: `resetChunkStats` returns true exactly when the candidate differs from the current
`dataMin`, `dataMax`, `has_nulls` in at least one field; afterwards the three fields are
those of the candidate in both cases, and the element count and the buffer are
unchanged. -/
theorem resetChunkStats_spec (getDatumVal : Int → Int) (e : NoneEncoder) (stats : ChunkStats) :
    ((e.resetChunkStats getDatumVal stats).2 = true ↔
      (e.dataMin ≠ getDatumVal stats.min ∨ e.dataMax ≠ getDatumVal stats.max ∨
        e.has_nulls ≠ stats.has_nulls)) ∧
    (e.resetChunkStats getDatumVal stats).1.dataMin = getDatumVal stats.min ∧
    (e.resetChunkStats getDatumVal stats).1.dataMax = getDatumVal stats.max ∧
    (e.resetChunkStats getDatumVal stats).1.has_nulls = stats.has_nulls ∧
    (e.resetChunkStats getDatumVal stats).1.num_elems_ = e.num_elems_ ∧
    (e.resetChunkStats getDatumVal stats).1.buffer_ = e.buffer_ := by
  by_cases h : e.dataMin = getDatumVal stats.min ∧ e.dataMax = getDatumVal stats.max ∧
      e.has_nulls = stats.has_nulls
  · have hr : e.resetChunkStats getDatumVal stats = (e, false) := by
      unfold NoneEncoder.resetChunkStats
      simp only [if_pos h]
    rw [hr]
    obtain ⟨h1, h2, h3⟩ := h
    refine ⟨?_, h1, h2, h3, rfl, rfl⟩
    constructor
    · intro hf; cases hf
    · rintro (hn | hn | hn)
      · exact absurd h1 hn
      · exact absurd h2 hn
      · exact absurd h3 hn
  · have hr : e.resetChunkStats getDatumVal stats =
        ({ e with dataMin := getDatumVal stats.min, dataMax := getDatumVal stats.max,
                  has_nulls := stats.has_nulls }, true) := by
      unfold NoneEncoder.resetChunkStats
      simp only [if_neg h]
    rw [hr]
    refine ⟨?_, rfl, rfl, rfl, rfl, rfl⟩
    constructor
    · intro _
      by_contra hcon
      push_neg at hcon
      exact h hcon
    · intro _; rfl

/-! ### Replicating append -/

theorem appendLoop_repl_congr (T : ElemType) (validate : Int → Bool) (src src' : Nat → Int)
    (h0 : src' 0 = src 0) :
    ∀ (count i : Nat) (s : NoneEncoder × List Int),
      appendLoop T validate src' true i count s = appendLoop T validate src true i count s := by
  intro count
  induction count with
  | zero => intro i s; rfl
  | succ count ih =>
    intro i s
    obtain ⟨e, enc⟩ := s
    simp only [appendLoop, if_true, h0, ih]

theorem appendLoop_repl_encoded (T : ElemType) (validate : Int → Bool) (src : Nat → Int) :
    ∀ (count i : Nat) (e : NoneEncoder) (enc : List Int) (x : NoneEncoder × List Int),
      appendLoop T validate src true i count (e, enc) = .ok x →
      ∀ k, k < i + count → k < enc.length →
        (i ≤ k → x.2.getD k 0 = src 0) ∧ (k < i → x.2.getD k 0 = enc.getD k 0) := by
  intro count
  induction count with
  | zero =>
    intro i e enc x hx k hk _
    simp only [appendLoop, Except.ok.injEq] at hx
    subst hx
    exact ⟨fun h => by omega, fun _ => rfl⟩
  | succ count ih =>
    intro i e enc x hx k hk hlen
    simp only [appendLoop, if_true] at hx
    have hset : ∀ e', appendLoop T validate src true (i + 1) count (e', enc.set i (src 0)) = .ok x →
        (i ≤ k → x.2.getD k 0 = src 0) ∧ (k < i → x.2.getD k 0 = enc.getD k 0) := by
      intro e' h'
      obtain ⟨h1, h2⟩ := ih (i + 1) e' (enc.set i (src 0)) x h' k (by omega)
        (by simpa using hlen)
      constructor
      · intro hik
        by_cases hki : k = i
        · rw [h2 (by omega), hki]
          simp [List.getD_eq_getElem?_getD, List.getElem?_set, show i < enc.length by omega]
        · exact h1 (by omega)
      · intro hki
        rw [h2 (by omega)]
        simp [List.getD_eq_getElem?_getD, List.getElem?_set, show i ≠ k by omega]
    split_ifs at hx with hnull hval
    · exact hset _ hx
    · exact hset _ hx

theorem memBytes_congr (T : ElemType) (p q : Nat → Int) (num_bytes : Nat)
    (h : ∀ j, j < num_bytes → p (j / T.sizeof) = q (j / T.sizeof)) :
    memBytes T p num_bytes = memBytes T q num_bytes := by
  unfold memBytes
  apply List.map_congr_left
  intro j hj
  rw [h j (List.mem_range.mp hj)]

theorem sizeof_pos (T : ElemType) : 0 < T.sizeof := by
  cases T <;> decide

theorem memBytes_replicate (T : ElemType) (v : Int) (n : Nat) :
    memBytes T (fun _ => v) (n * T.sizeof) =
      (List.replicate n (memBytes T (fun _ => v) T.sizeof)).flatten := by
  induction n with
  | zero => simp [memBytes]
  | succ n ih =>
    rw [List.replicate_succ', List.flatten_append, ← ih]
    simp only [List.flatten_cons, List.flatten_nil, List.append_nil]
    unfold memBytes
    rw [Nat.succ_mul, List.range_add, List.map_append, List.map_map]
    congr 1
    apply List.map_congr_left
    intro j _
    simp [Function.comp, Nat.add_mod]

theorem elemsFrom_const (v : Int) (lo n : Nat) :
    elemsFrom (fun _ => v) lo n = List.replicate n v := by
  simp [elemsFrom]

theorem appendData_append_state (T : ElemType) (validate : Int → Bool) (e : NoneEncoder)
    (src : Nat → Int) (n : Nat)
    (hok : ∀ i, i < n → src i ≠ none_encoded_null_value T → validate (src i) = true) :
    (e.appendData T validate src n false (-1)).encoder.buffer_ =
      e.buffer_.append (memBytes T src ((n * T.sizeof) % SIZE_T_MOD)) ∧
    (e.appendData T validate src n false (-1)).encoder.num_elems_ =
      (e.num_elems_ + n) % SIZE_T_MOD := by
  cases hx : appendLoop T validate src false 0 n (e, []) with
  | error x =>
    obtain ⟨j, hj, _, h2, h3, _⟩ := (appendLoop_spec T validate src false n 0 e _).2 x hx
    simp only [readElem, Nat.zero_add, Bool.false_eq_true, if_false] at h2 h3
    rw [hok j hj h2] at h3
    cases h3
  | ok x =>
    have h2 := ((appendLoop_spec T validate src false n 0 e _).1 x hx).2
    unfold NoneEncoder.appendData
    simp only [hx, Bool.false_eq_true, if_false, if_true]
    rw [h2]
    exact ⟨rfl, rfl⟩

theorem appendData_replicating_eq (T : ElemType) (validate : Int → Bool) (e : NoneEncoder)
    (src : Nat → Int) (n : Nat) :
    (e.appendData T validate src n true (-1)).encoder =
      (e.appendData T validate (fun _ => src 0) n false (-1)).encoder ∧
    (e.appendData T validate src n true (-1)).result =
      (e.appendData T validate (fun _ => src 0) n false (-1)).result := by
  have hread : (List.range' 0 n).map (readElem src true) =
      (List.range' 0 n).map (readElem (fun _ => src 0) false) := by
    apply List.map_congr_left
    intro k _
    rfl
  cases hx : appendLoop T validate src true 0 n (e, List.replicate n 0) with
  | error x =>
    obtain ⟨j, hj, h1, h2, h3, h4⟩ := (appendLoop_spec T validate src true n 0 e _).2 x hx
    cases hy : appendLoop T validate (fun _ => src 0) false 0 n (e, []) with
    | error y =>
      obtain ⟨j', hj', h1', h2', h3', h4'⟩ :=
        (appendLoop_spec T validate (fun _ => src 0) false n 0 e _).2 y hy
      rw [appendData_of_loop_error T validate e src n true (-1) x hx,
        appendData_of_loop_error T validate e (fun _ => src 0) n false (-1) y hy]
      refine ⟨?_, rfl⟩
      show x.1 = y.1
      have hj0 : j = 0 := by
        by_contra hne
        have := h1 0 (by omega) h2
        rw [show readElem src true (0 + 0) = readElem src true (0 + j) from rfl, h3] at this
        cases this
      have hj0' : j' = 0 := by
        by_contra hne
        have := h1' 0 (by omega) h2'
        rw [show readElem (fun _ => src 0) false (0 + 0) =
          readElem (fun _ => src 0) false (0 + j') from rfl, h3'] at this
        cases this
      rw [h4, h4', hj0, hj0']
      rfl
    | ok y =>
      have hacc := ((appendLoop_spec T validate (fun _ => src 0) false n 0 e _).1 y hy).1 j hj h2
      rw [show readElem (fun _ => src 0) false (0 + j) = readElem src true (0 + j) from rfl,
        h3] at hacc
      cases hacc
  | ok x =>
    obtain ⟨hacc, h4⟩ := (appendLoop_spec T validate src true n 0 e _).1 x hx
    cases hy : appendLoop T validate (fun _ => src 0) false 0 n (e, []) with
    | error y =>
      obtain ⟨j', hj', _, h2', h3', _⟩ :=
        (appendLoop_spec T validate (fun _ => src 0) false n 0 e _).2 y hy
      have := hacc j' hj' h2'
      rw [show readElem src true (0 + j') = readElem (fun _ => src 0) false (0 + j') from rfl,
        h3'] at this
      cases this
    | ok y =>
      have h4' := ((appendLoop_spec T validate (fun _ => src 0) false n 0 e _).1 y hy).2
      have hxy : x.1 = y.1 := by rw [h4, h4', hread]
      have hbytes : memBytes T (ptrOf x.2) ((n * T.sizeof) % SIZE_T_MOD) =
          memBytes T (fun _ => src 0) ((n * T.sizeof) % SIZE_T_MOD) := by
        apply memBytes_congr
        intro j hj
        have hle : (n * T.sizeof) % SIZE_T_MOD ≤ n * T.sizeof := Nat.mod_le _ _
        have hk : j / T.sizeof < n := by
          apply Nat.div_lt_of_lt_mul
          rw [Nat.mul_comm]
          omega
        exact (appendLoop_repl_encoded T validate src n 0 e (List.replicate n 0) x hx
          (j / T.sizeof) (by omega) (by simpa using hk)).1 (Nat.zero_le _)
      unfold NoneEncoder.appendData
      simp only [if_true, Bool.false_eq_true, if_false, hx, hy, hbytes, hxy]
      exact ⟨trivial, trivial⟩

/-- C20: `appendData` with `replicating = true` and no offset broadcasts the first source
element `v = src_data[0]`: the call ends as a non-replicating append of an array of `n`
copies of `v` does and leaves the same encoder (statistics, buffer, element count); it
depends on no source element other than the first; when `v` is the null sentinel or
accepted by the validator it succeeds, the buffer grows by exactly the bytes of `n` copies
of `v` and the element count by `n`; and for `n = 0` the encoder is unchanged. (The
element count and the byte count are `size_t` values.) -/
theorem appendData_replicating (T : ElemType) (validate : Int → Bool) (e : NoneEncoder)
    (src : Nat → Int) (n : Nat)
    (hc : e.num_elems_ + n < SIZE_T_MOD) (hb : n * T.sizeof < SIZE_T_MOD) :
    ((e.appendData T validate src n true (-1)).encoder =
        (e.appendData T validate (fun _ => src 0) n false (-1)).encoder ∧
      (e.appendData T validate src n true (-1)).result =
        (e.appendData T validate (fun _ => src 0) n false (-1)).result) ∧
    (∀ src' : Nat → Int, src' 0 = src 0 →
      e.appendData T validate src' n true (-1) = e.appendData T validate src n true (-1)) ∧
    ((src 0 = none_encoded_null_value T ∨ validate (src 0) = true) →
      (∃ m, (e.appendData T validate src n true (-1)).result = .ok m) ∧
      (e.appendData T validate src n true (-1)).encoder.buffer_ =
        e.buffer_.append (List.replicate n (memBytes T (fun _ => src 0) T.sizeof)).flatten ∧
      (e.appendData T validate src n true (-1)).encoder.num_elems_ = e.num_elems_ + n ∧
      (e.appendData T validate src n true (-1)).encoder.stats =
        (List.replicate n (src 0)).foldl (foldStat T) e.stats) ∧
    (n = 0 → (e.appendData T validate src n true (-1)).encoder = e) := by
  obtain ⟨henc, hres⟩ := appendData_replicating_eq T validate e src n
  refine ⟨⟨henc, hres⟩, ?_, ?_, ?_⟩
  · intro src' h0
    unfold NoneEncoder.appendData
    simp only [appendLoop_repl_congr T validate src src' h0, if_true]
  · intro hv
    have hok : ∀ i, i < n → (fun _ => src 0) i ≠ none_encoded_null_value T →
        validate ((fun _ : Nat => src 0) i) = true := by
      intro i _ hnn
      rcases hv with h | h
      · exact absurd h hnn
      · exact h
    obtain ⟨hsucc, hstats⟩ := appendData_append_ok T validate e (fun _ => src 0) n hok
    obtain ⟨hbuf, hnum⟩ := appendData_append_state T validate e (fun _ => src 0) n hok
    rw [henc, hres]
    refine ⟨hsucc, ?_, ?_, ?_⟩
    · rw [hbuf, Nat.mod_eq_of_lt hb, memBytes_replicate]
    · rw [hnum, Nat.mod_eq_of_lt hc]
    · rw [hstats, elemsFrom_const]
  · intro hn
    subst hn
    have hc' : e.num_elems_ % SIZE_T_MOD = e.num_elems_ := Nat.mod_eq_of_lt (by omega)
    simp [NoneEncoder.appendData, appendLoop, memBytes, AbstractBuffer.append, hc']

/-- Witness for C20: an 8-bit chunk holding `{1, 2, 3}`; the value 7 is replicated twice:
content `{1, 2, 3, 7, 7}`, 5 elements, statistics `(1, 7, false)`. -/
theorem appendData_replicating_witness :
    (NoneEncoder.mk 3 ⟨[1, 2, 3], ⟨.kTINYINT, 0, 0, 1⟩⟩ 1 3 false).num_elems_ + 2 < SIZE_T_MOD ∧
    2 * ElemType.int8.sizeof < SIZE_T_MOD ∧
    ((ptrOf [7, 100]) 0 = none_encoded_null_value .int8 ∨
      (fun d => decide (d < 100)) ((ptrOf [7, 100]) 0) = true) ∧
    ((∃ m, ((NoneEncoder.mk 3 ⟨[1, 2, 3], ⟨.kTINYINT, 0, 0, 1⟩⟩ 1 3 false).appendData .int8
        (fun d => decide (d < 100)) (ptrOf [7, 100]) 2 true (-1)).result = .ok m) ∧
      ((NoneEncoder.mk 3 ⟨[1, 2, 3], ⟨.kTINYINT, 0, 0, 1⟩⟩ 1 3 false).appendData .int8
        (fun d => decide (d < 100)) (ptrOf [7, 100]) 2 true (-1)).encoder.buffer_ =
        (NoneEncoder.mk 3 ⟨[1, 2, 3], ⟨.kTINYINT, 0, 0, 1⟩⟩ 1 3 false).buffer_.append
          (List.replicate 2 (memBytes .int8 (fun _ => (ptrOf [7, 100]) 0)
            ElemType.int8.sizeof)).flatten ∧
      ((NoneEncoder.mk 3 ⟨[1, 2, 3], ⟨.kTINYINT, 0, 0, 1⟩⟩ 1 3 false).appendData .int8
        (fun d => decide (d < 100)) (ptrOf [7, 100]) 2 true (-1)).encoder.num_elems_ =
        (NoneEncoder.mk 3 ⟨[1, 2, 3], ⟨.kTINYINT, 0, 0, 1⟩⟩ 1 3 false).num_elems_ + 2 ∧
      ((NoneEncoder.mk 3 ⟨[1, 2, 3], ⟨.kTINYINT, 0, 0, 1⟩⟩ 1 3 false).appendData .int8
        (fun d => decide (d < 100)) (ptrOf [7, 100]) 2 true (-1)).encoder.stats =
        (List.replicate 2 ((ptrOf [7, 100]) 0)).foldl (foldStat .int8)
          (NoneEncoder.mk 3 ⟨[1, 2, 3], ⟨.kTINYINT, 0, 0, 1⟩⟩ 1 3 false).stats) ∧
    ((NoneEncoder.mk 3 ⟨[1, 2, 3], ⟨.kTINYINT, 0, 0, 1⟩⟩ 1 3 false).appendData .int8
        (fun d => decide (d < 100)) (ptrOf [7, 100]) 2 true (-1)).encoder =
      NoneEncoder.mk 5 ⟨[1, 2, 3, 7, 7], ⟨.kTINYINT, 0, 0, 1⟩⟩ 1 7 false :=
  ⟨by decide, by decide, Or.inr rfl,
    (appendData_replicating .int8 (fun d => decide (d < 100))
      (NoneEncoder.mk 3 ⟨[1, 2, 3], ⟨.kTINYINT, 0, 0, 1⟩⟩ 1 3 false) (ptrOf [7, 100]) 2
      (by decide) (by decide)).2.2.1 (Or.inr rfl),
    by decide⟩

/-! ### When an overwrite fails -/

theorem appendLoop_ok_of_accepted (T : ElemType) (validate : Int → Bool) (e : NoneEncoder)
    (src : Nat → Int) (n : Nat) (repl : Bool) (enc : List Int)
    (hacc : ∀ i, i < n → readElem src repl i ≠ none_encoded_null_value T →
      validate (readElem src repl i) = true) :
    ∃ x, appendLoop T validate src repl 0 n (e, enc) = .ok x := by
  cases hx : appendLoop T validate src repl 0 n (e, enc) with
  | ok x => exact ⟨x, rfl⟩
  | error x =>
    obtain ⟨j, hj, _, h2, h3, _⟩ := (appendLoop_spec T validate src repl n 0 e enc).2 x hx
    simp only [Nat.zero_add] at h2 h3
    rw [hacc j hj h2] at h3
    cases h3

theorem appendData_offset_of_loop_ok (T : ElemType) (validate : Int → Bool) (e : NoneEncoder)
    (src : Nat → Int) (n : Nat) (repl : Bool) (offset : Int) (x : NoneEncoder × List Int)
    (hoff : offset ≠ -1)
    (hx : appendLoop T validate src repl 0 n
      (e, if repl then List.replicate n 0 else []) = .ok x) :
    ((repl = true ∨ offset < 0) →
      (e.appendData T validate src n repl offset).result = .error .CheckFailed) ∧
    (repl = false → 0 ≤ offset →
      ∃ m, (e.appendData T validate src n repl offset).result = .ok m) := by
  unfold NoneEncoder.appendData
  simp only [hx, if_neg hoff]
  constructor
  · rintro (h | h)
    · simp [h]
    · split_ifs <;> rfl
  · intro hrepl hoff0
    have hlt : ¬ offset < 0 := by omega
    simp [hrepl, hlt]

/-- C21: with an offset present (`offset ≠ -1`) and no element rejected by the decimal
overflow validator, `appendData` fails exactly when `replicating` is set or the offset is
negative (a `CHECK` fails); an offset together with `replicating` fails for every input;
and a non-negative offset without `replicating` succeeds. -/
theorem appendData_offset_fails_iff (T : ElemType) (validate : Int → Bool) (e : NoneEncoder)
    (src : Nat → Int) (n : Nat) (repl : Bool) (offset : Int) (hoff : offset ≠ -1) :
    ((∀ i, i < n → readElem src repl i ≠ none_encoded_null_value T →
        validate (readElem src repl i) = true) →
      (((∃ err, (e.appendData T validate src n repl offset).result = .error err) ↔
          (repl = true ∨ offset < 0)) ∧
        ((e.appendData T validate src n repl offset).result = .error .CheckFailed ↔
          (repl = true ∨ offset < 0)) ∧
        (repl = false → 0 ≤ offset →
          ∃ m, (e.appendData T validate src n repl offset).result = .ok m))) ∧
    (repl = true → ∃ err, (e.appendData T validate src n repl offset).result = .error err) := by
  constructor
  · intro hacc
    obtain ⟨x, hx⟩ := appendLoop_ok_of_accepted T validate e src n repl
      (if repl then List.replicate n 0 else []) hacc
    obtain ⟨hfail, hsucc⟩ := appendData_offset_of_loop_ok T validate e src n repl offset x hoff hx
    have hconv : (∃ err, (e.appendData T validate src n repl offset).result = .error err) →
        (repl = true ∨ offset < 0) := by
      rintro ⟨err, herr⟩
      by_contra hcon
      push_neg at hcon
      obtain ⟨m, hm⟩ := hsucc (by simpa using hcon.1) hcon.2
      rw [hm] at herr
      cases herr
    exact ⟨⟨hconv, fun h => ⟨_, hfail h⟩⟩, ⟨fun h => hconv ⟨_, h⟩, hfail⟩, hsucc⟩
  · intro hrepl
    cases hx : appendLoop T validate src repl 0 n
        (e, if repl then List.replicate n 0 else []) with
    | error x =>
      exact ⟨_, congrArg AppendResult.result
        (appendData_of_loop_error T validate e src n repl offset x hx)⟩
    | ok x =>
      exact ⟨_, (appendData_offset_of_loop_ok T validate e src n repl offset x hoff hx).1
        (Or.inl hrepl)⟩

/-- Witness for C21: on an 8-bit chunk holding `{1, 2, 3}`, an overwrite at offset 1
succeeds, the same call with `replicating` set fails, and offset `-2` fails. -/
theorem appendData_offset_fails_iff_witness :
    (1 : Int) ≠ -1 ∧
    (∃ m, ((NoneEncoder.mk 3 ⟨[1, 2, 3], ⟨.kTINYINT, 0, 0, 1⟩⟩ 1 3 false).appendData .int8
        (fun _ => true) (ptrOf [9]) 1 false 1).result = .ok m) ∧
    ((NoneEncoder.mk 3 ⟨[1, 2, 3], ⟨.kTINYINT, 0, 0, 1⟩⟩ 1 3 false).appendData .int8
        (fun _ => true) (ptrOf [9]) 1 true 1).result = .error .CheckFailed ∧
    ((NoneEncoder.mk 3 ⟨[1, 2, 3], ⟨.kTINYINT, 0, 0, 1⟩⟩ 1 3 false).appendData .int8
        (fun _ => true) (ptrOf [9]) 1 false (-2)).result = .error .CheckFailed ∧
    (true = true → ∃ err, ((NoneEncoder.mk 3 ⟨[1, 2, 3], ⟨.kTINYINT, 0, 0, 1⟩⟩ 1 3 false).appendData
        .int8 (fun _ => true) (ptrOf [9]) 1 true 1).result = .error err) :=
  ⟨by decide, ⟨_, rfl⟩, rfl, rfl,
    (appendData_offset_fails_iff .int8 (fun _ => true)
      (NoneEncoder.mk 3 ⟨[1, 2, 3], ⟨.kTINYINT, 0, 0, 1⟩⟩ 1 3 false) (ptrOf [9]) 1 true 1
      (by decide)).2⟩

/-! ### The element count after appends -/

theorem appendData_no_offset_num_elems (T : ElemType) (validate : Int → Bool)
    (e : NoneEncoder) (src : Nat → Int) (n : Nat) (repl : Bool)
    (hok : ∃ m, (e.appendData T validate src n repl (-1)).result = .ok m) :
    (e.appendData T validate src n repl (-1)).encoder.num_elems_ =
      (e.num_elems_ + n) % SIZE_T_MOD := by
  obtain ⟨m, hm⟩ := hok
  cases hx : appendLoop T validate src repl 0 n (e, if repl then List.replicate n 0 else []) with
  | error x =>
    rw [appendData_of_loop_error T validate e src n repl (-1) x hx] at hm
    cases hm
  | ok x =>
    have h2 := ((appendLoop_spec T validate src repl n 0 e _).1 x hx).2
    unfold NoneEncoder.appendData
    simp only [hx, if_true]
    rw [h2]
    rfl

theorem appendCalls_num_elems (T : ElemType) (validate : Int → Bool) :
    ∀ (calls : List ((Nat → Int) × Nat × Bool)) (e0 e : NoneEncoder),
      appendCalls T validate e0 calls = some e →
      e.num_elems_ % SIZE_T_MOD =
        (e0.num_elems_ + (calls.map (fun c => c.2.1)).sum) % SIZE_T_MOD := by
  intro calls
  induction calls with
  | nil =>
    intro e0 e h
    simp only [appendCalls, Option.some.injEq] at h
    subst h
    simp
  | cons c calls ih =>
    intro e0 e h
    obtain ⟨src, n, repl⟩ := c
    simp only [appendCalls] at h
    cases hr : (e0.appendData T validate src n repl (-1)).result with
    | error err => rw [hr] at h; cases h
    | ok m =>
      rw [hr] at h
      have hstep := appendData_no_offset_num_elems T validate e0 src n repl ⟨m, hr⟩
      rw [ih _ e h, hstep, List.map_cons, List.sum_cons, Nat.mod_add_mod, Nat.add_assoc]

theorem appendCalls_num_elems_lt (T : ElemType) (validate : Int → Bool) :
    ∀ (calls : List ((Nat → Int) × Nat × Bool)) (e0 e : NoneEncoder),
      e0.num_elems_ < SIZE_T_MOD → appendCalls T validate e0 calls = some e →
      e.num_elems_ < SIZE_T_MOD := by
  intro calls
  induction calls with
  | nil =>
    intro e0 e h0 h
    simp only [appendCalls, Option.some.injEq] at h
    subst h
    exact h0
  | cons c calls ih =>
    intro e0 e _ h
    obtain ⟨src, n, repl⟩ := c
    simp only [appendCalls] at h
    cases hr : (e0.appendData T validate src n repl (-1)).result with
    | error err => rw [hr] at h; cases h
    | ok m =>
      rw [hr] at h
      refine ih _ e ?_ h
      rw [appendData_no_offset_num_elems T validate e0 src n repl ⟨m, hr⟩]
      exact Nat.mod_lt _ (by unfold SIZE_T_MOD; positivity)

/-- C22: after a sequence of successful `appendData` calls without an offset (replicating
or not) on a freshly constructed encoder, the element count reported by `getMetadata` is
the sum of the `num_elems_to_append` arguments (the sum being a `size_t` value). -/
theorem appendCalls_element_count (T : ElemType) (validate : Int → Bool)
    (buffer : AbstractBuffer) (calls : List ((Nat → Int) × Nat × Bool)) (e : NoneEncoder)
    (hcalls : appendCalls T validate (NoneEncoder.new T buffer) calls = some e)
    (hsum : (calls.map (fun c => c.2.1)).sum < SIZE_T_MOD) :
    e.getMetadata.numElements = (calls.map (fun c => c.2.1)).sum := by
  have h := appendCalls_num_elems T validate calls (NoneEncoder.new T buffer) e hcalls
  have h0 : (NoneEncoder.new T buffer).num_elems_ = 0 := rfl
  rw [h0, Nat.zero_add, Nat.mod_eq_of_lt hsum] at h
  have hlt : e.num_elems_ < SIZE_T_MOD :=
    appendCalls_num_elems_lt T validate calls (NoneEncoder.new T buffer) e
      (by rw [h0]; unfold SIZE_T_MOD; positivity) hcalls
  show e.num_elems_ = _
  rw [← Nat.mod_eq_of_lt hlt]
  exact h

/-- Witness for C22: `{1, 2, 3}` is appended to a fresh 8-bit encoder and 7 is then
replicated twice: the element count is `3 + 2 = 5`. -/
theorem appendCalls_element_count_witness :
    appendCalls .int8 (fun _ => true) (NoneEncoder.new .int8 ⟨[], ⟨.kTINYINT, 0, 0, 1⟩⟩)
        [(ptrOf [1, 2, 3], 3, false), (ptrOf [7], 2, true)] =
      some (NoneEncoder.mk 5 ⟨[1, 2, 3, 7, 7], ⟨.kTINYINT, 0, 0, 1⟩⟩ 1 7 false) ∧
    (([(ptrOf [1, 2, 3], 3, false), (ptrOf [7], 2, true)] :
        List ((Nat → Int) × Nat × Bool)).map (fun c => c.2.1)).sum < SIZE_T_MOD ∧
    (NoneEncoder.mk 5 ⟨[1, 2, 3, 7, 7], ⟨.kTINYINT, 0, 0, 1⟩⟩ 1 7 false).getMetadata.numElements =
      (([(ptrOf [1, 2, 3], 3, false), (ptrOf [7], 2, true)] :
        List ((Nat → Int) × Nat × Bool)).map (fun c => c.2.1)).sum :=
  ⟨by decide, by decide,
    appendCalls_element_count .int8 (fun _ => true) ⟨[], ⟨.kTINYINT, 0, 0, 1⟩⟩
      [(ptrOf [1, 2, 3], 3, false), (ptrOf [7], 2, true)] _ (by decide) (by decide)⟩

/-! ### The serialised layout -/

theorem decodeT_take (T : ElemType) (bs : List Nat) :
    decodeT T (bs.take T.sizeof) = decodeT T bs := by
  simp [decodeT, List.take_take]

/-- C23: `writeMetadata` emits exactly `8 + 2 * sizeof(T) + 1` bytes: the element count in 8
bytes, then `dataMin` in `sizeof(T)` bytes, then `dataMax` in `sizeof(T)` bytes, then
`has_nulls` in one byte, and nothing else; `readMetadata` consumes the same number of
bytes in the same order. (On a stream that ends early `readMetadata` still returns: with
nothing to read the encoder keeps its members, and when the stream ends after `dataMin`
the first two members are read and the other two kept.) -/
theorem writeMetadata_layout (T : ElemType) (e : NoneEncoder) (f : List Nat) :
    e.writeMetadata T f =
      f ++ (sizeBytes e.num_elems_ ++ (memBytes T (fun _ => e.dataMin) T.sizeof ++
        (memBytes T (fun _ => e.dataMax) T.sizeof ++ [if e.has_nulls then 1 else 0]))) ∧
    (sizeBytes e.num_elems_).length = 8 ∧
    (memBytes T (fun _ => e.dataMin) T.sizeof).length = T.sizeof ∧
    (memBytes T (fun _ => e.dataMax) T.sizeof).length = T.sizeof ∧
    (e.writeMetadata T f).length = f.length + (8 + 2 * T.sizeof + 1) ∧
    (∀ s : List Nat, 8 + 2 * T.sizeof + 1 ≤ s.length →
      e.readMetadata T s =
        ({ e with num_elems_ := fromBytesLE (s.take 8)
                  dataMin := decodeT T (s.drop 8)
                  dataMax := decodeT T (s.drop (8 + T.sizeof))
                  has_nulls := decide (fromBytesLE ((s.drop (8 + 2 * T.sizeof)).take 1) ≠ 0) },
          s.drop (8 + 2 * T.sizeof + 1))) ∧
    (∀ s : List Nat, (e.readMetadata T s).2 = s.drop (8 + 2 * T.sizeof + 1)) ∧
    (e.WF T → e.readMetadata T [] = (e, [])) ∧
    (e.WF T → ∀ s : List Nat, s.length = 8 + T.sizeof →
      e.readMetadata T s =
        ({ e with num_elems_ := fromBytesLE (s.take 8), dataMin := decodeT T (s.drop 8) },
          [])) := by
  have h8 : (sizeBytes e.num_elems_).length = 8 := sizeBytes_length _
  have hmn : (memBytes T (fun _ => e.dataMin) T.sizeof).length = T.sizeof := memBytes_length _ _ _
  have hmx : (memBytes T (fun _ => e.dataMax) T.sizeof).length = T.sizeof := memBytes_length _ _ _
  have hb : ([if e.has_nulls = true then 1 else 0] : List Nat).length = 1 := rfl
  refine ⟨?_, h8, hmn, hmx, ?_, ?_, ?_, ?_, ?_⟩
  · simp [NoneEncoder.writeMetadata, fwrite]
  · simp only [NoneEncoder.writeMetadata, fwrite, List.length_append, h8, memBytes_length,
      List.length_singleton]
    omega
  · intro s hs
    unfold NoneEncoder.readMetadata
    rw [fread_of_le _ s 8 h8 (by omega)]
    simp only
    rw [fread_of_le _ (s.drop 8) T.sizeof hmn (by rw [List.length_drop]; omega)]
    simp only
    rw [fread_of_le _ ((s.drop 8).drop T.sizeof) T.sizeof hmx
      (by rw [List.length_drop, List.length_drop]; omega)]
    simp only
    rw [fread_of_le _ (((s.drop 8).drop T.sizeof).drop T.sizeof) 1 hb
      (by rw [List.length_drop, List.length_drop, List.length_drop]; omega)]
    simp only [decodeT_take, List.drop_drop]
    rw [show 8 + T.sizeof + T.sizeof = 8 + 2 * T.sizeof by omega]
  · intro s
    unfold NoneEncoder.readMetadata
    simp only [fread_snd _ _ 1 hb, fread_snd _ _ T.sizeof hmx, fread_snd _ _ T.sizeof hmn,
      fread_snd _ _ 8 h8, List.drop_drop]
    rw [show 8 + T.sizeof + T.sizeof + 1 = 8 + 2 * T.sizeof + 1 by omega]
  · rintro ⟨hn, hmin, hmax⟩
    unfold NoneEncoder.readMetadata
    simp only [fread_nil, fromBytesLE_sizeBytes _ hn, decodeT_memBytes _ _ hmin,
      decodeT_memBytes _ _ hmax, bool_byte_decode]
  · rintro ⟨_, _, hmax⟩ s hs
    have hrest : (s.drop 8).drop T.sizeof = [] :=
      List.drop_eq_nil_of_le (by rw [List.length_drop]; omega)
    unfold NoneEncoder.readMetadata
    rw [fread_of_le _ s 8 h8 (by omega)]
    simp only
    rw [fread_of_le _ (s.drop 8) T.sizeof hmn (by rw [List.length_drop]; omega)]
    simp only [hrest, fread_nil, decodeT_take, decodeT_memBytes _ _ hmax, bool_byte_decode]

/-! ### Scalar updates, copies and reads -/

/-- C24: for both scalar overloads of `updateStats` (integer argument, floating-point
argument): with `is_null = true` the call sets `has_nulls` and leaves `dataMin` and
`dataMax`; with `is_null = false` it leaves `has_nulls` and sets
`dataMin = min(dataMin, d)`, `dataMax = max(dataMax, d)` for `d` the argument cast to
`T`; the element count and the buffer stay as they are. -/
theorem updateStats_scalar_spec (T : ElemType) {D : Type} (double_to_T : D → Int)
    (e : NoneEncoder) (val : Int) (dval : D) :
    (e.updateStats T val true =
      { e with has_nulls := true }) ∧
    (e.updateStats T val false =
      { e with dataMin := min e.dataMin (static_cast T val),
               dataMax := max e.dataMax (static_cast T val) }) ∧
    (e.updateStatsDouble double_to_T dval true =
      { e with has_nulls := true }) ∧
    (e.updateStatsDouble double_to_T dval false =
      { e with dataMin := min e.dataMin (double_to_T dval),
               dataMax := max e.dataMax (double_to_T dval) }) ∧
    (∀ is_null : Bool,
      (e.updateStats T val is_null).num_elems_ = e.num_elems_ ∧
      (e.updateStats T val is_null).buffer_ = e.buffer_ ∧
      (e.updateStatsDouble double_to_T dval is_null).num_elems_ = e.num_elems_ ∧
      (e.updateStatsDouble double_to_T dval is_null).buffer_ = e.buffer_) := by
  refine ⟨rfl, rfl, rfl, rfl, ?_⟩
  intro is_null
  cases is_null <;> exact ⟨rfl, rfl, rfl, rfl⟩

/-- C25: `copyMetadata(source)` makes the element count, `dataMin`, `dataMax` and `has_nulls`
of this encoder equal to the source's, whatever they were, and leaves this encoder's
buffer as it is (the source is only read). -/
theorem copyMetadata_spec (e source : NoneEncoder) :
    (e.copyMetadata source).num_elems_ = source.num_elems_ ∧
    (e.copyMetadata source).dataMin = source.dataMin ∧
    (e.copyMetadata source).dataMax = source.dataMax ∧
    (e.copyMetadata source).has_nulls = source.has_nulls ∧
    (e.copyMetadata source).buffer_ = e.buffer_ ∧
    e.copyMetadata source = { source with buffer_ := e.buffer_ } :=
  ⟨rfl, rfl, rfl, rfl, rfl, rfl⟩

/-- C26: `getMetadata()` and `getMetadata(ti)` are reads. As calls on the encoder, neither
changes the element count, `dataMin`, `dataMax`, `has_nulls` or the buffer: the encoder
after the call is the encoder before it. Two calls in a row leave identical records,
whatever the out-parameter held. The record of `getMetadata()` holds the buffer's type and
size, the element count and the three statistics members, and the record a successful
`appendData` returns is the one a following `getMetadata()` gives. For every `ti`,
`getMetadata(ti)` carries the same `min`, `max` and `has_nulls` as `getMetadata()`, tagged
with `ti`. -/
theorem getMetadata_reads (T : ElemType) (validate : Int → Bool) (e : NoneEncoder)
    (ti : SQLTypeInfo) :
    (∀ m : ChunkMetadata, (e.getMetadataCall m).1 = e) ∧
    (e.getMetadataForCall ti).1 = e ∧
    (∀ m m' : ChunkMetadata,
      ((e.getMetadataCall m).1.getMetadataCall m').2 = (e.getMetadataCall m).2) ∧
    ((e.getMetadataForCall ti).1.getMetadataForCall ti).2 = (e.getMetadataForCall ti).2 ∧
    (∀ m : ChunkMetadata,
      (e.getMetadataCall m).2 =
        { sqlType := e.buffer_.sql_type, numBytes := e.buffer_.size,
          numElements := e.num_elems_,
          chunkStats := { min := e.dataMin, max := e.dataMax, has_nulls := e.has_nulls } }) ∧
    (∀ m : ChunkMetadata,
      (e.getMetadataForCall ti).2.chunkStats = (e.getMetadataCall m).2.chunkStats) ∧
    (e.getMetadataForCall ti).2.sqlType = ti ∧
    (∀ m : ChunkMetadata, (e.getMetadataCall m).2 = e.getMetadata) ∧
    (e.getMetadataForCall ti).2 = e.getMetadataFor ti ∧
    e.getMetadata =
      { sqlType := e.buffer_.sql_type, numBytes := e.buffer_.size, numElements := e.num_elems_,
        chunkStats := { min := e.dataMin, max := e.dataMax, has_nulls := e.has_nulls } } ∧
    (e.getMetadataFor ti).chunkStats = e.getMetadata.chunkStats ∧
    (e.getMetadataFor ti).sqlType = ti ∧
    (∀ e' : NoneEncoder, e'.stats = e.stats → e'.getMetadataFor ti = e.getMetadataFor ti) ∧
    (∀ (src : Nat → Int) (n : Nat) (repl : Bool) (offset : Int) (m : ChunkMetadata),
      (e.appendData T validate src n repl offset).result = .ok m →
      m = (e.appendData T validate src n repl offset).encoder.getMetadata) := by
  refine ⟨fun _ => rfl, rfl, fun _ _ => rfl, rfl, fun _ => rfl, fun _ => rfl, rfl,
    fun _ => rfl, rfl, rfl, rfl, rfl, ?_, ?_⟩
  · intro e' h
    have h1 : e'.dataMin = e.dataMin := congrArg Prod.fst h
    have h2 : e'.dataMax = e.dataMax := congrArg (fun t => t.2.1) h
    have h3 : e'.has_nulls = e.has_nulls := congrArg (fun t => t.2.2) h
    simp [NoneEncoder.getMetadataFor, h1, h2, h3]
  · intro src n repl offset m hm
    cases hx : appendLoop T validate src repl 0 n
        (e, if repl then List.replicate n 0 else []) with
    | error x =>
      rw [appendData_of_loop_error T validate e src n repl offset x hx] at hm
      cases hm
    | ok x =>
      unfold NoneEncoder.appendData at hm ⊢
      simp only [hx] at hm ⊢
      split_ifs at hm ⊢ <;> (cases hm; rfl)

/-- C28: the record of `getMetadata(ti)` has byte count 0 and element count 0 whatever the
encoder holds; its `min`, `max` and `has_nulls` are the encoder's; `getMetadata()` gives
the encoder's element count (and the buffer's byte count). -/
theorem getMetadataFor_counts (e : NoneEncoder) (ti : SQLTypeInfo) :
    (e.getMetadataFor ti).numBytes = 0 ∧
    (e.getMetadataFor ti).numElements = 0 ∧
    (e.getMetadataFor ti).chunkStats =
      { min := e.dataMin, max := e.dataMax, has_nulls := e.has_nulls } ∧
    e.getMetadata.numElements = e.num_elems_ ∧
    e.getMetadata.numBytes = e.buffer_.size :=
  ⟨rfl, rfl, rfl, rfl, rfl⟩

/-! ### Truncation in the integer overload of `updateStats` -/

theorem static_cast_spec (T : ElemType) (val : Int) :
    T.InRange (static_cast T val) ∧
    static_cast T val % 2 ^ T.bits = val % 2 ^ T.bits ∧
    (T.InRange val → static_cast T val = val) ∧
    (¬ T.InRange val → static_cast T val ≠ val) := by
  unfold ElemType.InRange numeric_limits_lowest numeric_limits_max static_cast
  cases T <;> simp only [ElemType.bits, ElemType.sizeof] <;> norm_num <;>
    refine ⟨by omega, by omega, by omega, by omega⟩

/-- C27: `updateStats(val, false)` folds `static_cast<T>(val)`, the `w`-bit
two's-complement truncation of `val` (the value of `T` congruent to `val` modulo `2^w`),
into `dataMin` and `dataMax`. For `val` in the range of `T` this is `val`, and
`dataMin ≤ val ≤ dataMax` afterwards; for `val` outside the range it differs from `val`
(for 8 bits and `val = 300` it is 44), and the range need not contain `val`. -/
theorem updateStats_truncates (T : ElemType) (e : NoneEncoder) (val : Int) :
    (e.updateStats T val false).dataMin = min e.dataMin (static_cast T val) ∧
    (e.updateStats T val false).dataMax = max e.dataMax (static_cast T val) ∧
    T.InRange (static_cast T val) ∧
    static_cast T val % 2 ^ T.bits = val % 2 ^ T.bits ∧
    (T.InRange val →
      static_cast T val = val ∧
      (e.updateStats T val false).dataMin ≤ val ∧ val ≤ (e.updateStats T val false).dataMax) ∧
    (¬ T.InRange val → static_cast T val ≠ val) ∧
    static_cast .int8 300 = 44 ∧
    ((NoneEncoder.new .int8 e.buffer_).updateStats .int8 300 false).dataMin = 44 ∧
    ((NoneEncoder.new .int8 e.buffer_).updateStats .int8 300 false).dataMax = 44 := by
  obtain ⟨h1, h2, h3, h4⟩ := static_cast_spec T val
  refine ⟨rfl, rfl, h1, h2, ?_, h4, by decide, rfl, rfl⟩
  intro hin
  have hcast := h3 hin
  refine ⟨hcast, ?_, ?_⟩
  · show min e.dataMin (static_cast T val) ≤ val
    rw [hcast]; exact min_le_right _ _
  · show val ≤ max e.dataMax (static_cast T val)
    rw [hcast]; exact le_max_right _ _

/-! ### `appendData` against the range overload of `updateStats` -/

theorem updateStatsLoop_inv (T : ElemType) (validate : Int → Bool) (data : Nat → Int) :
    ∀ (count i : Nat) (acc : Int × Int × Bool),
      (∀ r, updateStatsLoop T validate data i count acc = .ok r →
        ∀ j, j < count → data (i + j) ≠ none_encoded_null_value T →
          validate (data (i + j)) = true) ∧
      (∀ err, updateStatsLoop T validate data i count acc = .error err →
        err = .DecimalOverflow ∧
        ∃ j, j < count ∧ data (i + j) ≠ none_encoded_null_value T ∧
          validate (data (i + j)) = false) := by
  intro count
  induction count with
  | zero =>
    intro i acc
    constructor
    · intro r _ j hj; omega
    · intro err h; simp [updateStatsLoop] at h
  | succ count ih =>
    intro i acc
    obtain ⟨mn, mx, nulls⟩ := acc
    have hshift : ∀ j, i + 1 + j = i + (j + 1) := fun j => by omega
    simp only [updateStatsLoop]
    by_cases hnull : data i = none_encoded_null_value T
    · rw [if_neg (by simpa using hnull)]
      obtain ⟨ihok, iherr⟩ := ih (i + 1) (mn, mx, true)
      constructor
      · intro r hr j hj
        cases j with
        | zero => intro h; exact absurd hnull h
        | succ j => rw [← hshift]; exact ihok r hr j (by omega)
      · intro err herr
        obtain ⟨h1, j, hj, h2, h3⟩ := iherr err herr
        exact ⟨h1, j + 1, by omega, by rw [← hshift]; exact h2, by rw [← hshift]; exact h3⟩
    · rw [if_pos hnull]
      by_cases hval : validate (data i) = true
      · rw [if_pos hval]
        obtain ⟨ihok, iherr⟩ := ih (i + 1) (min mn (data i), max mx (data i), nulls)
        constructor
        · intro r hr j hj
          cases j with
          | zero => intro _; exact hval
          | succ j => rw [← hshift]; exact ihok r hr j (by omega)
        · intro err herr
          obtain ⟨h1, j, hj, h2, h3⟩ := iherr err herr
          exact ⟨h1, j + 1, by omega, by rw [← hshift]; exact h2, by rw [← hshift]; exact h3⟩
      · rw [if_neg hval]
        constructor
        · intro r hr; cases hr
        · intro err herr
          simp only [Except.error.injEq] at herr
          exact ⟨herr.symm, 0, by omega, hnull, by simpa using hval⟩

theorem parallel_reduce_inv (T : ElemType) (validate : Int → Bool) (data : Nat → Int)
    (init : Int × Int × Bool) :
    ∀ plan : ReducePlan,
      (∀ r, parallel_reduce (updateStatsBody T validate data) updateStatsReduce init plan = .ok r →
        ∀ b ∈ plan.blocks, ∀ i, b.range_begin ≤ i → i < b.range_end →
          data i ≠ none_encoded_null_value T → validate (data i) = true) ∧
      (∀ err,
        parallel_reduce (updateStatsBody T validate data) updateStatsReduce init plan =
          .error err →
        err = .DecimalOverflow ∧
        ∃ b ∈ plan.blocks, ∃ i, b.range_begin ≤ i ∧ i < b.range_end ∧
          data i ≠ none_encoded_null_value T ∧ validate (data i) = false) := by
  intro plan
  induction plan with
  | block b =>
    obtain ⟨hok, herr⟩ := updateStatsLoop_inv T validate data
      (b.range_end - b.range_begin) b.range_begin init
    simp only [parallel_reduce, updateStatsBody, ReducePlan.blocks, List.mem_singleton]
    constructor
    · intro r hr b' hb' i hlo hhi
      subst hb'
      have := hok r hr (i - b'.range_begin) (by omega)
      rwa [show b'.range_begin + (i - b'.range_begin) = i by omega] at this
    · intro err he
      obtain ⟨h1, j, hj, h2, h3⟩ := herr err he
      exact ⟨h1, b, rfl, b.range_begin + j, by omega, by omega, h2, h3⟩
  | join lhs rhs ihl ihr =>
    obtain ⟨hlok, hlerr⟩ := ihl
    obtain ⟨hrok, hrerr⟩ := ihr
    simp only [parallel_reduce, ReducePlan.blocks, List.mem_append]
    cases hl : parallel_reduce (updateStatsBody T validate data) updateStatsReduce init lhs with
    | error el =>
      constructor
      · intro r hr; cases hr
      · intro err he
        simp only [Except.error.injEq] at he
        subst he
        obtain ⟨h1, b, hb, i, h2⟩ := hlerr el hl
        exact ⟨h1, b, Or.inl hb, i, h2⟩
    | ok a =>
      cases hr : parallel_reduce (updateStatsBody T validate data) updateStatsReduce init rhs with
      | error er =>
        constructor
        · intro r hr'; cases hr'
        · intro err he
          simp only [Except.error.injEq] at he
          subst he
          obtain ⟨h1, b, hb, i, h2⟩ := hrerr er hr
          exact ⟨h1, b, Or.inr hb, i, h2⟩
      | ok b =>
        constructor
        · intro r _ b' hb'
          rcases hb' with h | h
          · exact hlok a hl b' h
          · exact hrok b hr b' h
        · intro err he; cases he

theorem partition_covers :
    ∀ (blocks : List blocked_range) (lo hi : Nat), IsBlockPartition blocks lo hi →
      ∀ i, lo ≤ i → i < hi → ∃ r ∈ blocks, r.range_begin ≤ i ∧ i < r.range_end := by
  intro blocks
  induction blocks with
  | nil =>
    intro lo hi h i h1 h2
    simp only [IsBlockPartition] at h
    omega
  | cons r rs ih =>
    intro lo hi h i h1 h2
    simp only [IsBlockPartition] at h
    obtain ⟨hb, _, hrest⟩ := h
    by_cases hi' : i < r.range_end
    · exact ⟨r, List.mem_cons_self _ _, by omega, hi'⟩
    · obtain ⟨r', hr', h3⟩ := ih r.range_end hi hrest i (by omega) h2
      exact ⟨r', List.mem_cons_of_mem _ hr', h3⟩

theorem updateStatsRange_partition (T : ElemType) (validate : Int → Bool) (e : NoneEncoder)
    (dst : Nat → Int) (n : Nat) (plan : ReducePlan) (blocks : List blocked_range)
    (hperm : plan.blocks.Perm blocks) (hpart : IsBlockPartition blocks 0 n) :
    ((∀ i, i < n → dst i ≠ none_encoded_null_value T → validate (dst i) = true) →
      (e.updateStatsRange T validate dst plan).2 = .ok () ∧
      (e.updateStatsRange T validate dst plan).1 =
        e.withStats ((elemsFrom dst 0 n).foldl (foldStat T) e.stats)) ∧
    ((∃ i, i < n ∧ dst i ≠ none_encoded_null_value T ∧ validate (dst i) = false) →
      (e.updateStatsRange T validate dst plan).2 = .error .DecimalOverflow ∧
      (e.updateStatsRange T validate dst plan).1 = e) := by
  obtain ⟨_, hin, hflat⟩ := blockElems_partition dst blocks 0 n hpart
  obtain ⟨hinvok, hinverr⟩ := parallel_reduce_inv T validate dst
    (e.dataMin, e.dataMax, e.has_nulls) plan
  constructor
  · intro hacc
    have hplan := parallel_reduce_ok T validate dst (e.dataMin, e.dataMax, e.has_nulls) plan (by
      intro r hr i _ hi
      have := (hin r (hperm.mem_iff.mp hr)).2
      exact hacc i (by omega))
    haveI : RightCommutative (foldStat T) := ⟨foldStat_right_comm T⟩
    have hpermElems := List.Perm.flatMap_right
      (fun r : blocked_range => elemsFrom dst r.range_begin (r.range_end - r.range_begin)) hperm
    rw [hpermElems.foldl_eq (e.dataMin, e.dataMax, e.has_nulls), hflat, Nat.sub_zero] at hplan
    unfold NoneEncoder.updateStatsRange
    rw [hplan]
    exact ⟨rfl, rfl⟩
  · rintro ⟨i, hi, hnn, hrej⟩
    cases hres : parallel_reduce (updateStatsBody T validate dst) updateStatsReduce
        (e.dataMin, e.dataMax, e.has_nulls) plan with
    | ok r =>
      obtain ⟨b, hb, hlo, hhi⟩ := partition_covers blocks 0 n hpart i (Nat.zero_le _) hi
      have := hinvok r hres b (hperm.mem_iff.mpr hb) i hlo hhi hnn
      rw [this] at hrej
      cases hrej
    | error err =>
      obtain ⟨herr, _⟩ := hinverr err hres
      subst herr
      unfold NoneEncoder.updateStatsRange
      rw [hres]
      exact ⟨rfl, rfl⟩

theorem appendData_overflow_iff_rejected (T : ElemType) (validate : Int → Bool)
    (e : NoneEncoder) (src : Nat → Int) (n : Nat) :
    (e.appendData T validate src n false (-1)).result = .error .DecimalOverflow ↔
      ∃ i, i < n ∧ src i ≠ none_encoded_null_value T ∧ validate (src i) = false := by
  constructor
  · intro h
    obtain ⟨x, hx, _⟩ := appendData_overflow_loop T validate e src n false (-1) h
    obtain ⟨j, hj, _, h2, h3, _⟩ := (appendLoop_spec T validate src false n 0 e _).2 x hx
    exact ⟨j, hj, by simpa [readElem] using h2, by simpa [readElem] using h3⟩
  · rintro ⟨i, hi, hnull, hrej⟩
    cases hx : appendLoop T validate src false 0 n
        (e, if false then List.replicate n 0 else []) with
    | error x => rw [appendData_of_loop_error T validate e src n false (-1) x hx]
    | ok x =>
      have := ((appendLoop_spec T validate src false n 0 e _).1 x hx).1 i hi
      simp only [readElem, Nat.zero_add, Bool.false_eq_true, if_false] at this
      rw [this hnull] at hrej
      cases hrej

/-- Counterexample to C29: from the statistics `(10, 10, false)`, elements `{5, 100}` and a
validator accepting `|d| < 100`: both paths fail with overflow, but `appendData` leaves
`(5, 10, false)` and the range overload of `updateStats` leaves `(10, 10, false)`. -/
theorem appendData_updateStats_differ :
    ((NoneEncoder.mk 1 ⟨[10, 0, 0, 0], ⟨.kDECIMAL, 2, 0, 4⟩⟩ 10 10 false).appendData
        .int32 (fun d => decide (-100 < d ∧ d < 100)) (ptrOf [5, 100]) 2 false (-1)).result
      = .error .DecimalOverflow ∧
    ((NoneEncoder.mk 1 ⟨[10, 0, 0, 0], ⟨.kDECIMAL, 2, 0, 4⟩⟩ 10 10 false).updateStatsRange
        .int32 (fun d => decide (-100 < d ∧ d < 100)) (ptrOf [5, 100]) (.block ⟨0, 2⟩)).2
      = .error .DecimalOverflow ∧
    ((NoneEncoder.mk 1 ⟨[10, 0, 0, 0], ⟨.kDECIMAL, 2, 0, 4⟩⟩ 10 10 false).appendData
        .int32 (fun d => decide (-100 < d ∧ d < 100)) (ptrOf [5, 100]) 2 false (-1)).encoder.stats
      = (5, 10, false) ∧
    ((NoneEncoder.mk 1 ⟨[10, 0, 0, 0], ⟨.kDECIMAL, 2, 0, 4⟩⟩ 10 10 false).updateStatsRange
        .int32 (fun d => decide (-100 < d ∧ d < 100)) (ptrOf [5, 100]) (.block ⟨0, 2⟩)).1.stats
      = (10, 10, false) ∧
    ((NoneEncoder.mk 1 ⟨[10, 0, 0, 0], ⟨.kDECIMAL, 2, 0, 4⟩⟩ 10 10 false).appendData
        .int32 (fun d => decide (-100 < d ∧ d < 100)) (ptrOf [5, 100]) 2 false (-1)).encoder.stats
      ≠ ((NoneEncoder.mk 1 ⟨[10, 0, 0, 0], ⟨.kDECIMAL, 2, 0, 4⟩⟩ 10 10 false).updateStatsRange
        .int32 (fun d => decide (-100 < d ∧ d < 100)) (ptrOf [5, 100]) (.block ⟨0, 2⟩)).1.stats :=
  ⟨rfl, rfl, by decide, by decide, by decide⟩

/-- C29 (amended): for every starting state and every array of `n` elements, a
non-replicating `appendData` without offset fails with decimal overflow exactly when the
range overload `updateStats(dst, n)` over the same elements does. When no element is
rejected both succeed and leave the same `(dataMin, dataMax, has_nulls)`, and they differ
only in that `appendData` also grows the element count and the buffer. When they fail,
`updateStats` leaves the encoder as it was, while `appendData` has folded in the elements
before the first rejected one. -/
theorem appendData_updateStats_agree (T : ElemType) (validate : Int → Bool) (e : NoneEncoder)
    (src : Nat → Int) (n : Nat) (plan : ReducePlan) (blocks : List blocked_range)
    (hperm : plan.blocks.Perm blocks) (hpart : IsBlockPartition blocks 0 n) :
    ((e.appendData T validate src n false (-1)).result = .error .DecimalOverflow ↔
      (e.updateStatsRange T validate src plan).2 = .error .DecimalOverflow) ∧
    ((∀ i, i < n → src i ≠ none_encoded_null_value T → validate (src i) = true) →
      (∃ m, (e.appendData T validate src n false (-1)).result = .ok m) ∧
      (e.updateStatsRange T validate src plan).2 = .ok () ∧
      (e.appendData T validate src n false (-1)).encoder.stats =
        (e.updateStatsRange T validate src plan).1.stats ∧
      (e.appendData T validate src n false (-1)).encoder.num_elems_ =
        (e.num_elems_ + n) % SIZE_T_MOD ∧
      (e.appendData T validate src n false (-1)).encoder.buffer_ =
        e.buffer_.append (memBytes T src ((n * T.sizeof) % SIZE_T_MOD)) ∧
      (e.updateStatsRange T validate src plan).1.num_elems_ = e.num_elems_ ∧
      (e.updateStatsRange T validate src plan).1.buffer_ = e.buffer_) ∧
    ((e.updateStatsRange T validate src plan).2 = .error .DecimalOverflow →
      (e.updateStatsRange T validate src plan).1 = e ∧
      ∃ j, j < n ∧ src j ≠ none_encoded_null_value T ∧ validate (src j) = false ∧
        (e.appendData T validate src n false (-1)).encoder.stats =
          (elemsFrom src 0 j).foldl (foldStat T) e.stats) := by
  obtain ⟨hrok, hrerr⟩ := updateStatsRange_partition T validate e src n plan blocks hperm hpart
  have hiff := appendData_overflow_iff_rejected T validate e src n
  have hdich : (∀ i, i < n → src i ≠ none_encoded_null_value T → validate (src i) = true) ∨
      (∃ i, i < n ∧ src i ≠ none_encoded_null_value T ∧ validate (src i) = false) := by
    by_cases h : ∃ i, i < n ∧ src i ≠ none_encoded_null_value T ∧ validate (src i) = false
    · exact Or.inr h
    · left
      intro i hi hnn
      by_contra hv
      exact h ⟨i, hi, hnn, by simpa using hv⟩
  refine ⟨?_, ?_, ?_⟩
  · constructor
    · intro h
      exact (hrerr (hiff.mp h)).1
    · intro h
      rcases hdich with hacc | hrej
      · rw [(hrok hacc).1] at h
        cases h
      · exact hiff.mpr hrej
  · intro hacc
    obtain ⟨hsucc, hstats⟩ := appendData_append_ok T validate e src n hacc
    obtain ⟨hbuf, hnum⟩ := appendData_append_state T validate e src n hacc
    obtain ⟨h1, h2⟩ := hrok hacc
    refine ⟨hsucc, h1, ?_, hnum, hbuf, ?_, ?_⟩
    · rw [hstats, h2, stats_withStats]
    · rw [h2]; rfl
    · rw [h2]; rfl
  · intro h
    rcases hdich with hacc | hrej
    · rw [(hrok hacc).1] at h
      cases h
    · refine ⟨(hrerr hrej).2, ?_⟩
      obtain ⟨x, hx, henc⟩ := appendData_overflow_loop T validate e src n false (-1)
        (hiff.mpr hrej)
      obtain ⟨j, hj, _, h2, h3, h4⟩ := (appendLoop_spec T validate src false n 0 e _).2 x hx
      refine ⟨j, hj, by simpa [readElem] using h2, by simpa [readElem] using h3, ?_⟩
      rw [henc, h4, stats_withStats]
      rfl

/-- Witness for C29 (amended): a fresh 32-bit encoder and the elements `{5, -3, 8, null, 2}`,
the range split into `[0,2)` and `[2,5)`: both paths give `(-3, 8, true)`. -/
theorem appendData_updateStats_agree_witness :
    (ReducePlan.join (.block ⟨2, 5⟩) (.block ⟨0, 2⟩)).blocks.Perm [⟨0, 2⟩, ⟨2, 5⟩] ∧
    IsBlockPartition [⟨0, 2⟩, ⟨2, 5⟩] 0 5 ∧
    ((NoneEncoder.new .int32 ⟨[], ⟨.kINT, 0, 0, 4⟩⟩).appendData .int32 (fun _ => true)
        (ptrOf [5, -3, 8, none_encoded_null_value .int32, 2]) 5 false (-1)).encoder.stats =
      (-3, 8, true) ∧
    ((NoneEncoder.new .int32 ⟨[], ⟨.kINT, 0, 0, 4⟩⟩).updateStatsRange .int32 (fun _ => true)
        (ptrOf [5, -3, 8, none_encoded_null_value .int32, 2])
        (ReducePlan.join (.block ⟨2, 5⟩) (.block ⟨0, 2⟩))).1.stats = (-3, 8, true) ∧
    (((NoneEncoder.new .int32 ⟨[], ⟨.kINT, 0, 0, 4⟩⟩).appendData .int32 (fun _ => true)
        (ptrOf [5, -3, 8, none_encoded_null_value .int32, 2]) 5 false (-1)).result =
        .error .DecimalOverflow ↔
      ((NoneEncoder.new .int32 ⟨[], ⟨.kINT, 0, 0, 4⟩⟩).updateStatsRange .int32 (fun _ => true)
        (ptrOf [5, -3, 8, none_encoded_null_value .int32, 2])
        (ReducePlan.join (.block ⟨2, 5⟩) (.block ⟨0, 2⟩))).2 = .error .DecimalOverflow) :=
  ⟨by decide, by decide, by decide, by decide,
    (appendData_updateStats_agree .int32 (fun _ => true)
      (NoneEncoder.new .int32 ⟨[], ⟨.kINT, 0, 0, 4⟩⟩)
      (ptrOf [5, -3, 8, none_encoded_null_value .int32, 2]) 5
      (ReducePlan.join (.block ⟨2, 5⟩) (.block ⟨0, 2⟩)) [⟨0, 2⟩, ⟨2, 5⟩]
      (by decide) (by decide)).1⟩

/-! ### The null sentinel and the constructor's placeholders -/

theorem lowest_lt_max (T : ElemType) : numeric_limits_lowest T < numeric_limits_max T := by
  cases T <;> decide

theorem appendData_stats_prefix_acc (T : ElemType) (validate : Int → Bool) (e : NoneEncoder)
    (src : Nat → Int) (n : Nat) (repl : Bool) (offset : Int) :
    ∃ j, j ≤ n ∧
      (e.appendData T validate src n repl offset).encoder.stats =
        (elemsFrom (readElem src repl) 0 j).foldl (foldStat T) e.stats ∧
      (∀ k, k < j → readElem src repl k ≠ none_encoded_null_value T →
        validate (readElem src repl k) = true) ∧
      (∀ i, i < n →
        (∀ k, k ≤ i → readElem src repl k ≠ none_encoded_null_value T →
          validate (readElem src repl k) = true) → i < j) := by
  cases hx : appendLoop T validate src repl 0 n (e, if repl then List.replicate n 0 else []) with
  | error x =>
    obtain ⟨j, hj, h1, h2, h3, h4⟩ := (appendLoop_spec T validate src repl n 0 e _).2 x hx
    simp only [Nat.zero_add] at h1 h2 h3
    refine ⟨j, by omega, ?_, h1, ?_⟩
    · rw [appendData_of_loop_error T validate e src n repl offset x hx]
      show x.1.stats = _
      rw [h4, stats_withStats]
      rfl
    · intro i _ hacc
      by_contra hlt
      have := hacc j (by omega) h2
      rw [this] at h3
      cases h3
  | ok x =>
    obtain ⟨h1, h2⟩ := (appendLoop_spec T validate src repl n 0 e _).1 x hx
    simp only [Nat.zero_add] at h1
    refine ⟨n, le_refl n, ?_, h1, fun i hi _ => hi⟩
    rw [appendData_stats_of_loop_ok T validate e src n repl offset x hx, h2, stats_withStats]
    rfl

theorem foldl_foldStat_all_null (T : ElemType) (l : List Int) (s : Int × Int × Bool)
    (h : ∀ v ∈ l, v = none_encoded_null_value T) :
    (l.foldl (foldStat T) s).1 = s.1 ∧ (l.foldl (foldStat T) s).2.1 = s.2.1 := by
  obtain ⟨⟨_, _, a3⟩, ⟨_, _, b3⟩, _⟩ := foldl_foldStat_spec T l s
  constructor
  · rcases a3 with h1 | ⟨h1, h2⟩
    · exact h1
    · exact absurd (h _ h1) h2
  · rcases b3 with h1 | ⟨h1, h2⟩
    · exact h1
    · exact absurd (h _ h1) h2

theorem foldl_foldStat_min_gt (T : ElemType) (l : List Int) (s : Int × Int × Bool)
    (hs : numeric_limits_lowest T < s.1) (hin : ∀ v ∈ l, T.InRange v) :
    numeric_limits_lowest T < (l.foldl (foldStat T) s).1 := by
  obtain ⟨⟨_, _, a3⟩, _, _⟩ := foldl_foldStat_spec T l s
  rcases a3 with h1 | ⟨h1, h2⟩
  · rw [h1]; exact hs
  · have hge := (hin _ h1).1
    have hne : (l.foldl (foldStat T) s).1 ≠ numeric_limits_lowest T := h2
    omega

theorem foldl_foldStat_max_gt (T : ElemType) (l : List Int) (s : Int × Int × Bool)
    (v : Int) (hv : v ∈ l) (hnn : v ≠ none_encoded_null_value T) (hin : T.InRange v) :
    numeric_limits_lowest T < (l.foldl (foldStat T) s).2.1 := by
  obtain ⟨_, ⟨_, b2, _⟩, _⟩ := foldl_foldStat_spec T l s
  have h1 := b2 v hv hnn
  have h2 := hin.1
  have hne : v ≠ numeric_limits_lowest T := hnn
  omega

theorem mem_elemsFrom_iff (data : Nat → Int) (lo count : Nat) (v : Int) :
    v ∈ elemsFrom data lo count ↔ ∃ i, lo ≤ i ∧ i < lo + count ∧ data i = v := by
  unfold elemsFrom
  constructor
  · intro h
    obtain ⟨i, hi, hv⟩ := List.mem_map.mp h
    obtain ⟨h1, h2⟩ := List.mem_range'_1.mp hi
    exact ⟨i, h1, h2, hv⟩
  · rintro ⟨i, h1, h2, hv⟩
    exact List.mem_map.mpr ⟨i, List.mem_range'_1.mpr ⟨h1, h2⟩, hv⟩

theorem stats_fields (e : NoneEncoder) (s : Int × Int × Bool) (h : e.stats = s) :
    e.dataMin = s.1 ∧ e.dataMax = s.2.1 :=
  ⟨congrArg Prod.fst h, congrArg (fun t => t.2.1) h⟩

theorem reachedByData_inv (T : ElemType) (validate : Int → Bool) (e : NoneEncoder) (f : Bool)
    (h : ReachedByData T validate e f) :
    numeric_limits_lowest T < e.dataMin ∧
    (f = false → e.dataMin = numeric_limits_max T ∧ e.dataMax = numeric_limits_lowest T) ∧
    (f = true → numeric_limits_lowest T < e.dataMax) := by
  induction h with
  | fresh buffer =>
    refine ⟨lowest_lt_max T, fun _ => ⟨rfl, rfl⟩, fun hf => by cases hf⟩
  | append e f src n repl offset _ hnulls ih =>
    obtain ⟨j, hjn, hstats, hacc, _⟩ := appendData_stats_prefix_acc T validate e src n repl offset
    have hall : ∀ v ∈ elemsFrom (readElem src repl) 0 j, v = none_encoded_null_value T := by
      intro v hv
      obtain ⟨i, _, hi, hvi⟩ := (mem_elemsFrom_iff _ _ _ _).mp hv
      rw [← hvi]
      exact hnulls i (by omega) (fun k hk => hacc k (by omega))
    obtain ⟨h1, h2⟩ := foldl_foldStat_all_null T _ e.stats hall
    obtain ⟨hmin, hmax⟩ := stats_fields _ _ hstats
    rw [hmin, hmax, h1, h2]
    exact ih
  | append_folded e f src n repl offset i _ hrange hi hacc hnn ih =>
    obtain ⟨j, hjn, hstats, _, hfold⟩ := appendData_stats_prefix_acc T validate e src n repl offset
    have hij := hfold i hi hacc
    have hin : ∀ v ∈ elemsFrom (readElem src repl) 0 j, T.InRange v := by
      intro v hv
      obtain ⟨k, _, hk, hvk⟩ := (mem_elemsFrom_iff _ _ _ _).mp hv
      rw [← hvk]
      exact hrange k (by omega)
    obtain ⟨hmin, hmax⟩ := stats_fields _ _ hstats
    rw [hmin, hmax]
    refine ⟨foldl_foldStat_min_gt T _ _ ih.1 hin, fun hf => (by cases hf), fun _ => ?_⟩
    exact foldl_foldStat_max_gt T _ _ (readElem src repl i)
      (mem_elemsFrom (readElem src repl) 0 j i (Nat.zero_le _) (by omega)) hnn (hrange i hi)
  | updateStatsRange e f dst plan _ hnulls ih =>
    rcases updateStatsRange_cases T validate e dst plan with ⟨hok, h1⟩ | ⟨_, h1⟩
    · have hall : ∀ v ∈ plan.blocks.flatMap
          (fun b => elemsFrom dst b.range_begin (b.range_end - b.range_begin)),
          v = none_encoded_null_value T := by
        intro v hv
        obtain ⟨b, hb, hvb⟩ := List.mem_flatMap.mp hv
        obtain ⟨i, hlo, hhi, hvi⟩ := (mem_elemsFrom_iff _ _ _ _).mp hvb
        rw [← hvi]
        exact hnulls hok b hb i hlo (by omega)
      obtain ⟨h2, h3⟩ := foldl_foldStat_all_null T _ e.stats hall
      obtain ⟨hmin, hmax⟩ := stats_fields _ _
        (show (e.updateStatsRange T validate dst plan).1.stats = _ by
          rw [h1, stats_withStats])
      rw [hmin, hmax, h2, h3]
      exact ih
    · rw [h1]; exact ih
  | updateStatsRange_folded e f dst plan r i _ hrange hok hr hlo hhi hnn ih =>
    rcases updateStatsRange_cases T validate e dst plan with ⟨_, h1⟩ | ⟨⟨err, herr⟩, _⟩
    · have hin : ∀ v ∈ plan.blocks.flatMap
          (fun b => elemsFrom dst b.range_begin (b.range_end - b.range_begin)),
          T.InRange v := by
        intro v hv
        obtain ⟨b, hb, hvb⟩ := List.mem_flatMap.mp hv
        obtain ⟨k, hlo', hhi', hvk⟩ := (mem_elemsFrom_iff _ _ _ _).mp hvb
        rw [← hvk]
        exact hrange b hb k hlo' (by omega)
      obtain ⟨hmin, hmax⟩ := stats_fields _ _
        (show (e.updateStatsRange T validate dst plan).1.stats = _ by
          rw [h1, stats_withStats])
      rw [hmin, hmax]
      refine ⟨foldl_foldStat_min_gt T _ _ ih.1 hin, fun hf => (by cases hf), fun _ => ?_⟩
      exact foldl_foldStat_max_gt T _ _ (dst i)
        (List.mem_flatMap.mpr ⟨r, hr, mem_elemsFrom dst r.range_begin _ i hlo (by omega)⟩)
        hnn (hrange r hr i hlo hhi)
    · rw [herr] at hok
      cases hok

/-- C30: the null sentinel of an integer type `T` is its minimum value, `lowest(T)`. In
every state reached from a freshly constructed encoder by `appendData` and range
`updateStats` calls, `dataMin` is not the null sentinel, and `dataMax` is the null sentinel
(the constructor's placeholder) exactly when no non-null value has been folded in yet; in
that case `dataMin` is still the placeholder `max(T)`. -/
theorem sentinel_placeholders (T : ElemType) (validate : Int → Bool) (e : NoneEncoder)
    (f : Bool) (h : ReachedByData T validate e f) :
    none_encoded_null_value T = numeric_limits_lowest T ∧
    e.dataMin ≠ none_encoded_null_value T ∧
    (e.dataMax = none_encoded_null_value T ↔ f = false) ∧
    (f = false → e.dataMin = numeric_limits_max T) := by
  obtain ⟨h1, h2, h3⟩ := reachedByData_inv T validate e f h
  have hnull : none_encoded_null_value T = numeric_limits_lowest T := rfl
  refine ⟨hnull, ?_, ?_, fun hf => (h2 hf).1⟩
  · rw [hnull]; omega
  · rw [hnull]
    constructor
    · intro hmax
      cases f with
      | false => rfl
      | true => have := h3 rfl; omega
    · intro hf; exact (h2 hf).2

/-- Witness for C30: a fresh 32-bit encoder after appending `{null, null}` (nothing but
nulls folded: `dataMax` is still the sentinel) and then `{null, 5}`. -/
theorem sentinel_placeholders_witness :
    ReachedByData .int32 (fun _ => true)
      (((NoneEncoder.new .int32 ⟨[], ⟨.kINT, 0, 0, 4⟩⟩).appendData .int32 (fun _ => true)
        (ptrOf [none_encoded_null_value .int32, none_encoded_null_value .int32]) 2 false
        (-1)).encoder.appendData .int32 (fun _ => true)
        (ptrOf [none_encoded_null_value .int32, 5]) 2 false (-1)).encoder true ∧
    (none_encoded_null_value .int32 = numeric_limits_lowest .int32 ∧
      (((NoneEncoder.new .int32 ⟨[], ⟨.kINT, 0, 0, 4⟩⟩).appendData .int32 (fun _ => true)
        (ptrOf [none_encoded_null_value .int32, none_encoded_null_value .int32]) 2 false
        (-1)).encoder.appendData .int32 (fun _ => true)
        (ptrOf [none_encoded_null_value .int32, 5]) 2 false (-1)).encoder.dataMin ≠
        none_encoded_null_value .int32 ∧
      ((((NoneEncoder.new .int32 ⟨[], ⟨.kINT, 0, 0, 4⟩⟩).appendData .int32 (fun _ => true)
        (ptrOf [none_encoded_null_value .int32, none_encoded_null_value .int32]) 2 false
        (-1)).encoder.appendData .int32 (fun _ => true)
        (ptrOf [none_encoded_null_value .int32, 5]) 2 false (-1)).encoder.dataMax =
        none_encoded_null_value .int32 ↔ true = false) ∧
      (true = false →
        (((NoneEncoder.new .int32 ⟨[], ⟨.kINT, 0, 0, 4⟩⟩).appendData .int32 (fun _ => true)
        (ptrOf [none_encoded_null_value .int32, none_encoded_null_value .int32]) 2 false
        (-1)).encoder.appendData .int32 (fun _ => true)
        (ptrOf [none_encoded_null_value .int32, 5]) 2 false (-1)).encoder.dataMin =
        numeric_limits_max .int32)) ∧
    ((NoneEncoder.new .int32 ⟨[], ⟨.kINT, 0, 0, 4⟩⟩).appendData .int32 (fun _ => true)
        (ptrOf [none_encoded_null_value .int32, none_encoded_null_value .int32]) 2 false
        (-1)).encoder.stats = (numeric_limits_max .int32, none_encoded_null_value .int32, true) :=
  ⟨ReachedByData.append_folded _ false _ _ _ _ 1
      (ReachedByData.append _ false _ _ _ _ (ReachedByData.fresh _) (by decide))
      (by decide) (by decide) (fun _ _ _ => rfl) (by decide),
    sentinel_placeholders .int32 (fun _ => true) _ true
      (ReachedByData.append_folded _ false _ _ _ _ 1
        (ReachedByData.append _ false _ _ _ _ (ReachedByData.fresh _) (by decide))
        (by decide) (by decide) (fun _ _ _ => rfl) (by decide)),
    by decide⟩

/-! ### Monotonicity of the integer mapping rule -/

theorem int_annotation_supported_iff (d2i : SQLTypeInfo → SQLTypes) (col : ColumnDescriptor)
    (phys : parquet.PhysicalType) (b : Int) (sg : Bool) :
    AllowedParquetMetadataTypeMappings.isColumnMappingSupported d2i col ⟨phys, .INT b sg⟩ = true ↔
      col.columnType.is_integer = true ∧
      (if sg = true then Int.tdiv b 8 ≤ col.columnType.get_size
       else Int.tdiv b 8 < col.columnType.get_size) := by
  cases sg <;>
    simp [AllowedParquetMetadataTypeMappings.isColumnMappingSupported,
      AllowedParquetMetadataTypeMappings.validateIntegralMapping,
      AllowedParquetMetadataTypeMappings.validateDecimalMapping,
      parquet.LogicalType.is_none]

open AllowedParquetMetadataTypeMappings in
/-- C31: the integer mapping rule is monotone: an integer annotation that is supported for
a column of byte width `w` (an integer column, then) is supported for every integer
column of byte width `w' ≥ w`; and for every bit width and every column, if the unsigned annotation is
supported then so is the signed annotation of the same width. -/
theorem isColumnMappingSupported_int_monotone (d2i : SQLTypeInfo → SQLTypes)
    (col col' : ColumnDescriptor) (phys phys' : parquet.PhysicalType) (b : Int) (sg : Bool)
    (hint' : col'.columnType.is_integer = true)
    (hw : col.columnType.get_size ≤ col'.columnType.get_size) :
    (isColumnMappingSupported d2i col ⟨phys, .INT b sg⟩ = true →
      isColumnMappingSupported d2i col' ⟨phys', .INT b sg⟩ = true) ∧
    (∀ (c : ColumnDescriptor) (p : parquet.PhysicalType) (bits : Int),
      isColumnMappingSupported d2i c ⟨p, .INT bits false⟩ = true →
      isColumnMappingSupported d2i c ⟨p, .INT bits true⟩ = true) := by
  constructor
  · intro h
    obtain ⟨_, hrule⟩ := (int_annotation_supported_iff d2i col phys b sg).mp h
    refine (int_annotation_supported_iff d2i col' phys' b sg).mpr ⟨hint', ?_⟩
    cases sg
    · simp only [Bool.false_eq_true, if_false] at hrule ⊢
      omega
    · simp only [if_true] at hrule ⊢
      omega
  · intro c p bits h
    obtain ⟨hc, hrule⟩ := (int_annotation_supported_iff d2i c p bits false).mp h
    refine (int_annotation_supported_iff d2i c p bits true).mpr ⟨hc, ?_⟩
    simp only [Bool.false_eq_true, if_false] at hrule
    simp only [if_true]
    omega

open AllowedParquetMetadataTypeMappings in
/-- Witness for C31: a signed 16-bit annotation is supported for a 2-byte column and hence
for a 4-byte one; an unsigned 16-bit annotation is supported for the 4-byte column, and so
is the signed one. -/
theorem isColumnMappingSupported_int_monotone_witness :
    (ColumnDescriptor.mk ⟨.kINT, 0, 0, 4⟩).columnType.is_integer = true ∧
    (ColumnDescriptor.mk ⟨.kSMALLINT, 0, 0, 2⟩).columnType.get_size ≤
      (ColumnDescriptor.mk ⟨.kINT, 0, 0, 4⟩).columnType.get_size ∧
    isColumnMappingSupported decimal_to_int_type ⟨⟨.kSMALLINT, 0, 0, 2⟩⟩ ⟨.INT32, .INT 16 true⟩ = true ∧
    (isColumnMappingSupported decimal_to_int_type ⟨⟨.kSMALLINT, 0, 0, 2⟩⟩ ⟨.INT32, .INT 16 true⟩ = true →
      isColumnMappingSupported decimal_to_int_type ⟨⟨.kINT, 0, 0, 4⟩⟩ ⟨.INT32, .INT 16 true⟩ = true) ∧
    isColumnMappingSupported decimal_to_int_type ⟨⟨.kINT, 0, 0, 4⟩⟩ ⟨.INT32, .INT 16 false⟩ = true ∧
    isColumnMappingSupported decimal_to_int_type ⟨⟨.kSMALLINT, 0, 0, 2⟩⟩ ⟨.INT32, .INT 16 false⟩ = false :=
  ⟨by decide, by decide, by decide,
    (isColumnMappingSupported_int_monotone decimal_to_int_type ⟨⟨.kSMALLINT, 0, 0, 2⟩⟩
      ⟨⟨.kINT, 0, 0, 4⟩⟩ .INT32 .INT32 16 true (by decide) (by decide)).1,
    by decide, by decide⟩

/-! ### The constructor's statistics are the identity of merging -/

/-- C32: for an encoder state `e` over an integer type `T`, `reduceStats` with a freshly
constructed encoder leaves `e` as it is, `reduceStats` of a fresh encoder with `e` gives it
exactly the `dataMin`, `dataMax` and `has_nulls` of `e`, and the range overload of
`updateStats` over the empty range (`numElements = 0`) succeeds and changes nothing. -/
theorem fresh_stats_identity (T : ElemType) (validate : Int → Bool) (e : NoneEncoder)
    (buffer : AbstractBuffer) (dst : Nat → Int) (plan : ReducePlan)
    (blocks : List blocked_range)
    (hwf : e.WF T) (hperm : plan.blocks.Perm blocks) (hpart : IsBlockPartition blocks 0 0) :
    (NoneEncoder.new T buffer).stats = (numeric_limits_max T, numeric_limits_lowest T, false) ∧
    e.reduceStats (NoneEncoder.new T buffer) = e ∧
    ((NoneEncoder.new T buffer).reduceStats e).stats = e.stats ∧
    e.updateStatsRange T validate dst plan = (e, .ok ()) := by
  obtain ⟨_, ⟨_, hminle⟩, ⟨hmaxge, _⟩⟩ := hwf
  refine ⟨rfl, ?_, ?_, ?_⟩
  · obtain ⟨c, buf, mn, mx, nulls⟩ := e
    simp only [NoneEncoder.reduceStats, NoneEncoder.new, Bool.false_eq_true, if_false]
    simp only at hminle hmaxge
    rw [min_eq_left hminle, max_eq_left hmaxge]
  · obtain ⟨c, buf, mn, mx, nulls⟩ := e
    simp only at hminle hmaxge
    cases nulls <;>
      simp [NoneEncoder.reduceStats, NoneEncoder.new, NoneEncoder.stats, min_eq_right hminle,
        max_eq_right hmaxge]
  · obtain ⟨h1, h2⟩ := (updateStatsRange_partition T validate e dst 0 plan blocks hperm hpart).1
      (fun i hi => by omega)
    have h3 : (e.updateStatsRange T validate dst plan).1 = e := by
      rw [h2]
      exact withStats_stats e
    exact Prod.ext h3 h1

/-- Witness for C32: an 8-bit encoder with 3 elements and statistics `(1, 3, true)`, and the
empty range as one empty block. -/
theorem fresh_stats_identity_witness :
    (NoneEncoder.mk 3 ⟨[1, 2, 3], ⟨.kTINYINT, 0, 0, 1⟩⟩ 1 3 true).WF .int8 ∧
    (ReducePlan.block ⟨0, 0⟩).blocks.Perm [⟨0, 0⟩] ∧
    IsBlockPartition [⟨0, 0⟩] 0 0 ∧
    ((NoneEncoder.new .int8 ⟨[], ⟨.kTINYINT, 0, 0, 1⟩⟩).stats =
        (numeric_limits_max .int8, numeric_limits_lowest .int8, false) ∧
      (NoneEncoder.mk 3 ⟨[1, 2, 3], ⟨.kTINYINT, 0, 0, 1⟩⟩ 1 3 true).reduceStats
          (NoneEncoder.new .int8 ⟨[], ⟨.kTINYINT, 0, 0, 1⟩⟩) =
        NoneEncoder.mk 3 ⟨[1, 2, 3], ⟨.kTINYINT, 0, 0, 1⟩⟩ 1 3 true ∧
      ((NoneEncoder.new .int8 ⟨[], ⟨.kTINYINT, 0, 0, 1⟩⟩).reduceStats
          (NoneEncoder.mk 3 ⟨[1, 2, 3], ⟨.kTINYINT, 0, 0, 1⟩⟩ 1 3 true)).stats =
        (NoneEncoder.mk 3 ⟨[1, 2, 3], ⟨.kTINYINT, 0, 0, 1⟩⟩ 1 3 true).stats ∧
      (NoneEncoder.mk 3 ⟨[1, 2, 3], ⟨.kTINYINT, 0, 0, 1⟩⟩ 1 3 true).updateStatsRange .int8
          (fun _ => true) (ptrOf []) (.block ⟨0, 0⟩) =
        (NoneEncoder.mk 3 ⟨[1, 2, 3], ⟨.kTINYINT, 0, 0, 1⟩⟩ 1 3 true, .ok ())) :=
  ⟨by decide, by decide, by decide,
    fresh_stats_identity .int8 (fun _ => true)
      (NoneEncoder.mk 3 ⟨[1, 2, 3], ⟨.kTINYINT, 0, 0, 1⟩⟩ 1 3 true) ⟨[], ⟨.kTINYINT, 0, 0, 1⟩⟩
      (ptrOf []) (.block ⟨0, 0⟩) [⟨0, 0⟩] (by decide) (by decide) (by decide)⟩
